import Mathlib

/-!
# Winding kernel and face merging (qbsp)

A shallow embedding of `src/qbsp/winding.c` (`BaseWindingForPlane`, `ClipWinding`,
`DivideWinding`, `MidpointWinding`) and `src/qbsp/merge.cc` (`TryMerge`, `MergeFaceToList`,
`MergeFaceList`, `CollectNodes_R`, `MergeAll`).

Conventions of the embedding

* `vec_t` is an exact rational (`ℚ`); a `vec3_t` / `qvec3d` is a `Vec3`.
* A `winding_t` is the list of its points; `numpoints` is the length of the list.  The fixed
  stack buffers `dists[MAX_POINTS_ON_WINDING]`, `sides[MAX_POINTS_ON_WINDING]` are lists.
* A returned pointer is modelled by its pointee: `NULL` is `none`, the input pointer `in` is
  `some` of the input list, a freshly allocated winding is `some` of the new list.
* `Message(msgError, ..)` ends the run; it is the `Except.error` outcome.
* Constants and helpers that `src/` uses but does not define (`ON_EPSILON`, `EQUAL_EPSILON`,
  `CONTINUOUS_EPSILON`, `MAXEDGES`, `BOGUS_RANGE`, `PLANENUM_LEAF`, the plane table
  `map.planes`, `qv::normalize`, `VectorNormalize`, `SubdivideFace`) are parameters.
* A `node_t *` is the path from `headnode` to the node; the tree is a value that the node
  tasks of `MergeAll` update.  `tbb::parallel_for_each` runs the node tasks in an order that
  is a parameter; the tasks share the two counters only.
* An `int` is an integer reduced to 32 bits in two's complement (`wrapInt`); the counters of
  `MergeAll` are such.
* The loop of `MergeFaceToList` is given twice: as the recursion `mergeLoop`, and one
  iteration at a time (`mergeStep`, run by `mergeRun` for a bounded number of tests of the
  loop condition); the two are proved to agree.
-/

namespace Qbsp

/-! ## Vectors and planes -/

/-- A `vec3_t`: three exact scalars. -/
structure Vec3 where
  x : ℚ
  y : ℚ
  z : ℚ
  deriving DecidableEq, Repr

/-- The `vec3_origin` constant. -/
def vec3_origin : Vec3 := ⟨0, 0, 0⟩

instance : Inhabited Vec3 := ⟨vec3_origin⟩

/-- Component `j` of a vector (`v[j]`, `j = 0, 1, 2`). -/
def Vec3.comp (v : Vec3) (j : Nat) : ℚ :=
  match j with
  | 0 => v.x
  | 1 => v.y
  | _ => v.z

/-- The `DotProduct` of `mathlib.h` / `qv::dot`. -/
def DotProduct (a b : Vec3) : ℚ := a.x * b.x + a.y * b.y + a.z * b.z

/-- The `CrossProduct` of `mathlib.h` / `qv::cross`. -/
def CrossProduct (a b : Vec3) : Vec3 :=
  ⟨a.y * b.z - a.z * b.y, a.z * b.x - a.x * b.z, a.x * b.y - a.y * b.x⟩

/-- The `VectorSubtract` of `mathlib.h` / `operator-` on `qvec3d`. -/
def VectorSubtract (a b : Vec3) : Vec3 := ⟨a.x - b.x, a.y - b.y, a.z - b.z⟩

/-- Unary minus on `qvec3d`. -/
def VectorInverse (a : Vec3) : Vec3 := ⟨-a.x, -a.y, -a.z⟩

/-- A `plane_t`: normal and distance. -/
structure Plane where
  normal : Vec3
  dist : ℚ
  deriving DecidableEq, Repr

/-- The opposite plane `(-normal, -dist)`. -/
def Plane.flip (p : Plane) : Plane := ⟨VectorInverse p.normal, -p.dist⟩

/-- A `winding_t`, as the list of its points. -/
abbrev Winding := List Vec3

/-- The point `w->points[i]`. -/
def pt (w : Winding) (i : Nat) : Vec3 := w.getD i vec3_origin

/-! ## winding.c : classification -/

/-- The side constants `SIDE_FRONT = 0`, `SIDE_BACK = 1`, `SIDE_ON = 2`. -/
inductive Side where
  | SIDE_FRONT
  | SIDE_BACK
  | SIDE_ON
  deriving DecidableEq, Repr

open Side

/-- Fatal outcomes: the error messages of `winding.c`, and the `std::out_of_range` thrown by
`map.planes.at` in `merge.cc`. -/
inductive Fatal where
  | errNoWindingAxis
  | errLowPointCount
  | planeOutOfRange
  deriving DecidableEq, Repr

/-- The value `dot = DotProduct(in->points[i], split->normal) - split->dist`. -/
def planeDist (split : Plane) (p : Vec3) : ℚ := DotProduct p split.normal - split.dist

/-- The side chosen for a signed distance `dot` (winding.c lines 138-143). -/
def sideOf (ON_EPSILON : ℚ) (dot : ℚ) : Side :=
  if dot > ON_EPSILON then SIDE_FRONT
  else if dot < -ON_EPSILON then SIDE_BACK
  else SIDE_ON

/-- The array `dists` after the classification loop and `dists[i] = dists[0]`. -/
def distsOf (split : Plane) (w : Winding) : List ℚ :=
  let d := w.map (planeDist split)
  d ++ [d.getD 0 0]

/-- The array `sides` after the classification loop and `sides[i] = sides[0]`.  For a winding
without points the extra slot holds an arbitrary value (the source copies an unset slot). -/
def sidesOf (ON_EPSILON : ℚ) (split : Plane) (w : Winding) : List Side :=
  let s := w.map (fun p => sideOf ON_EPSILON (planeDist split p))
  s ++ [s.getD 0 SIDE_ON]

/-- The counter `counts[s]` after the classification loop. -/
def counts (ON_EPSILON : ℚ) (split : Plane) (w : Winding) (s : Side) : Nat :=
  (w.map (fun p => sideOf ON_EPSILON (planeDist split p))).count s

/-- One coordinate of the split point (the body of the `j` loop). -/
def midCoord (nj dist p1j p2j dot : ℚ) : ℚ :=
  if nj = 1 then dist
  else if nj = -1 then -dist
  else p1j + dot * (p2j - p1j)

/-- The split point `mid` between `p1` and `p2`, whose distances are `d1` and `d2`. -/
def splitPoint (split : Plane) (p1 p2 : Vec3) (d1 d2 : ℚ) : Vec3 :=
  let dot := d1 / (d1 - d2)
  ⟨midCoord split.normal.x split.dist p1.x p2.x dot,
   midCoord split.normal.y split.dist p1.y p2.y dot,
   midCoord split.normal.z split.dist p1.z p2.z dot⟩

/-! ## winding.c : ClipWinding -/

/-- The points that iteration `i` of the building loop of `ClipWinding` appends to `neww`. -/
def clipStep (split : Plane) (w : Winding) (sides : List Side) (dists : List ℚ) (i : Nat) :
    List Vec3 :=
  let p1 := pt w i
  if sides.getD i SIDE_ON = SIDE_ON then [p1]
  else
    let kept := if sides.getD i SIDE_ON = SIDE_FRONT then [p1] else []
    if sides.getD (i + 1) SIDE_ON = SIDE_ON ∨ sides.getD (i + 1) SIDE_ON = sides.getD i SIDE_ON then
      kept
    else
      let p2 := pt w ((i + 1) % w.length)
      kept ++ [splitPoint split p1 p2 (dists.getD i 0) (dists.getD (i + 1) 0)]

/-- The winding `neww` at the end of the building loop of `ClipWinding`. -/
def clipBuild (ON_EPSILON : ℚ) (split : Plane) (w : Winding) : Winding :=
  (List.range w.length).flatMap
    (clipStep split w (sidesOf ON_EPSILON split w) (distsOf split w))

/-- The function `ClipWinding (in, split, keepon)`. -/
def ClipWinding (ON_EPSILON : ℚ) (w : Winding) (split : Plane) (keepon : Bool) :
    Except Fatal (Option Winding) :=
  if keepon = true ∧ counts ON_EPSILON split w SIDE_FRONT = 0
      ∧ counts ON_EPSILON split w SIDE_BACK = 0 then
    .ok (some w)
  else if counts ON_EPSILON split w SIDE_FRONT = 0 then
    .ok none
  else if counts ON_EPSILON split w SIDE_BACK = 0 then
    .ok (some w)
  else
    let maxpts := w.length + 4
    let neww := clipBuild ON_EPSILON split w
    if neww.length > maxpts then .error Fatal.errLowPointCount
    else .ok (some neww)

/-! ## winding.c : DivideWinding -/

/-- The points that iteration `i` of the building loop of `DivideWinding` appends to `f`. -/
def divideStepFront (split : Plane) (w : Winding) (sides : List Side) (dists : List ℚ)
    (i : Nat) : List Vec3 :=
  let p1 := pt w i
  if sides.getD i SIDE_ON = SIDE_ON then [p1]
  else
    let kept := if sides.getD i SIDE_ON = SIDE_FRONT then [p1] else []
    if sides.getD (i + 1) SIDE_ON = SIDE_ON ∨ sides.getD (i + 1) SIDE_ON = sides.getD i SIDE_ON then
      kept
    else
      let p2 := pt w ((i + 1) % w.length)
      kept ++ [splitPoint split p1 p2 (dists.getD i 0) (dists.getD (i + 1) 0)]

/-- The points that iteration `i` of the building loop of `DivideWinding` appends to `b`. -/
def divideStepBack (split : Plane) (w : Winding) (sides : List Side) (dists : List ℚ)
    (i : Nat) : List Vec3 :=
  let p1 := pt w i
  if sides.getD i SIDE_ON = SIDE_ON then [p1]
  else
    let kept := if sides.getD i SIDE_ON = SIDE_BACK then [p1] else []
    if sides.getD (i + 1) SIDE_ON = SIDE_ON ∨ sides.getD (i + 1) SIDE_ON = sides.getD i SIDE_ON then
      kept
    else
      let p2 := pt w ((i + 1) % w.length)
      kept ++ [splitPoint split p1 p2 (dists.getD i 0) (dists.getD (i + 1) 0)]

/-- The winding `f` at the end of the building loop of `DivideWinding`. -/
def divideBuildFront (ON_EPSILON : ℚ) (split : Plane) (w : Winding) : Winding :=
  (List.range w.length).flatMap
    (divideStepFront split w (sidesOf ON_EPSILON split w) (distsOf split w))

/-- The winding `b` at the end of the building loop of `DivideWinding`. -/
def divideBuildBack (ON_EPSILON : ℚ) (split : Plane) (w : Winding) : Winding :=
  (List.range w.length).flatMap
    (divideStepBack split w (sidesOf ON_EPSILON split w) (distsOf split w))

/-- The function `DivideWinding (in, split, &front, &back)`; the result is the pair
`(*front, *back)`.  The tests `counts[0]`, `counts[1]` read the counters of `SIDE_FRONT` and
`SIDE_BACK`. -/
def DivideWinding (ON_EPSILON : ℚ) (w : Winding) (split : Plane) :
    Except Fatal (Option Winding × Option Winding) :=
  if counts ON_EPSILON split w SIDE_FRONT = 0 then
    .ok (none, some w)
  else if counts ON_EPSILON split w SIDE_BACK = 0 then
    .ok (some w, none)
  else
    let maxpts := w.length + 4
    let f := divideBuildFront ON_EPSILON split w
    let b := divideBuildBack ON_EPSILON split w
    if f.length > maxpts ∨ b.length > maxpts then .error Fatal.errLowPointCount
    else .ok (some f, some b)

/-! ## merge.cc : faces and the merge environment -/

/-- A `face_t`: the winding `w` and the identity attributes that `TryMerge` reads. -/
structure Face where
  w : Winding
  planenum : Int
  planeside : Int
  texinfo : Int
  contents : Int
  lmshift : Int
  deriving DecidableEq, Repr

/-- What `merge.cc` takes from outside `src/`: the tolerances `EQUAL_EPSILON` and
`CONTINUOUS_EPSILON`, the limit `MAXEDGES`, the plane table `map.planes` and the function
`qv::normalize`. -/
structure MergeEnv where
  EQUAL_EPSILON : ℚ
  CONTINUOUS_EPSILON : ℚ
  MAXEDGES : Nat
  planes : List Plane
  normalize : Vec3 → Vec3

/-- The lookup `map.planes.at(planenum)`; `none` stands for the thrown `std::out_of_range`. -/
def planeAt (planes : List Plane) (planenum : Int) : Option Plane :=
  if 0 ≤ planenum then planes.get? planenum.toNat else none

/-- Modelled from the spec: `NewFaceFromFace` is defined outside `src/`; the new face carries
the identity attributes of the face it is made from and a winding without points. -/
def NewFaceFromFace (f : Face) : Face := { f with w := [] }

/-- Modelled from the spec: `UpdateFaceSphere` is defined outside `src/`; it recomputes the
cached bounding sphere, which is not part of `Face` here, and leaves every other field. -/
def UpdateFaceSphere (f : Face) : Face := f

/-! ## merge.cc : TryMerge -/

/-- The test of the `k` loop: coordinate `k` breaks the loop. -/
def coordBreaks (EQUAL_EPSILON : ℚ) (p1 p2 p3 p4 : Vec3) (k : Nat) : Bool :=
  decide (|p1.comp k - p4.comp k| > EQUAL_EPSILON ∨ |p2.comp k - p3.comp k| > EQUAL_EPSILON)

/-- The `k` loop ends with `k == 3`: no coordinate breaks it. -/
def edgeMatches (EQUAL_EPSILON : ℚ) (p1 p2 p3 p4 : Vec3) : Bool :=
  (List.range 3).all (fun k => !coordBreaks EQUAL_EPSILON p1 p2 p3 p4 k)

/-- The `j` loop for the edge `p1 -> p2` of `f1`: the first `j` at which it breaks. -/
def findJ (EQUAL_EPSILON : ℚ) (p1 p2 : Vec3) (w2 : Winding) : Option Nat :=
  (List.range w2.length).find?
    (fun j => edgeMatches EQUAL_EPSILON p1 p2 (pt w2 j) (pt w2 ((j + 1) % w2.length)))

/-- The search for a common edge: the values of `(i, j)` when the outer loop breaks, `none`
when it ends with `i == f1->w.size()`. -/
def findEdge (EQUAL_EPSILON : ℚ) (w1 w2 : Winding) : Option (Nat × Nat) :=
  (List.range w1.length).findSome?
    (fun i => (findJ EQUAL_EPSILON (pt w1 i) (pt w1 ((i + 1) % w1.length)) w2).map
      (fun j => (i, j)))

/-- The copy loop `for (; k != stop; k = (k + 1) % size) push_back(w[k])`, run for at most
`fuel` iterations. -/
def copyLoop (w : Winding) (stop : Nat) : Nat → Nat → List Vec3
  | 0, _ => []
  | fuel + 1, k => if k = stop then [] else pt w k :: copyLoop w stop fuel ((k + 1) % w.length)

/-- The normal `planenormal` used by `TryMerge`: the plane normal, negated when `planeside`
is set. -/
def mergeNormal (plane : Plane) (planeside : Int) : Vec3 :=
  if planeside ≠ 0 then VectorInverse plane.normal else plane.normal

/-- The first `dot` of `TryMerge` (lines 106-112), for the common edge `(i, j)`. -/
def dot1 (env : MergeEnv) (planenormal : Vec3) (w1 w2 : Winding) (i j : Nat) : ℚ :=
  let p1 := pt w1 i
  let back := pt w1 ((i + w1.length - 1) % w1.length)
  let delta := VectorSubtract p1 back
  let normal := env.normalize (CrossProduct planenormal delta)
  let back := pt w2 ((j + 2) % w2.length)
  let delta := VectorSubtract back p1
  DotProduct delta normal

/-- The second `dot` of `TryMerge` (lines 117-123), for the common edge `(i, j)`. -/
def dot2 (env : MergeEnv) (planenormal : Vec3) (w1 w2 : Winding) (i j : Nat) : ℚ :=
  let p2 := pt w1 ((i + 1) % w1.length)
  let back := pt w1 ((i + 2) % w1.length)
  let delta := VectorSubtract back p2
  let normal := env.normalize (CrossProduct planenormal delta)
  let back := pt w2 ((j + w2.length - 1) % w2.length)
  let delta := VectorSubtract back p2
  DotProduct delta normal

/-- The winding of the new face (lines 136-152): the copy of the first polygon followed by
the copy of the second. -/
def mergedWinding (w1 w2 : Winding) (i j : Nat) (keep1 keep2 : Bool) : Winding :=
  let k := if keep2 then (i + 1) % w1.length else (i + 2) % w1.length
  let l := if keep1 then (j + 1) % w2.length else (j + 2) % w2.length
  copyLoop w1 i w1.length k ++ copyLoop w2 j w2.length l

/-- The function `TryMerge (f1, f2)`: `ok none` is the returned `NULL`, `ok (some newf)` the
new face. -/
def TryMerge (env : MergeEnv) (f1 f2 : Face) : Except Fatal (Option Face) :=
  if f1.w.length = 0 ∨ f2.w.length = 0 ∨ f1.planeside ≠ f2.planeside ∨ f1.texinfo ≠ f2.texinfo
      ∨ f1.contents ≠ f2.contents ∨ f1.lmshift ≠ f2.lmshift then
    .ok none
  else
    match findEdge env.EQUAL_EPSILON f1.w f2.w with
    | none => .ok none
    | some (i, j) =>
      match planeAt env.planes f1.planenum with
      | none => .error Fatal.planeOutOfRange
      | some plane =>
        let planenormal := mergeNormal plane f1.planeside
        let d1 := dot1 env planenormal f1.w f2.w i j
        if d1 > env.CONTINUOUS_EPSILON then .ok none
        else
          let keep1 := decide (d1 < -env.CONTINUOUS_EPSILON)
          let d2 := dot2 env planenormal f1.w f2.w i j
          if d2 > env.CONTINUOUS_EPSILON then .ok none
          else
            let keep2 := decide (d2 < -env.CONTINUOUS_EPSILON)
            if f1.w.length + f2.w.length > env.MAXEDGES then .ok none
            else
              let newf := NewFaceFromFace f1
              .ok (some (UpdateFaceSphere
                { newf with w := newf.w ++ mergedWinding f1.w f2.w i j keep1 keep2 }))

/-! ## merge.cc : MergeFaceToList, MergeFaceList -/

/-- The loop of `MergeFaceToList`: `done` holds the list elements before the iterator `it`,
`rest` the elements from `it` on; a merge erases `*it` and restarts at `list.begin()`. -/
def mergeLoop (env : MergeEnv) (face : Face) (done rest : List Face) :
    Except Fatal (List Face) :=
  match rest with
  | [] => .ok (done ++ [face])
  | g :: rest1 =>
    match TryMerge env face g with
    | .error e => .error e
    | .ok (some newf) => mergeLoop env newf [] (done ++ rest1)
    | .ok none => mergeLoop env face (done ++ [g]) rest1
termination_by (done.length + rest.length, rest.length)
decreasing_by
  · simp_wf
    apply Prod.Lex.left
    omega
  · simp_wf
    have h : done.length + 1 + rest1.length = done.length + (rest1.length + 1) := by omega
    rw [h]
    apply Prod.Lex.right
    omega

/-- The function `MergeFaceToList (face, list)`; the result is the updated `list`. -/
def MergeFaceToList (env : MergeEnv) (face : Face) (list : List Face) :
    Except Fatal (List Face) :=
  mergeLoop env face [] list

/-- The function `MergeFaceList (input)`. -/
def MergeFaceList (env : MergeEnv) (input : List Face) : Except Fatal (List Face) :=
  input.foldlM (fun result face => MergeFaceToList env face result) []

/-! ## Vocabulary of the properties -/

/-- No vertex of `w` is classified `s` against `split`. -/
def NoVertex (ON_EPSILON : ℚ) (split : Plane) (w : Winding) (s : Side) : Prop :=
  ∀ p ∈ w, sideOf ON_EPSILON (planeDist split p) ≠ s

/-- Two points agree within `tol` in every coordinate. -/
def CoordsWithin (tol : ℚ) (a b : Vec3) : Prop :=
  |a.x - b.x| ≤ tol ∧ |a.y - b.y| ≤ tol ∧ |a.z - b.z| ≤ tol

/-- The edge `i` of `w1` is, within `tol` in every coordinate, the reverse of the edge `j` of
`w2`: `w1[i]` agrees with `w2[j+1]` and `w1[i+1]` with `w2[j]` (indices cyclic). -/
def SharedEdge (tol : ℚ) (w1 w2 : Winding) (i j : Nat) : Prop :=
  CoordsWithin tol (pt w1 i) (pt w2 ((j + 1) % w2.length))
    ∧ CoordsWithin tol (pt w1 ((i + 1) % w1.length)) (pt w2 j)

/-- The pair `(i, j)` comes no later than `(i2, j2)` in lexicographic order. -/
def LexLe (i j i2 j2 : Nat) : Prop := i < i2 ∨ (i = i2 ∧ j ≤ j2)

/-- An instance of `normalize` on exact scalars, used for the concrete environments: the
vector divided by `Rat.sqrt` of its squared length.  It is the exact normalisation of every
vector whose length is rational; a vector for which `Rat.sqrt` gives `0` is left as it is. -/
def normalizeQ (v : Vec3) : Vec3 :=
  let len := Rat.sqrt (DotProduct v v)
  if len = 0 then v else ⟨v.x / len, v.y / len, v.z / len⟩

/-- The function `normalize` returns its argument scaled by a factor that is not negative
(for `qv::normalize`, the inverse of the length). -/
def ScalesNonneg (normalize : Vec3 → Vec3) : Prop :=
  ∀ v, ∃ c : ℚ, 0 ≤ c ∧ normalize v = ⟨c * v.x, c * v.y, c * v.z⟩

/-- The combination of the points of a winding with the weights `cs`. -/
def combo : List ℚ → Winding → Vec3
  | c :: cs, p :: ps =>
    ⟨c * p.x + (combo cs ps).x, c * p.y + (combo cs ps).y, c * p.z + (combo cs ps).z⟩
  | _, _ => vec3_origin

/-- The point `p` lies in the convex polygon with the vertices `w`: it is a combination of
them with weights that are not negative and sum to one. -/
def InHull (w : Winding) (p : Vec3) : Prop :=
  ∃ cs : List ℚ, cs.length = w.length ∧ (∀ c ∈ cs, 0 ≤ c) ∧ cs.sum = 1 ∧ combo cs w = p

/-- The polygon `r` spans the polygon `w`: every vertex of `w` lies in `r`. -/
def Spans (r w : Winding) : Prop := ∀ p ∈ w, InHull r p

/-- The face obtained from `face` by merging the faces `ms` into it one after the other with
`TryMerge`; none when one of these merges does not succeed. -/
def mergeChain (env : MergeEnv) (face : Face) : List Face → Option Face
  | [] => some face
  | g :: gs =>
    match TryMerge env face g with
    | .ok (some newf) => mergeChain env newf gs
    | _ => none

/-- The quantity of the convexity test at vertex `t` of `w`: with `v = w[t]`, the incoming
edge `e = v - w[t-1]` and the edge normal `n = normalize (N x e)`, the value
`dot (w[t+1] - v, n)` (indices cyclic). -/
def turn (normalize : Vec3 → Vec3) (N : Vec3) (w : Winding) (t : Nat) : ℚ :=
  DotProduct (VectorSubtract (pt w ((t + 1) % w.length)) (pt w t))
    (normalize (CrossProduct N
      (VectorSubtract (pt w t) (pt w ((t + w.length - 1) % w.length)))))

/-- The winding `w` is convex within `tol`: no vertex is reflex beyond `tol`. -/
def ConvexWithin (normalize : Vec3 → Vec3) (N : Vec3) (w : Winding) (tol : ℚ) : Prop :=
  ∀ t < w.length, turn normalize N w t ≤ tol

/-- The winding `w` is convex, as seen along the normal `N`: at every vertex the next vertex
is not on the positive side of the incoming edge (no normalisation involved). -/
def Convex (N : Vec3) (w : Winding) : Prop :=
  ∀ t < w.length,
    DotProduct (VectorSubtract (pt w ((t + 1) % w.length)) (pt w t))
      (CrossProduct N (VectorSubtract (pt w t) (pt w ((t + w.length - 1) % w.length)))) ≤ 0

/-- Every point of `w` lies in the plane. -/
def InPlane (plane : Plane) (w : Winding) : Prop := ∀ p ∈ w, planeDist plane p = 0

/-! ## Concrete inputs -/

/-- The triangle `(0,0,0), (1,0,0), (0,1,0)`, lying in the plane `z = 0`. -/
def triangleZ0 : Winding := [⟨0, 0, 0⟩, ⟨1, 0, 0⟩, ⟨0, 1, 0⟩]

/-- The plane `z = 0`, with normal `(0,0,1)`. -/
def planeZ0 : Plane := ⟨⟨0, 0, 1⟩, 0⟩

/-- The unit square `(0,0,0), (1,0,0), (1,1,0), (0,1,0)`. -/
def squareZ0 : Winding := [⟨0, 0, 0⟩, ⟨1, 0, 0⟩, ⟨1, 1, 0⟩, ⟨0, 1, 0⟩]

/-- The plane `x = 1/2`, with normal `(1,0,0)`; it cuts `squareZ0` in two halves. -/
def planeXHalf : Plane := ⟨⟨1, 0, 0⟩, 1 / 2⟩

/-- The half of `squareZ0` in front of `planeXHalf`, as `ClipWinding` builds it. -/
def squareFrontHalf : Winding := [⟨1 / 2, 0, 0⟩, ⟨1, 0, 0⟩, ⟨1, 1, 0⟩, ⟨1 / 2, 1, 0⟩]

/-- The half of `squareZ0` behind `planeXHalf`, as `DivideWinding` builds it. -/
def squareBackHalf : Winding := [⟨0, 0, 0⟩, ⟨1 / 2, 0, 0⟩, ⟨1 / 2, 1, 0⟩, ⟨0, 1, 0⟩]

/-- A sample environment: tolerances `0.001`, `MAXEDGES = 64`, the plane table holding the
plane `z = 0` at index `0`. -/
def envQ : MergeEnv :=
  { EQUAL_EPSILON := 1 / 1000, CONTINUOUS_EPSILON := 1 / 1000, MAXEDGES := 64,
    planes := [planeZ0], normalize := normalizeQ }

/-- The environment `envQ` with the limit `MAXEDGES` lowered to `7`. -/
def envSmall : MergeEnv := { envQ with MAXEDGES := 7 }

/-- A unit square in the plane `z = 0`, between `x = 0` and `x = 1`. -/
def faceA : Face :=
  { w := [⟨0, 0, 0⟩, ⟨1, 0, 0⟩, ⟨1, -1, 0⟩, ⟨0, -1, 0⟩],
    planenum := 0, planeside := 0, texinfo := 0, contents := 0, lmshift := 4 }

/-- The unit square next to `faceA`, between `x = 1` and `x = 2`, with the same attributes. -/
def faceB : Face :=
  { w := [⟨1, -1, 0⟩, ⟨1, 0, 0⟩, ⟨2, 0, 0⟩, ⟨2, -1, 0⟩],
    planenum := 0, planeside := 0, texinfo := 0, contents := 0, lmshift := 4 }

/-- The face `faceB` with another material reference. -/
def faceBtex : Face := { faceB with texinfo := 1 }

/-- The rectangle covering `faceA` and `faceB`. -/
def faceAB : Face :=
  { w := [⟨0, -1, 0⟩, ⟨0, 0, 0⟩, ⟨2, 0, 0⟩, ⟨2, -1, 0⟩],
    planenum := 0, planeside := 0, texinfo := 0, contents := 0, lmshift := 4 }

/-- The face `faceB` with its two vertices on the common edge moved by `0.0005` along `x`. -/
def faceBnear : Face :=
  { faceB with w := [⟨1 + 1 / 2000, -1, 0⟩, ⟨1 + 1 / 2000, 0, 0⟩, ⟨2, 0, 0⟩, ⟨2, -1, 0⟩] }

/-- The face `faceB` with its two vertices on the common edge moved by `0.01` along `x`. -/
def faceBfar : Face :=
  { faceB with w := [⟨1 + 1 / 100, -1, 0⟩, ⟨1 + 1 / 100, 0, 0⟩, ⟨2, 0, 0⟩, ⟨2, -1, 0⟩] }

/-- The unit square `(1,0,0), (1,1,0), (1,1,1), (1,0,1)` of the scenario; it lies in the
plane `x = 1`. -/
def squareXw : Winding := [⟨1, 0, 0⟩, ⟨1, 1, 0⟩, ⟨1, 1, 1⟩, ⟨1, 0, 1⟩]

/-- The unit square `(0,0,0), (1,0,0), (1,0,1), (0,0,1)` of the scenario; it lies in the
plane `y = 0`. -/
def squareYw : Winding := [⟨0, 0, 0⟩, ⟨1, 0, 0⟩, ⟨1, 0, 1⟩, ⟨0, 0, 1⟩]

/-- The four vertices of `squareXw` and `squareYw` off their common edge. -/
def diagonalw : Winding := [⟨1, 1, 0⟩, ⟨1, 1, 1⟩, ⟨0, 0, 1⟩, ⟨0, 0, 0⟩]

/-- The plane `x = 1`, with normal `(1,0,0)`. -/
def planeX1 : Plane := ⟨⟨1, 0, 0⟩, 1⟩

/-- The environment `envQ` with the plane `x = 1` at index `0` of the plane table. -/
def envX : MergeEnv := { envQ with planes := [planeX1] }

/-- The face of the scenario with the winding `squareXw`. -/
def squareX : Face :=
  { w := squareXw, planenum := 0, planeside := 0, texinfo := 0, contents := 0, lmshift := 4 }

/-- The face of the scenario with the winding `squareYw` and the attributes of `squareX`. -/
def squareY : Face := { squareX with w := squareYw }

/-- The face with the winding `diagonalw` and the attributes of `squareX`. -/
def diagonal : Face := { squareX with w := diagonalw }

/-- A convex pentagon in the plane `z = 0` next to `faceA`, all of its edges longer than 1:
its edge leaving the corner `(1,0,0)` ends `0.0005` above the line `y = 0`, about `1` further
along `x`; the next edge is `100` long and a little less steep. -/
def faceP : Face :=
  { faceA with w := [⟨1, -1, 0⟩, ⟨1, 0, 0⟩, ⟨63999999 / 32000000, 1 / 2000, 0⟩,
      ⟨3263999999 / 32000000, 81 / 2000, 0⟩, ⟨3263999999 / 32000000, -1, 0⟩] }

/-- The face that `TryMerge` builds from `faceA` and `faceP`. -/
def faceAP : Face :=
  { faceA with w := [⟨0, -1, 0⟩, ⟨0, 0, 0⟩, ⟨63999999 / 32000000, 1 / 2000, 0⟩,
      ⟨3263999999 / 32000000, 81 / 2000, 0⟩, ⟨3263999999 / 32000000, -1, 0⟩] }

/-- A triangle in the plane `z = 0` next to `faceA`, with its apex at `(2, -1/2, 0)`. -/
def faceT : Face := { faceA with w := [⟨1, -1, 0⟩, ⟨1, 0, 0⟩, ⟨2, -1 / 2, 0⟩] }

/-- The pentagon that `TryMerge` builds from `faceA` and `faceT`. -/
def faceAT : Face :=
  { faceA with w := [⟨1, -1, 0⟩, ⟨0, -1, 0⟩, ⟨0, 0, 0⟩, ⟨1, 0, 0⟩, ⟨2, -1 / 2, 0⟩] }

/-- A convex quadrilateral in the plane `z = 0`: the right triangle `(0,0), (8,6), (8,0)` with
the extra vertex `(4,3)` on its long side. -/
def faceC : Face :=
  { faceA with w := [⟨0, 0, 0⟩, ⟨4, 3, 0⟩, ⟨8, 6, 0⟩, ⟨8, 0, 0⟩] }

/-- A triangle in the plane `z = 0` next to `faceC`; its vertex near `(8,6,0)` is `0.0009` off
in `x` and in `y`. -/
def faceD : Face :=
  { faceA with w := [⟨8, 0, 0⟩, ⟨79991 / 10000, 60009 / 10000, 0⟩, ⟨18, 3, 0⟩] }

/-- The face that `TryMerge` builds from `faceC` and `faceD`. -/
def faceCD : Face :=
  { faceA with w := [⟨8, 0, 0⟩, ⟨0, 0, 0⟩, ⟨4, 3, 0⟩, ⟨79991 / 10000, 60009 / 10000, 0⟩,
      ⟨18, 3, 0⟩] }

/-! ## Vocabulary: cyclic runs of sides -/

/-- The side of the vertex `i` of `w` (indices cyclic), as the classification loop sets it. -/
def sideAt (ON_EPSILON : ℚ) (split : Plane) (w : Winding) (i : Nat) : Side :=
  sideOf ON_EPSILON (planeDist split (pt w (i % w.length)))

/-- The number of places where a cyclic run of vertices of side `s` ends: the vertex `i` is of
side `s` and the next vertex is not. -/
def runEnds (ON_EPSILON : ℚ) (split : Plane) (w : Winding) (s : Side) : Nat :=
  (List.range w.length).countP
    (fun i => decide (sideAt ON_EPSILON split w i = s ∧ sideAt ON_EPSILON split w (i + 1) ≠ s))

/-- The vertices of side `s` form one contiguous cyclic run (or there is none, or all are):
at most one run of them ends. -/
def OneRun (ON_EPSILON : ℚ) (split : Plane) (w : Winding) (s : Side) : Prop :=
  runEnds ON_EPSILON split w s ≤ 1

/-- A winding of two points, from `(0,0,0)` to `(1,0,0)`. -/
def segmentX : Winding := [⟨0, 0, 0⟩, ⟨1, 0, 0⟩]

/-! ## winding.c : BaseWindingForPlane, MidpointWinding -/

/-- The `VectorAdd` of `mathlib.h`. -/
def VectorAdd (a b : Vec3) : Vec3 := ⟨a.x + b.x, a.y + b.y, a.z + b.z⟩

/-- The `VectorScale` of `mathlib.h`: the vector `v` times the scalar `scale`. -/
def VectorScale (v : Vec3) (scale : ℚ) : Vec3 := ⟨v.x * scale, v.y * scale, v.z * scale⟩

/-- The `VectorMA` of `mathlib.h`: `va + scale * vb`. -/
def VectorMA (va : Vec3) (scale : ℚ) (vb : Vec3) : Vec3 :=
  ⟨va.x + scale * vb.x, va.y + scale * vb.y, va.z + scale * vb.z⟩

/-- One iteration of the major-axis loop of `BaseWindingForPlane` on the pair `(x, max)`. -/
def axisStep (normal : Vec3) (s : Int × ℚ) (i : Nat) : Int × ℚ :=
  let v := |normal.comp i|
  if v > s.2 then ((i : Int), v) else s

/-- The variable `x` after the major-axis loop, started from `x = -1`, `max = -BOGUS_RANGE`. -/
def majorAxis (BOGUS_RANGE : ℚ) (normal : Vec3) : Int :=
  ((List.range 3).foldl (axisStep normal) (-1, -BOGUS_RANGE)).1

/-- The part of `BaseWindingForPlane` after the `switch` (winding.c lines 44-72), from the
value `vup0` that the `switch` left in `vup`. -/
def baseWindingPoints (VectorNormalize : Vec3 → Vec3) (p : Plane) (vup0 : Vec3) : Winding :=
  let v := DotProduct vup0 p.normal
  let vup1 := VectorNormalize (VectorMA vup0 (-v) p.normal)
  let org := VectorScale p.normal p.dist
  let vright0 := CrossProduct vup1 p.normal
  let vup := VectorScale vup1 8192
  let vright := VectorScale vright0 8192
  [VectorAdd (VectorSubtract org vright) vup,
   VectorAdd (VectorAdd org vright) vup,
   VectorSubtract (VectorAdd org vright) vup,
   VectorSubtract (VectorSubtract org vright) vup]

/-- The function `BaseWindingForPlane (p)`.  The constant `BOGUS_RANGE` and the function
`VectorNormalize` (the vector scaled to unit length) are used by `src/` but not defined
there: they are parameters. -/
def BaseWindingForPlane (BOGUS_RANGE : ℚ) (VectorNormalize : Vec3 → Vec3) (p : Plane) :
    Except Fatal Winding :=
  let x := majorAxis BOGUS_RANGE p.normal
  if x = 0 ∨ x = 1 then .ok (baseWindingPoints VectorNormalize p ⟨0, 0, 1⟩)
  else if x = 2 then .ok (baseWindingPoints VectorNormalize p ⟨1, 0, 0⟩)
  else .error Fatal.errNoWindingAxis

/-- The function `MidpointWinding (w, v)`; the result is the vector `v`. -/
def MidpointWinding (w : Winding) : Vec3 :=
  let v := w.foldl VectorAdd vec3_origin
  if w.length > 0 then ⟨v.x / w.length, v.y / w.length, v.z / w.length⟩ else v

/-! ## Vocabulary: extents and squares -/

/-- The largest coordinate `j` among the points of `w`. -/
def maxComp (w : Winding) (j : Nat) : ℚ :=
  w.foldl (fun m p => max m (p.comp j)) ((pt w 0).comp j)

/-- The smallest coordinate `j` among the points of `w`. -/
def minComp (w : Winding) (j : Nat) : ℚ :=
  w.foldl (fun m p => min m (p.comp j)) ((pt w 0).comp j)

/-- The bounding extent of `w` along the coordinate axis `j`. -/
def extent (w : Winding) (j : Nat) : ℚ := maxComp w j - minComp w j

/-- The edge of `w` that leaves the vertex `i` (indices cyclic). -/
def edgeVec (w : Winding) (i : Nat) : Vec3 :=
  VectorSubtract (pt w ((i + 1) % w.length)) (pt w i)

/-- The winding `w` is a square of side `s`: four points, every edge of length `s` and
perpendicular to the next edge. -/
def IsSquare (w : Winding) (s : ℚ) : Prop :=
  w.length = 4 ∧ ∀ i, i < 4 →
    DotProduct (edgeVec w i) (edgeVec w i) = s * s
    ∧ DotProduct (edgeVec w i) (edgeVec w ((i + 1) % 4)) = 0

/-- The six axis-aligned unit normals. -/
def axisNormals : List Vec3 :=
  [⟨1, 0, 0⟩, ⟨-1, 0, 0⟩, ⟨0, 1, 0⟩, ⟨0, -1, 0⟩, ⟨0, 0, 1⟩, ⟨0, 0, -1⟩]

/-- The function `normalize` leaves every vector of length one as it is. -/
def FixesUnit (normalize : Vec3 → Vec3) : Prop :=
  ∀ v, DotProduct v v = 1 → normalize v = v

/-! ## merge.cc : CollectNodes_R, MergeAll -/

/-- A `node_t` with what `merge.cc` reads of it: a leaf (a node whose `planenum` is
`PLANENUM_LEAF`, without children) holds its `facelist`; an internal node holds `planenum`,
its `facelist` and the nodes `children[0]`, `children[1]`. -/
inductive Node where
  | leaf (facelist : List Face)
  | node (planenum : Int) (facelist : List Face) (child0 child1 : Node)
  deriving Repr

/-- The field `node->planenum`; `PLANENUM_LEAF` is used by `src/` but not defined there: it is
a parameter. -/
def Node.planenum (PLANENUM_LEAF : Int) : Node → Int
  | .leaf _ => PLANENUM_LEAF
  | .node pn _ _ _ => pn

/-- The field `node->facelist`. -/
def Node.facelist : Node → List Face
  | .leaf fl => fl
  | .node _ fl _ _ => fl

/-- A `node_t *` into the tree of `headnode`: the path from `headnode` to the node, `false`
for `children[0]` and `true` for `children[1]`. -/
abbrev NodeRef := List Bool

/-- The node that a `NodeRef` points to. -/
def nodeAt : Node → NodeRef → Option Node
  | t, [] => some t
  | .leaf _, _ :: _ => none
  | .node _ _ c0 _, false :: rest => nodeAt c0 rest
  | .node _ _ _ c1, true :: rest => nodeAt c1 rest

/-- The list `node->facelist` read through a `NodeRef`. -/
def facelistAt (t : Node) (r : NodeRef) : List Face :=
  match nodeAt t r with
  | some n => n.facelist
  | none => []

/-- The tree after an assignment to `node->facelist` through a `NodeRef`. -/
def setFacelist : Node → NodeRef → List Face → Node
  | .leaf _, [], fl => .leaf fl
  | .node pn _ c0 c1, [], fl => .node pn fl c0 c1
  | .leaf old, _ :: _, _ => .leaf old
  | .node pn old c0 c1, false :: rest, fl => .node pn old (setFacelist c0 rest fl) c1
  | .node pn old c0 c1, true :: rest, fl => .node pn old c0 (setFacelist c1 rest fl)

/-- The value of a 64-bit or wider integer converted to `int` (32 bits, two's complement). -/
def wrapInt (x : Int) : Int := (x + 2147483648) % 4294967296 - 2147483648

/-- The operator `+=` of `std::atomic<int>` with a `size_t` argument: the argument is converted
to `int`, the addition wraps around. -/
def atomicAdd (counter : Int) (n : Nat) : Int := wrapInt (counter + wrapInt (n : Int))

/-- What `MergeAll` works on: the tree below `headnode` and the two counters. -/
structure MergeState where
  tree : Node
  mergefaces : Int
  premergefaces : Int
  deriving Repr

/-- The body of the lambda that `MergeAll` runs for the node `r`.  The function `SubdivideFace`
is defined outside `src/`: it is a parameter. -/
def nodeTask (env : MergeEnv) (SubdivideFace : Face → List Face) (r : NodeRef)
    (s : MergeState) : Except Fatal MergeState :=
  let before := (facelistAt s.tree r).length
  match MergeFaceList env (facelistAt s.tree r) with
  | .error e => .error e
  | .ok merged_pre_subdivide =>
    let facelist := merged_pre_subdivide.foldl (fun fl face => fl ++ SubdivideFace face) []
    let after := facelist.length
    .ok { tree := setFacelist s.tree r facelist,
          premergefaces := atomicAdd s.premergefaces before,
          mergefaces := atomicAdd s.mergefaces after }

/-- The sum of `c a b` over the consecutive pairs of the path that starts at `prev` and runs
through the list. -/
def pathSum (c : Vec3 → Vec3 → ℚ) : Vec3 → List Vec3 → ℚ
  | _, [] => 0
  | prev, x :: xs => c prev x + pathSum c x xs

/-- The sum of `c a b` over the edges `(a, b)` of the closed polygon `w`, the edge from the
last point back to the first included. -/
def cycSum (c : Vec3 → Vec3 → ℚ) (w : List Vec3) : ℚ :=
  match w.getLast? with
  | none => 0
  | some z => pathSum c z w

/-- The term of the edge `(a, b)` in the area of a polygon seen along the direction `n`. -/
def crossAlong (n a b : Vec3) : ℚ := DotProduct (CrossProduct a b) n

/-- The polygon area of the point sequence `w` seen along the direction `n` (half the sum of
the cross products of consecutive points, projected on `n`): the area of a planar polygon
whose unit normal is `n` and whose points run counterclockwise around `n`. -/
def areaAlong (n : Vec3) (w : Winding) : ℚ := cycSum (crossAlong n) w / 2

/-- The area of a result of `ClipWinding`; an empty result has area 0. -/
def areaOpt (n : Vec3) : Option Winding → ℚ
  | none => 0
  | some w => areaAlong n w

/-- The vertex `i` of `w`, indices cyclic. -/
def vertexAt (w : Winding) (i : Nat) : Vec3 := pt w (i % w.length)

/-- The split point that the building loops compute on the edge that leaves the vertex `i`. -/
def splitAt (split : Plane) (w : Winding) (i : Nat) : Vec3 :=
  splitPoint split (vertexAt w i) (vertexAt w (i + 1))
    (planeDist split (vertexAt w i)) (planeDist split (vertexAt w (i + 1)))

/-- What iteration `i` appends to the front winding, from the sides `σ`, the vertices `P`
and the split points `M`. -/
def stepFront (σ : Nat → Side) (P M : Nat → Vec3) (i : Nat) : List Vec3 :=
  if σ i = SIDE_ON then [P i]
  else (if σ i = SIDE_FRONT then [P i] else [])
    ++ (if σ (i + 1) = SIDE_ON ∨ σ (i + 1) = σ i then [] else [M i])

/-- What iteration `i` appends to the back winding. -/
def stepBack (σ : Nat → Side) (P M : Nat → Vec3) (i : Nat) : List Vec3 :=
  if σ i = SIDE_ON then [P i]
  else (if σ i = SIDE_BACK then [P i] else [])
    ++ (if σ (i + 1) = SIDE_ON ∨ σ (i + 1) = σ i then [] else [M i])

/-- The vertex `i` followed by the split point of iteration `i`, if it generates one. -/
def stepAll (σ : Nat → Side) (P M : Nat → Vec3) (i : Nat) : List Vec3 :=
  if σ i = SIDE_ON then [P i]
  else [P i] ++ (if σ (i + 1) = SIDE_ON ∨ σ (i + 1) = σ i then [] else [M i])

/-- The points of iteration `i` that both windings receive: the vertex if it is On, else the
split point if one is generated. -/
def stepPlane (σ : Nat → Side) (P M : Nat → Vec3) (i : Nat) : List Vec3 :=
  if σ i = SIDE_ON then [P i]
  else (if σ (i + 1) = SIDE_ON ∨ σ (i + 1) = σ i then [] else [M i])

/-- The points that the front and the back winding share, in order: the On vertices and the
split points. -/
def planeSeq (ON_EPSILON : ℚ) (split : Plane) (w : Winding) : List Vec3 :=
  (List.range w.length).flatMap
    (stepPlane (sideAt ON_EPSILON split w) (vertexAt w) (splitAt split w))

/-- A convex quadrilateral in the plane `z = 0` with two neighbouring vertices within `1/10`
of the plane `x = 1/2`, one on each side of it. -/
def sliverQuad : Winding :=
  [⟨9 / 20, -1, 0⟩, ⟨11 / 20, -101 / 100, 0⟩, ⟨3 / 2, 0, 0⟩, ⟨-1 / 2, 0, 0⟩]

/-- Twice the area of the triangle `a b d` seen along the direction `n`; zero when the three
points lie on one line. -/
def triAlong (n a b d : Vec3) : ℚ := crossAlong n a b + crossAlong n b d + crossAlong n d a

/-- Twice the area, seen along `n`, that `TryMerge` cuts off at the junction vertices it leaves
out for the common edge `(i, j)`: the triangle of `f1[i]` with its neighbours `f1[i-1]` and
`f2[j+2]` when the first test is not below `-CONTINUOUS_EPSILON`, the triangle of `f1[i+1]`
with its neighbours `f2[j-1]` and `f1[i+2]` when the second is not. -/
def junctionLoss (n : Vec3) (env : MergeEnv) (plane : Plane) (f1 f2 : Face) (i j : Nat) : ℚ :=
  (if dot1 env (mergeNormal plane f1.planeside) f1.w f2.w i j < -env.CONTINUOUS_EPSILON then 0
   else triAlong n (pt f1.w ((i + f1.w.length - 1) % f1.w.length)) (pt f1.w i)
     (pt f2.w ((j + 2) % f2.w.length)))
  + (if dot2 env (mergeNormal plane f1.planeside) f1.w f2.w i j < -env.CONTINUOUS_EPSILON then 0
     else triAlong n (pt f2.w ((j + f2.w.length - 1) % f2.w.length))
       (pt f1.w ((i + 1) % f1.w.length)) (pt f1.w ((i + 2) % f1.w.length)))

/-- The total area of the faces of a list, seen along `n`. -/
def totalArea (n : Vec3) (l : List Face) : ℚ := (l.map (fun f => areaAlong n f.w)).sum

/-- The environment `envQ` with the limit `MAXEDGES` lowered to `6`: two triangles can be
merged, a triangle and a quadrilateral cannot. -/
def envSix : MergeEnv := { envQ with MAXEDGES := 6 }

/-- The half of `faceA` above its diagonal from `(0,0,0)` to `(1,-1,0)`. -/
def faceUpper : Face := { faceA with w := [⟨0, 0, 0⟩, ⟨1, 0, 0⟩, ⟨1, -1, 0⟩] }

/-- The half of `faceA` below its diagonal from `(0,0,0)` to `(1,-1,0)`. -/
def faceLower : Face := { faceA with w := [⟨0, 0, 0⟩, ⟨1, -1, 0⟩, ⟨0, -1, 0⟩] }

/-- The square of `faceA`, its points listed from `(1,-1,0)`: what `TryMerge` builds from
`faceLower` and `faceUpper`. -/
def faceArot : Face := { faceA with w := [⟨1, -1, 0⟩, ⟨0, -1, 0⟩, ⟨0, 0, 0⟩, ⟨1, 0, 0⟩] }

/-- The two halves of `faceA` and the two faces that `TryMerge` builds from them. -/
def halfFaces : List Face := [faceUpper, faceLower, faceA, faceArot]

/-! ## Inputs for the plane index of the second face -/

/-- The plane `y = 0`, with normal `(0,1,0)`. -/
def planeY0 : Plane := ⟨⟨0, 1, 0⟩, 0⟩

/-- The environment `envQ` with the plane `x = 1` at index `0` and the plane `y = 0` at index
`1` of the plane table. -/
def envXY : MergeEnv := { envQ with planes := [planeX1, planeY0] }

/-- The face `squareY` carrying the index `1` of its own plane `y = 0`. -/
def squareYp : Face := { squareY with planenum := 1 }

/-! ## merge.cc : the loop of MergeFaceToList, one iteration at a time -/

/-- The variables of the loop of `MergeFaceToList`: the current `face`, the list elements
before the iterator (`done`), the elements from the iterator on (`rest`), and the number of
restarts from `list.begin()` made so far. -/
structure MergeIter where
  /-- The face being merged into the list. -/
  face : Face
  /-- The elements of the list before the iterator. -/
  done : List Face
  /-- The elements of the list from the iterator on. -/
  rest : List Face
  /-- The number of restarts so far. -/
  restarts : Nat

/-- One test of the loop condition `it != list.end()` of `MergeFaceToList` followed, when it
holds, by the loop body: `ok none` is the loop exit, `ok (some s)` the variables after the
body (a merge erases `*it` and restarts at `list.begin()`, otherwise `it++`). -/
def mergeStep (env : MergeEnv) (s : MergeIter) : Except Fatal (Option MergeIter) :=
  match s.rest with
  | [] => .ok none
  | g :: rest1 =>
    match TryMerge env s.face g with
    | .error e => .error e
    | .ok (some newf) => .ok (some ⟨newf, [], s.done ++ rest1, s.restarts + 1⟩)
    | .ok none => .ok (some ⟨s.face, s.done ++ [g], rest1, s.restarts⟩)

/-- The loop of `MergeFaceToList` run for at most `fuel` tests of the loop condition, with
the final `list.emplace_back(face)`: none when the loop has not ended within `fuel` tests,
else the outcome (the updated list or the fatal error) and the number of restarts made. -/
def mergeRun (env : MergeEnv) : Nat → MergeIter → Option (Except Fatal (List Face) × Nat)
  | 0, _ => none
  | fuel + 1, s =>
    match mergeStep env s with
    | .error e => some (.error e, s.restarts)
    | .ok none => some (.ok (s.done ++ [s.face]), s.restarts)
    | .ok (some s1) => mergeRun env fuel s1

/-- The loop of `MergeFaceList` from the value `result`, each call of `MergeFaceToList` run
for at most `fuel` tests of its loop condition: none when one of the calls has not ended. -/
def mergeListRun (env : MergeEnv) (fuel : Nat) :
    List Face → List Face → Option (Except Fatal (List Face))
  | [], result => some (.ok result)
  | face :: input, result =>
    match mergeRun env fuel ⟨face, [], result, 0⟩ with
    | none => none
    | some (.error e, _) => some (.error e)
    | some (.ok result1, _) => mergeListRun env fuel input result1

/-! ## Split points -/

/-- The value `sides[i]` read by the building loops of `ClipWinding` and `DivideWinding`. -/
def sideSlot (ON_EPSILON : ℚ) (split : Plane) (w : Winding) (i : Nat) : Side :=
  (sidesOf ON_EPSILON split w).getD i SIDE_ON

/-- The value `dists[i]` read by the building loops of `ClipWinding` and `DivideWinding`. -/
def distSlot (split : Plane) (w : Winding) (i : Nat) : ℚ := (distsOf split w).getD i 0

/-- Iteration `i` of a building loop reaches the line "generate a split point": `sides[i]` is
not On, and `sides[i+1]` is neither On nor equal to `sides[i]`. -/
def GeneratesSplit (ON_EPSILON : ℚ) (split : Plane) (w : Winding) (i : Nat) : Prop :=
  i < w.length ∧ sideSlot ON_EPSILON split w i ≠ SIDE_ON
    ∧ ¬ (sideSlot ON_EPSILON split w (i + 1) = SIDE_ON
          ∨ sideSlot ON_EPSILON split w (i + 1) = sideSlot ON_EPSILON split w i)

/-- The factor `dot = dists[i] / (dists[i] - dists[i+1])` of iteration `i`. -/
def splitFactor (split : Plane) (w : Winding) (i : Nat) : ℚ :=
  distSlot split w i / (distSlot split w i - distSlot split w (i + 1))

/-- The point `mid` that iteration `i` of a building loop generates. -/
def midOf (split : Plane) (w : Winding) (i : Nat) : Vec3 :=
  splitPoint split (pt w i) (pt w ((i + 1) % w.length))
    (distSlot split w i) (distSlot split w (i + 1))

/-! ## The vertices kept by a merge -/

/-- The indices of the vertices that the merged winding takes from a winding of `n` points
whose matched edge starts at `i`, in the words of the specification: `i + 1` if the keep flag
is set, then `i + 2, ..., i - 1` (indices cyclic). -/
def keptIndices (n i : Nat) (keep : Bool) : List Nat :=
  (if keep then [(i + 1) % n] else []) ++ (List.range (n - 2)).map (fun t => (i + 2 + t) % n)

/-! ## winding.c : the up and right vectors of BaseWindingForPlane -/

/-- The value that the `switch` of `BaseWindingForPlane` leaves in `vup` (lines 30-42): the
`z` axis for the major axes 0 and 1, the `x` axis for the major axis 2 (`vec3_origin` in the
default case, which signals the error). -/
def upReference (BOGUS_RANGE : ℚ) (normal : Vec3) : Vec3 :=
  let x := majorAxis BOGUS_RANGE normal
  if x = 0 ∨ x = 1 then ⟨0, 0, 1⟩
  else if x = 2 then ⟨1, 0, 0⟩
  else vec3_origin

/-- The vector `vup` of `BaseWindingForPlane` after `VectorNormalize` (lines 44-46), from the
value `vup0` that the `switch` left in `vup`. -/
def upVector (VectorNormalize : Vec3 → Vec3) (p : Plane) (vup0 : Vec3) : Vec3 :=
  VectorNormalize (VectorMA vup0 (-(DotProduct vup0 p.normal)) p.normal)

/-- The vector `vright` of `BaseWindingForPlane` before its scaling (line 50). -/
def rightVector (VectorNormalize : Vec3 → Vec3) (p : Plane) (vup0 : Vec3) : Vec3 :=
  CrossProduct (upVector VectorNormalize p vup0) p.normal

/-- A plane whose normal `(1,0,1)` is not zero and not of unit length. -/
def planeSkew : Plane := ⟨⟨1, 0, 1⟩, 0⟩

/-- The face `faceA` with the plane index `5`, which is outside the plane table of the sample
environments. -/
def faceAoff : Face := { faceA with planenum := 5 }

/-! # Theorems -/

/-! ## Classification -/

theorem counts_eq_zero_iff (ε : ℚ) (split : Plane) (w : Winding) (s : Side) :
    counts ε split w s = 0 ↔ NoVertex ε split w s := by
  unfold counts NoVertex
  rw [List.count_eq_zero]
  simp only [List.mem_map, not_exists, not_and]

/-! ## ClipWinding without a straddling input -/

/-- C1: when `w` does not straddle the plane (no Front vertex, or no Back vertex),
`ClipWinding` decides in this order: with `keepon` set and neither Front nor Back vertices it
returns `w`; otherwise without Front vertices it returns the empty result; otherwise (no Back
vertices) it returns `w`.  A winding lying entirely On the plane is kept when `keepon` is
true and clipped away when it is false. -/
theorem ClipWinding_not_straddling (ε : ℚ) (w : Winding) (split : Plane) (keepon : Bool)
    (h : NoVertex ε split w SIDE_FRONT ∨ NoVertex ε split w SIDE_BACK) :
    (keepon = true → NoVertex ε split w SIDE_FRONT → NoVertex ε split w SIDE_BACK →
        ClipWinding ε w split keepon = .ok (some w))
    ∧ (¬ (keepon = true ∧ NoVertex ε split w SIDE_FRONT ∧ NoVertex ε split w SIDE_BACK) →
        NoVertex ε split w SIDE_FRONT → ClipWinding ε w split keepon = .ok none)
    ∧ (¬ (keepon = true ∧ NoVertex ε split w SIDE_FRONT ∧ NoVertex ε split w SIDE_BACK) →
        ¬ NoVertex ε split w SIDE_FRONT → ClipWinding ε w split keepon = .ok (some w))
    ∧ ((∀ p ∈ w, sideOf ε (planeDist split p) = SIDE_ON) →
        ClipWinding ε w split true = .ok (some w) ∧ ClipWinding ε w split false = .ok none) := by
  refine ⟨?_, ?_, ?_, ?_⟩
  · intro hk hf hb
    unfold ClipWinding
    rw [if_pos ⟨hk, (counts_eq_zero_iff ..).2 hf, (counts_eq_zero_iff ..).2 hb⟩]
  · intro hn hf
    unfold ClipWinding
    rw [if_neg (by simpa only [counts_eq_zero_iff] using hn),
      if_pos ((counts_eq_zero_iff ..).2 hf)]
  · intro hn hf
    have hb : NoVertex ε split w SIDE_BACK := h.resolve_left hf
    unfold ClipWinding
    rw [if_neg (by simpa only [counts_eq_zero_iff] using hn),
      if_neg (by simpa only [counts_eq_zero_iff] using hf),
      if_pos ((counts_eq_zero_iff ..).2 hb)]
  · intro hon
    have hf : NoVertex ε split w SIDE_FRONT := fun p hp => by rw [hon p hp]; decide
    have hb : NoVertex ε split w SIDE_BACK := fun p hp => by rw [hon p hp]; decide
    constructor
    · unfold ClipWinding
      rw [if_pos ⟨rfl, (counts_eq_zero_iff ..).2 hf, (counts_eq_zero_iff ..).2 hb⟩]
    · unfold ClipWinding
      rw [if_neg (by simp), if_pos ((counts_eq_zero_iff ..).2 hf)]

/-! ## The arrays `sides` and `dists` -/

theorem sidesOf_getD (ε : ℚ) (split : Plane) (w : Winding) (i : Nat) (hn : 0 < w.length)
    (hi : i ≤ w.length) :
    (sidesOf ε split w).getD i SIDE_ON = sideOf ε (planeDist split (pt w (i % w.length))) := by
  rcases Nat.lt_or_eq_of_le hi with h | h
  · simp [sidesOf, pt, List.getD_eq_getElem?_getD, List.getElem?_append_left, h,
      Nat.mod_eq_of_lt h]
  · subst h
    simp [sidesOf, pt, List.getD_eq_getElem?_getD, hn]

theorem distsOf_getD (split : Plane) (w : Winding) (i : Nat) (hn : 0 < w.length)
    (hi : i ≤ w.length) :
    (distsOf split w).getD i 0 = planeDist split (pt w (i % w.length)) := by
  rcases Nat.lt_or_eq_of_le hi with h | h
  · simp [distsOf, pt, List.getD_eq_getElem?_getD, List.getElem?_append_left, h,
      Nat.mod_eq_of_lt h]
  · subst h
    simp [distsOf, pt, List.getD_eq_getElem?_getD, hn]

theorem sideOf_ne_back_iff (ε d : ℚ) (hε : 0 ≤ ε) : sideOf ε d ≠ SIDE_BACK ↔ -ε ≤ d := by
  unfold sideOf
  split_ifs with h1 h2
  · simp only [ne_eq, reduceCtorEq, not_false_eq_true, true_iff]
    linarith
  · simp only [ne_eq, not_true_eq_false, false_iff, not_le]
    exact h2
  · simp only [ne_eq, reduceCtorEq, not_false_eq_true, true_iff]
    linarith

/-! ## Split points lie on the plane -/

theorem unit_axis (a b c : ℚ) (h : a * a + b * b + c * c = 1) (ha : a = 1 ∨ a = -1) :
    b = 0 ∧ c = 0 := by
  have ha2 : a * a = 1 := by rcases ha with h1 | h1 <;> rw [h1] <;> norm_num
  have hb : b * b = 0 := by nlinarith [mul_self_nonneg b, mul_self_nonneg c]
  have hc : c * c = 0 := by nlinarith [mul_self_nonneg b, mul_self_nonneg c]
  exact ⟨mul_self_eq_zero.1 hb, mul_self_eq_zero.1 hc⟩

theorem midCoord_axis (nj dist p1j p2j dot : ℚ) (h : nj = 1 ∨ nj = -1) :
    midCoord nj dist p1j p2j dot * nj = dist := by
  unfold midCoord
  rcases h with h | h
  · subst h; simp
  · subst h; norm_num

theorem midCoord_lerp (nj dist p1j p2j dot : ℚ) (h : ¬ (nj = 1 ∨ nj = -1)) :
    midCoord nj dist p1j p2j dot = p1j + dot * (p2j - p1j) := by
  unfold midCoord
  rw [if_neg (fun e => h (Or.inl e)), if_neg (fun e => h (Or.inr e))]

theorem lerp_zero (d1 d2 : ℚ) (h : d1 - d2 ≠ 0) : d1 + d1 / (d1 - d2) * (d2 - d1) = 0 := by
  field_simp
  ring

theorem planeDist_splitPoint (split : Plane) (p1 p2 : Vec3)
    (hu : DotProduct split.normal split.normal = 1)
    (hne : planeDist split p1 ≠ planeDist split p2) :
    planeDist split (splitPoint split p1 p2 (planeDist split p1) (planeDist split p2)) = 0 := by
  obtain ⟨⟨a, b, c⟩, dist⟩ := split
  simp only [DotProduct] at hu
  have hd : planeDist ⟨⟨a, b, c⟩, dist⟩ p1 - planeDist ⟨⟨a, b, c⟩, dist⟩ p2 ≠ 0 :=
    sub_ne_zero.2 hne
  by_cases hx : a = 1 ∨ a = -1
  · obtain ⟨hb, hc⟩ := unit_axis a b c hu hx
    subst hb hc
    simp only [planeDist, DotProduct, splitPoint, midCoord_axis _ _ _ _ _ hx]
    ring
  · by_cases hy : b = 1 ∨ b = -1
    · obtain ⟨hc, ha⟩ := unit_axis b c a (by linarith) hy
      subst hc ha
      simp only [planeDist, DotProduct, splitPoint, midCoord_axis _ _ _ _ _ hy]
      ring
    · by_cases hz : c = 1 ∨ c = -1
      · obtain ⟨ha, hb⟩ := unit_axis c a b (by linarith) hz
        subst ha hb
        simp only [planeDist, DotProduct, splitPoint, midCoord_axis _ _ _ _ _ hz]
        ring
      · have key := lerp_zero _ _ hd
        simp only [planeDist, DotProduct] at key
        simp only [planeDist, DotProduct, splitPoint, midCoord_lerp _ _ _ _ _ hx,
          midCoord_lerp _ _ _ _ _ hy, midCoord_lerp _ _ _ _ _ hz]
        linear_combination key

/-! ## ClipWinding keeps the front half-space -/

theorem clipStep_eq (ε : ℚ) (split : Plane) (w : Winding) (i : Nat) (hi : i < w.length) :
    clipStep split w (sidesOf ε split w) (distsOf split w) i =
      if sideOf ε (planeDist split (pt w i)) = SIDE_ON then [pt w i]
      else
        (if sideOf ε (planeDist split (pt w i)) = SIDE_FRONT then [pt w i] else []) ++
        (if sideOf ε (planeDist split (pt w ((i + 1) % w.length))) = SIDE_ON
            ∨ sideOf ε (planeDist split (pt w ((i + 1) % w.length)))
              = sideOf ε (planeDist split (pt w i)) then []
         else [splitPoint split (pt w i) (pt w ((i + 1) % w.length))
                (planeDist split (pt w i)) (planeDist split (pt w ((i + 1) % w.length)))]) := by
  have hn : 0 < w.length := Nat.lt_of_le_of_lt (Nat.zero_le _) hi
  unfold clipStep
  rw [sidesOf_getD ε split w i hn (Nat.le_of_lt hi), sidesOf_getD ε split w (i + 1) hn hi,
    distsOf_getD split w i hn (Nat.le_of_lt hi), distsOf_getD split w (i + 1) hn hi,
    Nat.mod_eq_of_lt hi]
  by_cases h1 : sideOf ε (planeDist split (pt w i)) = SIDE_ON
  · simp only [h1, if_true]
  · simp only [h1, if_false]
    split_ifs <;> simp

theorem clipStep_front (ε : ℚ) (hε : 0 ≤ ε) (split : Plane)
    (hu : DotProduct split.normal split.normal = 1) (w : Winding) (i : Nat)
    (hi : i < w.length) (v : Vec3)
    (hv : v ∈ clipStep split w (sidesOf ε split w) (distsOf split w) i) :
    -ε ≤ planeDist split v := by
  rw [clipStep_eq ε split w i hi] at hv
  by_cases h1 : sideOf ε (planeDist split (pt w i)) = SIDE_ON
  · rw [if_pos h1, List.mem_singleton] at hv
    subst hv
    exact (sideOf_ne_back_iff ε _ hε).1 (by rw [h1]; decide)
  · rw [if_neg h1, List.mem_append] at hv
    rcases hv with hv | hv
    · by_cases h2 : sideOf ε (planeDist split (pt w i)) = SIDE_FRONT
      · rw [if_pos h2, List.mem_singleton] at hv
        subst hv
        exact (sideOf_ne_back_iff ε _ hε).1 (by rw [h2]; decide)
      · rw [if_neg h2] at hv
        exact absurd hv (List.not_mem_nil _)
    · split_ifs at hv with h3
      · exact absurd hv (List.not_mem_nil _)
      · rw [List.mem_singleton] at hv
        subst hv
        have hne : planeDist split (pt w i) ≠ planeDist split (pt w ((i + 1) % w.length)) := by
          intro he
          apply h3
          right
          rw [he]
        rw [planeDist_splitPoint split _ _ hu hne]
        linarith

/-- C2: for a plane with a unit normal and `ON_EPSILON >= 0`, every vertex of a winding
returned by `ClipWinding` has signed distance at least `-ON_EPSILON`: it is classified Front
or On, never Back. -/
theorem ClipWinding_front_halfspace (ε : ℚ) (hε : 0 ≤ ε) (w : Winding) (split : Plane)
    (keepon : Bool) (hu : DotProduct split.normal split.normal = 1) (r : Winding)
    (hr : ClipWinding ε w split keepon = .ok (some r)) :
    ∀ v ∈ r, -ε ≤ planeDist split v ∧ sideOf ε (planeDist split v) ≠ SIDE_BACK := by
  have key : ∀ v ∈ r, -ε ≤ planeDist split v := by
    unfold ClipWinding at hr
    split_ifs at hr with h1 h2 h3
    · obtain ⟨_, _, hb⟩ := h1
      simp only [Except.ok.injEq, Option.some.injEq] at hr
      subst hr
      intro v hv
      exact (sideOf_ne_back_iff ε _ hε).1 ((counts_eq_zero_iff ..).1 hb v hv)
    · simp at hr
    · simp only [Except.ok.injEq, Option.some.injEq] at hr
      subst hr
      intro v hv
      exact (sideOf_ne_back_iff ε _ hε).1 ((counts_eq_zero_iff ..).1 h3 v hv)
    · simp only [] at hr
      split_ifs at hr
      simp only [Except.ok.injEq, Option.some.injEq] at hr
      subst hr
      intro v hv
      unfold clipBuild at hv
      rw [List.mem_flatMap] at hv
      obtain ⟨i, hi, hv⟩ := hv
      exact clipStep_front ε hε split hu w i (List.mem_range.1 hi) v hv
  intro v hv
  exact ⟨key v hv, (sideOf_ne_back_iff ε _ hε).2 (key v hv)⟩

/-! ## DivideWinding against the two clips -/

theorem planeDist_flip (split : Plane) (p : Vec3) :
    planeDist split.flip p = -planeDist split p := by
  simp only [planeDist, Plane.flip, VectorInverse, DotProduct]
  ring

theorem sideOf_neg (ε d : ℚ) (hε : 0 ≤ ε) :
    sideOf ε (-d) =
      match sideOf ε d with
      | SIDE_FRONT => SIDE_BACK
      | SIDE_BACK => SIDE_FRONT
      | SIDE_ON => SIDE_ON := by
  unfold sideOf
  by_cases h1 : d > ε
  · have h2 : ¬ (-d > ε) := by linarith
    have h3 : -d < -ε := by linarith
    simp only [h1, h2, h3, if_true, if_false]
  · by_cases h2 : d < -ε
    · have h3 : -d > ε := by linarith
      simp only [h1, h2, h3, if_true, if_false]
    · have h3 : ¬ (-d > ε) := by linarith
      have h4 : ¬ (-d < -ε) := by linarith
      simp only [h1, h2, h3, h4, if_false]

theorem sideOf_neg_front (ε d : ℚ) (hε : 0 ≤ ε) :
    sideOf ε (-d) = SIDE_FRONT ↔ sideOf ε d = SIDE_BACK := by
  rw [sideOf_neg ε d hε]
  cases sideOf ε d <;> simp

theorem sideOf_neg_back (ε d : ℚ) (hε : 0 ≤ ε) :
    sideOf ε (-d) = SIDE_BACK ↔ sideOf ε d = SIDE_FRONT := by
  rw [sideOf_neg ε d hε]
  cases sideOf ε d <;> simp

theorem sideOf_neg_on (ε d : ℚ) (hε : 0 ≤ ε) :
    sideOf ε (-d) = SIDE_ON ↔ sideOf ε d = SIDE_ON := by
  rw [sideOf_neg ε d hε]
  cases sideOf ε d <;> simp

theorem sideOf_neg_eq_iff (ε d e : ℚ) (hε : 0 ≤ ε) :
    sideOf ε (-d) = sideOf ε (-e) ↔ sideOf ε d = sideOf ε e := by
  rw [sideOf_neg ε d hε, sideOf_neg ε e hε]
  cases sideOf ε d <;> cases sideOf ε e <;> simp

theorem counts_flip_front (ε : ℚ) (hε : 0 ≤ ε) (split : Plane) (w : Winding) :
    counts ε split.flip w SIDE_FRONT = 0 ↔ counts ε split w SIDE_BACK = 0 := by
  simp only [counts_eq_zero_iff, NoVertex, planeDist_flip, ne_eq, sideOf_neg_front _ _ hε]

theorem counts_flip_back (ε : ℚ) (hε : 0 ≤ ε) (split : Plane) (w : Winding) :
    counts ε split.flip w SIDE_BACK = 0 ↔ counts ε split w SIDE_FRONT = 0 := by
  simp only [counts_eq_zero_iff, NoVertex, planeDist_flip, ne_eq, sideOf_neg_back _ _ hε]

theorem midCoord_flip (nj dist p1j p2j dot : ℚ) :
    midCoord (-nj) (-dist) p1j p2j dot = midCoord nj dist p1j p2j dot := by
  unfold midCoord
  by_cases h1 : nj = 1
  · subst h1; norm_num
  · by_cases h2 : nj = -1
    · subst h2; norm_num
    · have h3 : ¬ (-nj = 1) := fun h => h2 (by linarith)
      have h4 : ¬ (-nj = -1) := fun h => h1 (by linarith)
      simp only [h1, h2, h3, h4, if_false]

theorem splitPoint_flip (split : Plane) (p1 p2 : Vec3) (d1 d2 : ℚ) :
    splitPoint split.flip p1 p2 (-d1) (-d2) = splitPoint split p1 p2 d1 d2 := by
  have ht : -d1 / (-d1 - -d2) = d1 / (d1 - d2) := by
    rw [show -d1 - -d2 = -(d1 - d2) by ring, neg_div_neg_eq]
  simp only [splitPoint, Plane.flip, VectorInverse, ht, midCoord_flip]

theorem divideStepFront_eq_clipStep (split : Plane) (w : Winding) (sides : List Side)
    (dists : List ℚ) (i : Nat) :
    divideStepFront split w sides dists i = clipStep split w sides dists i := rfl

theorem divideBuildFront_eq (ε : ℚ) (split : Plane) (w : Winding) :
    divideBuildFront ε split w = clipBuild ε split w := rfl

theorem divideStepBack_eq_clipStep_flip (ε : ℚ) (hε : 0 ≤ ε) (split : Plane) (w : Winding)
    (i : Nat) (hi : i < w.length) :
    divideStepBack split w (sidesOf ε split w) (distsOf split w) i =
      clipStep split.flip w (sidesOf ε split.flip w) (distsOf split.flip w) i := by
  have hn : 0 < w.length := Nat.lt_of_le_of_lt (Nat.zero_le _) hi
  rw [clipStep_eq ε split.flip w i hi]
  unfold divideStepBack
  rw [sidesOf_getD ε split w i hn (Nat.le_of_lt hi), sidesOf_getD ε split w (i + 1) hn hi,
    distsOf_getD split w i hn (Nat.le_of_lt hi), distsOf_getD split w (i + 1) hn hi,
    Nat.mod_eq_of_lt hi]
  simp only [planeDist_flip, sideOf_neg_on _ _ hε, sideOf_neg_front _ _ hε,
    sideOf_neg_eq_iff _ _ _ hε, splitPoint_flip]
  by_cases h1 : sideOf ε (planeDist split (pt w i)) = SIDE_ON
  · simp only [h1, if_true]
  · simp only [h1, if_false]
    split_ifs <;> simp

theorem divideBuildBack_eq (ε : ℚ) (hε : 0 ≤ ε) (split : Plane) (w : Winding) :
    divideBuildBack ε split w = clipBuild ε split.flip w := by
  unfold divideBuildBack clipBuild
  apply List.flatMap_congr
  intro i hi
  exact divideStepBack_eq_clipStep_flip ε hε split w i (List.mem_range.1 hi)

theorem DivideWinding_squareZ0 :
    DivideWinding (1 / 10) squareZ0 planeXHalf
      = .ok (some squareFrontHalf, some squareBackHalf) := by
  simp [DivideWinding, counts, sideOf, planeDist, DotProduct, divideBuildFront, divideBuildBack,
    divideStepFront, divideStepBack, sidesOf, distsOf, squareZ0, planeXHalf, squareFrontHalf,
    squareBackHalf, splitPoint, midCoord, pt, List.range_succ, List.flatMap]
  norm_num
  simp

theorem DivideWinding_triangleZ0 :
    DivideWinding (1 / 10) triangleZ0 planeZ0 = .ok (none, some triangleZ0) := by
  simp [DivideWinding, counts, sideOf, planeDist, DotProduct, triangleZ0, planeZ0]
  norm_num
  simp

theorem triangleZ0_all_on :
    ∀ p ∈ triangleZ0, sideOf (1 / 10) (planeDist planeZ0 p) = SIDE_ON := by
  simp [sideOf, planeDist, DotProduct, triangleZ0, planeZ0]
  norm_num

theorem squareZ0_has_front : ¬ NoVertex (1 / 10) planeXHalf squareZ0 SIDE_FRONT := by
  intro h
  have h1 := h ⟨1, 0, 0⟩ (by simp [squareZ0])
  revert h1
  simp [sideOf, planeDist, DotProduct, planeXHalf]
  norm_num

/-- C3 (as stated, refuted): for the triangle `(0,0,0), (1,0,0), (0,1,0)` lying in the plane
`z = 0`, `DivideWinding` hands the whole triangle to the back output, while
`ClipWinding` against the flipped plane returns the empty result. -/
theorem DivideWinding_back_differs_from_flipped_clip :
    DivideWinding (1 / 10) triangleZ0 planeZ0 = .ok (none, some triangleZ0)
    ∧ ClipWinding (1 / 10) triangleZ0 planeZ0.flip false = .ok none
    ∧ ClipWinding (1 / 10) triangleZ0 planeZ0.flip false ≠ .ok (some triangleZ0) := by
  have h : ClipWinding (1 / 10) triangleZ0 planeZ0.flip false = .ok none := by
    simp [ClipWinding, counts, sideOf, planeDist, DotProduct, triangleZ0, planeZ0, Plane.flip,
      VectorInverse]
    norm_num
    simp
  refine ⟨DivideWinding_triangleZ0, h, ?_⟩
  rw [h]
  simp

/-- C3 (amended): with `ON_EPSILON >= 0`, whenever `DivideWinding` returns, its front output is
the result of `ClipWinding (w, split, false)`; if moreover `w` has a Front or a Back vertex,
its back output is the result of `ClipWinding (w, flip split, false)`, point for point; and
when `DivideWinding` raises the point-count error, one of the two clips raises it. -/
theorem DivideWinding_eq_clips (ε : ℚ) (hε : 0 ≤ ε) (w : Winding) (split : Plane) :
    (∀ f b, DivideWinding ε w split = .ok (f, b) → ClipWinding ε w split false = .ok f)
    ∧ (¬ (NoVertex ε split w SIDE_FRONT ∧ NoVertex ε split w SIDE_BACK) →
        ∀ f b, DivideWinding ε w split = .ok (f, b) →
          ClipWinding ε w split.flip false = .ok b)
    ∧ (∀ e, DivideWinding ε w split = .error e →
        ClipWinding ε w split false = .error e ∨ ClipWinding ε w split.flip false = .error e) := by
  have hfb := counts_flip_front ε hε split w
  have hbf := counts_flip_back ε hε split w
  by_cases h1 : counts ε split w SIDE_FRONT = 0
  · have hD : DivideWinding ε w split = .ok (none, some w) := by
      unfold DivideWinding
      rw [if_pos h1]
    refine ⟨?_, ?_, ?_⟩
    · intro f b h
      rw [hD] at h
      simp only [Except.ok.injEq, Prod.mk.injEq] at h
      rw [← h.1]
      unfold ClipWinding
      rw [if_neg (by simp), if_pos h1]
    · intro hne f b h
      rw [hD] at h
      simp only [Except.ok.injEq, Prod.mk.injEq] at h
      rw [← h.2]
      have h2 : ¬ counts ε split w SIDE_BACK = 0 := fun hb =>
        hne ⟨(counts_eq_zero_iff ..).1 h1, (counts_eq_zero_iff ..).1 hb⟩
      unfold ClipWinding
      rw [if_neg (by simp), if_neg (fun hc => h2 (hfb.1 hc)), if_pos (hbf.2 h1)]
    · intro e h
      rw [hD] at h
      simp at h
  · by_cases h2 : counts ε split w SIDE_BACK = 0
    · have hD : DivideWinding ε w split = .ok (some w, none) := by
        unfold DivideWinding
        rw [if_neg h1, if_pos h2]
      refine ⟨?_, ?_, ?_⟩
      · intro f b h
        rw [hD] at h
        simp only [Except.ok.injEq, Prod.mk.injEq] at h
        rw [← h.1]
        unfold ClipWinding
        rw [if_neg (by simp), if_neg h1, if_pos h2]
      · intro _ f b h
        rw [hD] at h
        simp only [Except.ok.injEq, Prod.mk.injEq] at h
        rw [← h.2]
        unfold ClipWinding
        rw [if_neg (by simp), if_pos (hfb.2 h2)]
      · intro e h
        rw [hD] at h
        simp at h
    · have hC : ClipWinding ε w split false =
          if (clipBuild ε split w).length > w.length + 4 then .error Fatal.errLowPointCount
          else .ok (some (clipBuild ε split w)) := by
        unfold ClipWinding
        rw [if_neg (by simp), if_neg h1, if_neg h2]
      have hCf : ClipWinding ε w split.flip false =
          if (clipBuild ε split.flip w).length > w.length + 4 then
            .error Fatal.errLowPointCount
          else .ok (some (clipBuild ε split.flip w)) := by
        unfold ClipWinding
        rw [if_neg (by simp), if_neg (fun hc => h2 (hfb.1 hc)),
          if_neg (fun hc => h1 (hbf.1 hc))]
      have hD : DivideWinding ε w split =
          if (clipBuild ε split w).length > w.length + 4
              ∨ (clipBuild ε split.flip w).length > w.length + 4 then
            .error Fatal.errLowPointCount
          else .ok (some (clipBuild ε split w), some (clipBuild ε split.flip w)) := by
        unfold DivideWinding
        rw [if_neg h1, if_neg h2, divideBuildFront_eq, divideBuildBack_eq ε hε]
      rw [hD, hC, hCf]
      by_cases g1 : (clipBuild ε split w).length > w.length + 4
      · simp [g1]
      · by_cases g2 : (clipBuild ε split.flip w).length > w.length + 4
        · simp [g1, g2]
        · simp only [g1, g2, or_self, if_false]
          refine ⟨?_, ?_, ?_⟩
          · intro f b h
            simp only [Except.ok.injEq, Prod.mk.injEq] at h
            rw [h.1]
          · intro _ f b h
            simp only [Except.ok.injEq, Prod.mk.injEq] at h
            rw [h.2]
          · intro e h
            simp at h

/-- Witness of C3 (amended): the unit square cut by the plane `x = 1/2`. -/
theorem DivideWinding_eq_clips_witness :
    (0 : ℚ) ≤ 1 / 10
    ∧ ClipWinding (1 / 10) squareZ0 planeXHalf false = .ok (some squareFrontHalf)
    ∧ ClipWinding (1 / 10) squareZ0 planeXHalf.flip false = .ok (some squareBackHalf) :=
  ⟨by norm_num,
   (DivideWinding_eq_clips (1 / 10) (by norm_num) squareZ0 planeXHalf).1 _ _
     DivideWinding_squareZ0,
   (DivideWinding_eq_clips (1 / 10) (by norm_num) squareZ0 planeXHalf).2.1
     (fun h => squareZ0_has_front h.1) _ _ DivideWinding_squareZ0⟩

/-! ## Witnesses for the clip theorems -/

theorem ClipWinding_squareZ0 :
    ClipWinding (1 / 10) squareZ0 planeXHalf false = .ok (some squareFrontHalf) := by
  simp [ClipWinding, counts, sideOf, planeDist, DotProduct, clipBuild, clipStep, sidesOf,
    distsOf, squareZ0, planeXHalf, squareFrontHalf, splitPoint, midCoord, pt, List.range_succ,
    List.flatMap]
  norm_num
  simp

/-- Witness of C1: the triangle lying in the plane `z = 0` is kept with `keepon` and clipped
away without. -/
theorem ClipWinding_not_straddling_witness :
    (NoVertex (1 / 10) planeZ0 triangleZ0 SIDE_FRONT
      ∨ NoVertex (1 / 10) planeZ0 triangleZ0 SIDE_BACK)
    ∧ ClipWinding (1 / 10) triangleZ0 planeZ0 true = .ok (some triangleZ0)
    ∧ ClipWinding (1 / 10) triangleZ0 planeZ0 false = .ok none :=
  ⟨Or.inl (fun p hp => by rw [triangleZ0_all_on p hp]; decide),
   (ClipWinding_not_straddling (1 / 10) triangleZ0 planeZ0 true
      (Or.inl (fun p hp => by rw [triangleZ0_all_on p hp]; decide))).2.2.2 triangleZ0_all_on⟩

/-- Witness of C2: the front half of the unit square cut by the plane `x = 1/2`. -/
theorem ClipWinding_front_halfspace_witness :
    (0 : ℚ) ≤ 1 / 10
    ∧ DotProduct planeXHalf.normal planeXHalf.normal = 1
    ∧ ClipWinding (1 / 10) squareZ0 planeXHalf false = .ok (some squareFrontHalf)
    ∧ ∀ v ∈ squareFrontHalf,
        -(1 / 10) ≤ planeDist planeXHalf v
          ∧ sideOf (1 / 10) (planeDist planeXHalf v) ≠ SIDE_BACK :=
  ⟨by norm_num, by simp [DotProduct, planeXHalf], ClipWinding_squareZ0,
   ClipWinding_front_halfspace (1 / 10) (by norm_num) squareZ0 planeXHalf false
     (by simp [DotProduct, planeXHalf]) squareFrontHalf ClipWinding_squareZ0⟩

/-! ## DivideWinding with a one-sided input -/

/-- C4 (as stated, refuted): the triangle `(0,0,0), (1,0,0), (0,1,0)` has no vertex strictly
behind the plane `z = 0`, yet `DivideWinding` leaves the front output empty and gives the
triangle to the back output. -/
theorem DivideWinding_on_plane_front_empty :
    NoVertex (1 / 10) planeZ0 triangleZ0 SIDE_BACK
    ∧ DivideWinding (1 / 10) triangleZ0 planeZ0 = .ok (none, some triangleZ0)
    ∧ DivideWinding (1 / 10) triangleZ0 planeZ0 ≠ .ok (some triangleZ0, none) := by
  refine ⟨fun p hp => by rw [triangleZ0_all_on p hp]; decide, DivideWinding_triangleZ0, ?_⟩
  rw [DivideWinding_triangleZ0]
  simp

/-- C4 (amended): if no vertex of `w` is Front, `DivideWinding` gives the back output `w`
itself and leaves the front output empty; if some vertex is Front and none is Back, it gives
the front output `w` itself and leaves the back output empty; and two built windings are
returned only when `w` has both a Front and a Back vertex. -/
theorem DivideWinding_one_sided (ε : ℚ) (w : Winding) (split : Plane) :
    (NoVertex ε split w SIDE_FRONT → DivideWinding ε w split = .ok (none, some w))
    ∧ (¬ NoVertex ε split w SIDE_FRONT → NoVertex ε split w SIDE_BACK →
        DivideWinding ε w split = .ok (some w, none))
    ∧ (∀ f b, DivideWinding ε w split = .ok (some f, some b) →
        ¬ NoVertex ε split w SIDE_FRONT ∧ ¬ NoVertex ε split w SIDE_BACK
        ∧ f = divideBuildFront ε split w ∧ b = divideBuildBack ε split w) := by
  refine ⟨?_, ?_, ?_⟩
  · intro hf
    unfold DivideWinding
    rw [if_pos ((counts_eq_zero_iff ..).2 hf)]
  · intro hf hb
    unfold DivideWinding
    rw [if_neg (fun h => hf ((counts_eq_zero_iff ..).1 h)),
      if_pos ((counts_eq_zero_iff ..).2 hb)]
  · intro f b h
    unfold DivideWinding at h
    split_ifs at h with h1 h2
    · simp at h
    · simp at h
    · simp only [] at h
      split_ifs at h
      simp only [Except.ok.injEq, Prod.mk.injEq, Option.some.injEq] at h
      exact ⟨fun hf => h1 ((counts_eq_zero_iff ..).2 hf),
        fun hb => h2 ((counts_eq_zero_iff ..).2 hb), h.1.symm, h.2.symm⟩

/-- Witness of C4 (amended): the triangle in the plane goes to the back output; the square
cut by `x = 1/2` has vertices on both sides. -/
theorem DivideWinding_one_sided_witness :
    NoVertex (1 / 10) planeZ0 triangleZ0 SIDE_FRONT
    ∧ DivideWinding (1 / 10) triangleZ0 planeZ0 = .ok (none, some triangleZ0)
    ∧ ¬ NoVertex (1 / 10) planeXHalf squareZ0 SIDE_FRONT
    ∧ ¬ NoVertex (1 / 10) planeXHalf squareZ0 SIDE_BACK :=
  ⟨fun p hp => by rw [triangleZ0_all_on p hp]; decide,
   (DivideWinding_one_sided (1 / 10) triangleZ0 planeZ0).1
     (fun p hp => by rw [triangleZ0_all_on p hp]; decide),
   ((DivideWinding_one_sided (1 / 10) squareZ0 planeXHalf).2.2 _ _ DivideWinding_squareZ0).1,
   ((DivideWinding_one_sided (1 / 10) squareZ0 planeXHalf).2.2 _ _ DivideWinding_squareZ0).2.1⟩

/-! ## Searching a range -/

theorem findSome?_range_eq_some {β : Type} (f : Nat → Option β) (n : Nat) (b : β) :
    (List.range n).findSome? f = some b ↔ ∃ a, a < n ∧ f a = some b ∧ ∀ c < a, f c = none := by
  induction n with
  | zero => simp
  | succ n ih =>
    rw [List.range_succ, List.findSome?_append, Option.or_eq_some]
    have h1 : List.findSome? f [n] = f n := by
      cases hf : f n <;> simp [List.findSome?, hf]
    rw [h1, ih, List.findSome?_eq_none_iff]
    constructor
    · rintro (⟨a, ha, hfa, hc⟩ | ⟨hnone, hfn⟩)
      · exact ⟨a, Nat.lt_succ_of_lt ha, hfa, hc⟩
      · exact ⟨n, Nat.lt_succ_self n, hfn, fun c hc => hnone c (List.mem_range.2 hc)⟩
    · rintro ⟨a, ha, hfa, hc⟩
      rcases Nat.lt_or_eq_of_le (Nat.le_of_lt_succ ha) with h | h
      · exact Or.inl ⟨a, h, hfa, hc⟩
      · subst h
        exact Or.inr ⟨fun c hc2 => hc c (List.mem_range.1 hc2), hfa⟩

theorem find?_range_eq_some (p : Nat → Bool) (n a : Nat) :
    (List.range n).find? p = some a ↔ a < n ∧ p a = true ∧ ∀ b < a, p b = false := by
  induction n with
  | zero => simp
  | succ n ih =>
    rw [List.range_succ, List.find?_append, Option.or_eq_some, ih, List.find?_eq_none]
    constructor
    · rintro (⟨ha, hpa, hb⟩ | ⟨hnone, hfn⟩)
      · exact ⟨Nat.lt_succ_of_lt ha, hpa, hb⟩
      · by_cases hp : p n = true
        · simp only [List.find?, hp, Option.some.injEq] at hfn
          subst hfn
          exact ⟨Nat.lt_succ_self _, hp,
            fun b hb => by simpa using hnone b (List.mem_range.2 hb)⟩
        · simp [List.find?, hp] at hfn
    · rintro ⟨ha, hpa, hb⟩
      rcases Nat.lt_or_eq_of_le (Nat.le_of_lt_succ ha) with h | h
      · exact Or.inl ⟨h, hpa, hb⟩
      · subst h
        refine Or.inr ⟨fun c hc2 => by simpa using hb c (List.mem_range.1 hc2), ?_⟩
        simp [List.find?, hpa]

/-! ## The search for a common edge -/

theorem edgeMatches_iff (ε : ℚ) (p1 p2 p3 p4 : Vec3) :
    edgeMatches ε p1 p2 p3 p4 = true ↔ CoordsWithin ε p1 p4 ∧ CoordsWithin ε p2 p3 := by
  simp only [edgeMatches, coordBreaks, CoordsWithin, List.all_eq_true, List.mem_range,
    Bool.not_eq_true', decide_eq_false_iff_not, not_or, not_lt, gt_iff_lt]
  constructor
  · intro h
    have h0 := h 0 (by norm_num)
    have h1 := h 1 (by norm_num)
    have h2 := h 2 (by norm_num)
    simp only [Vec3.comp] at h0 h1 h2
    exact ⟨⟨h0.1, h1.1, h2.1⟩, ⟨h0.2, h1.2, h2.2⟩⟩
  · rintro ⟨⟨a0, a1, a2⟩, ⟨b0, b1, b2⟩⟩ k hk
    interval_cases k
    · exact ⟨a0, b0⟩
    · exact ⟨a1, b1⟩
    · exact ⟨a2, b2⟩

theorem findJ_eq_some (ε : ℚ) (w1 w2 : Winding) (i j : Nat) :
    findJ ε (pt w1 i) (pt w1 ((i + 1) % w1.length)) w2 = some j ↔
      j < w2.length ∧ SharedEdge ε w1 w2 i j ∧ ∀ j2 < j, ¬ SharedEdge ε w1 w2 i j2 := by
  unfold findJ
  rw [find?_range_eq_some]
  simp only [edgeMatches_iff, SharedEdge, Bool.eq_false_iff, ne_eq]

theorem findJ_eq_none (ε : ℚ) (w1 w2 : Winding) (i : Nat) :
    findJ ε (pt w1 i) (pt w1 ((i + 1) % w1.length)) w2 = none ↔
      ∀ j < w2.length, ¬ SharedEdge ε w1 w2 i j := by
  unfold findJ
  rw [List.find?_eq_none]
  simp only [edgeMatches_iff, SharedEdge, List.mem_range]

theorem findEdge_eq_none (ε : ℚ) (w1 w2 : Winding) :
    findEdge ε w1 w2 = none ↔
      ∀ i < w1.length, ∀ j < w2.length, ¬ SharedEdge ε w1 w2 i j := by
  unfold findEdge
  rw [List.findSome?_eq_none_iff]
  simp only [List.mem_range, Option.map_eq_none', findJ_eq_none]

theorem findEdge_eq_some (ε : ℚ) (w1 w2 : Winding) (i j : Nat) :
    findEdge ε w1 w2 = some (i, j) ↔
      i < w1.length ∧ j < w2.length ∧ SharedEdge ε w1 w2 i j
      ∧ ∀ i2 j2, i2 < w1.length → j2 < w2.length → SharedEdge ε w1 w2 i2 j2 →
          LexLe i j i2 j2 := by
  unfold findEdge
  rw [findSome?_range_eq_some]
  simp only [Option.map_eq_some', Prod.mk.injEq, Option.map_eq_none', findJ_eq_none,
    findJ_eq_some]
  constructor
  · rintro ⟨a, ha, ⟨b, ⟨hb, hs, hmin⟩, rfl, rfl⟩, hnone⟩
    refine ⟨ha, hb, hs, ?_⟩
    intro i2 j2 hi2 hj2 hs2
    unfold LexLe
    rcases Nat.lt_trichotomy a i2 with h | h | h
    · exact Or.inl h
    · subst h
      refine Or.inr ⟨rfl, ?_⟩
      by_contra hlt
      exact hmin j2 (Nat.lt_of_not_le hlt) hs2
    · exact absurd hs2 (hnone i2 h j2 hj2)
  · rintro ⟨hi, hj, hs, hmin⟩
    refine ⟨i, hi, ⟨j, ⟨hj, hs, ?_⟩, rfl, rfl⟩, ?_⟩
    · intro j2 hj2 hs2
      rcases hmin i j2 hi (Nat.lt_trans hj2 hj) hs2 with h | ⟨_, h⟩
      · exact Nat.lt_irrefl _ h
      · exact Nat.not_le_of_lt hj2 h
    · intro c hc j2 hj2 hs2
      rcases hmin c j2 (Nat.lt_trans hc hi) hj2 hs2 with h | ⟨h, _⟩
      · exact Nat.lt_asymm hc h
      · exact Nat.ne_of_gt hc h

/-! ## The sample normalisation -/

theorem normalizeQ_of_sq (v : Vec3) (l : ℚ) (hl : 0 < l) (h : DotProduct v v = l * l) :
    normalizeQ v = ⟨v.x / l, v.y / l, v.z / l⟩ := by
  unfold normalizeQ
  rw [h, Rat.sqrt_eq, abs_of_pos hl]
  simp [hl.ne']

theorem normalizeQ_unit (v : Vec3) (h : DotProduct v v = 1) : normalizeQ v = v := by
  rw [normalizeQ_of_sq v 1 (by norm_num) (by rw [h]; norm_num)]
  simp

/-! ## TryMerge on the sample faces -/

theorem findEdge_faceA_faceB : findEdge (1 / 1000) faceA.w faceB.w = some (1, 0) := by
  simp [findEdge, findJ, edgeMatches, coordBreaks, faceA, faceB, pt, List.range_succ,
    List.findSome?, List.find?, Vec3.comp]
  norm_num

theorem TryMerge_faceA_faceB : TryMerge envQ faceA faceB = .ok (some faceAB) := by
  unfold TryMerge
  simp only [show envQ.EQUAL_EPSILON = 1 / 1000 from rfl, findEdge_faceA_faceB]
  simp [envQ, faceA, faceB, faceAB, planeAt, planeZ0, mergeNormal, dot1, dot2, pt,
    VectorSubtract, CrossProduct, DotProduct, normalizeQ_unit, NewFaceFromFace,
    UpdateFaceSphere, mergedWinding, copyLoop]
  norm_num

theorem findEdge_faceA_faceBnear : findEdge (1 / 1000) faceA.w faceBnear.w = some (1, 0) := by
  simp [findEdge, findJ, edgeMatches, coordBreaks, faceA, faceB, faceBnear, pt,
    List.range_succ, List.findSome?, List.find?, Vec3.comp]
  norm_num [abs_div]

theorem TryMerge_faceA_faceBnear : TryMerge envQ faceA faceBnear = .ok (some faceAB) := by
  unfold TryMerge
  simp only [show envQ.EQUAL_EPSILON = 1 / 1000 from rfl, findEdge_faceA_faceBnear]
  simp [envQ, faceA, faceB, faceBnear, faceAB, planeAt, planeZ0, mergeNormal, dot1, dot2, pt,
    VectorSubtract, CrossProduct, DotProduct, normalizeQ_unit, NewFaceFromFace,
    UpdateFaceSphere, mergedWinding, copyLoop]
  norm_num

theorem findEdge_faceA_faceBnear_tight :
    findEdge (1 / 10000) faceA.w faceBnear.w = none := by
  simp [findEdge, findJ, edgeMatches, coordBreaks, faceA, faceB, faceBnear, pt,
    List.range_succ, List.findSome?, List.find?, Vec3.comp]
  norm_num [abs_div]

theorem findEdge_faceA_faceBfar : findEdge (1 / 1000) faceA.w faceBfar.w = none := by
  simp [findEdge, findJ, edgeMatches, coordBreaks, faceA, faceB, faceBfar, pt,
    List.range_succ, List.findSome?, List.find?, Vec3.comp]
  norm_num [abs_div]

/-! ## TryMerge : the early returns -/

theorem TryMerge_of_texinfo_ne (env : MergeEnv) (f1 f2 : Face)
    (h : f1.texinfo ≠ f2.texinfo) : TryMerge env f1 f2 = .ok none := by
  unfold TryMerge
  rw [if_pos (Or.inr (Or.inr (Or.inr (Or.inl h))))]

/-- C5: `TryMerge` returns none when a winding has no points, or when the two faces differ in
plane side, material reference, contents or lightmap shift, whatever the geometry. -/
theorem TryMerge_preconditions (env : MergeEnv) (f1 f2 : Face)
    (h : f1.w = [] ∨ f2.w = [] ∨ f1.planeside ≠ f2.planeside ∨ f1.texinfo ≠ f2.texinfo
      ∨ f1.contents ≠ f2.contents ∨ f1.lmshift ≠ f2.lmshift) :
    TryMerge env f1 f2 = .ok none := by
  unfold TryMerge
  rw [if_pos]
  simpa only [List.length_eq_zero] using h

/-- Witness of C5: two adjacent squares with different material references. -/
theorem TryMerge_preconditions_witness :
    faceA.texinfo ≠ faceBtex.texinfo ∧ TryMerge envQ faceA faceBtex = .ok none :=
  ⟨by decide,
   TryMerge_preconditions envQ faceA faceBtex (Or.inr (Or.inr (Or.inr (Or.inl (by decide)))))⟩

/-! ## TryMerge : the common edge -/

theorem TryMerge_of_findEdge_none (env : MergeEnv) (f1 f2 : Face)
    (h : findEdge env.EQUAL_EPSILON f1.w f2.w = none) : TryMerge env f1 f2 = .ok none := by
  unfold TryMerge
  by_cases hpre : f1.w.length = 0 ∨ f2.w.length = 0 ∨ f1.planeside ≠ f2.planeside
      ∨ f1.texinfo ≠ f2.texinfo ∨ f1.contents ≠ f2.contents ∨ f1.lmshift ≠ f2.lmshift
  · rw [if_pos hpre]
  · rw [if_neg hpre, h]

/-- What `TryMerge` returns once the early tests have passed and the search has given the
common edge `(i, j)`. -/
theorem TryMerge_of_findEdge_some (env : MergeEnv) (f1 f2 : Face) (i j : Nat)
    (hpre : ¬ (f1.w.length = 0 ∨ f2.w.length = 0 ∨ f1.planeside ≠ f2.planeside
      ∨ f1.texinfo ≠ f2.texinfo ∨ f1.contents ≠ f2.contents ∨ f1.lmshift ≠ f2.lmshift))
    (h : findEdge env.EQUAL_EPSILON f1.w f2.w = some (i, j)) :
    TryMerge env f1 f2 =
      match planeAt env.planes f1.planenum with
      | none => .error Fatal.planeOutOfRange
      | some plane =>
        if dot1 env (mergeNormal plane f1.planeside) f1.w f2.w i j > env.CONTINUOUS_EPSILON
        then .ok none
        else if dot2 env (mergeNormal plane f1.planeside) f1.w f2.w i j
            > env.CONTINUOUS_EPSILON then .ok none
        else if f1.w.length + f2.w.length > env.MAXEDGES then .ok none
        else .ok (some { f1 with w := (mergedWinding f1.w f2.w i j
            (decide (dot1 env (mergeNormal plane f1.planeside) f1.w f2.w i j
              < -env.CONTINUOUS_EPSILON))
            (decide (dot2 env (mergeNormal plane f1.planeside) f1.w f2.w i j
              < -env.CONTINUOUS_EPSILON))) }) := by
  unfold TryMerge
  rw [if_neg hpre, h]
  cases planeAt env.planes f1.planenum with
  | none => rfl
  | some plane =>
    simp only [NewFaceFromFace, UpdateFaceSphere, List.nil_append]

/-- The data of a successful `TryMerge`: the early tests passed, the search gave `(i, j)`,
the plane lookup gave `plane`, both `dot` tests passed and the point count is within
`MAXEDGES`. -/
theorem TryMerge_eq_some (env : MergeEnv) (f1 f2 f : Face)
    (h : TryMerge env f1 f2 = .ok (some f)) :
    ∃ i j plane,
      ¬ (f1.w.length = 0 ∨ f2.w.length = 0 ∨ f1.planeside ≠ f2.planeside
        ∨ f1.texinfo ≠ f2.texinfo ∨ f1.contents ≠ f2.contents ∨ f1.lmshift ≠ f2.lmshift)
      ∧ findEdge env.EQUAL_EPSILON f1.w f2.w = some (i, j)
      ∧ planeAt env.planes f1.planenum = some plane
      ∧ dot1 env (mergeNormal plane f1.planeside) f1.w f2.w i j ≤ env.CONTINUOUS_EPSILON
      ∧ dot2 env (mergeNormal plane f1.planeside) f1.w f2.w i j ≤ env.CONTINUOUS_EPSILON
      ∧ f1.w.length + f2.w.length ≤ env.MAXEDGES
      ∧ f = { f1 with w := (mergedWinding f1.w f2.w i j
            (decide (dot1 env (mergeNormal plane f1.planeside) f1.w f2.w i j
              < -env.CONTINUOUS_EPSILON))
            (decide (dot2 env (mergeNormal plane f1.planeside) f1.w f2.w i j
              < -env.CONTINUOUS_EPSILON))) } := by
  by_cases hpre : f1.w.length = 0 ∨ f2.w.length = 0 ∨ f1.planeside ≠ f2.planeside
      ∨ f1.texinfo ≠ f2.texinfo ∨ f1.contents ≠ f2.contents ∨ f1.lmshift ≠ f2.lmshift
  · unfold TryMerge at h
    rw [if_pos hpre] at h
    simp at h
  · cases hfe : findEdge env.EQUAL_EPSILON f1.w f2.w with
    | none =>
      rw [TryMerge_of_findEdge_none env f1 f2 hfe] at h
      simp at h
    | some ij =>
      obtain ⟨i, j⟩ := ij
      rw [TryMerge_of_findEdge_some env f1 f2 i j hpre hfe] at h
      cases hpl : planeAt env.planes f1.planenum with
      | none =>
        rw [hpl] at h
        simp at h
      | some plane =>
        rw [hpl] at h
        simp only [] at h
        split_ifs at h with h1 h2 h3
        · simp at h
        · simp at h
        · simp at h
        · simp only [Except.ok.injEq, Option.some.injEq] at h
          exact ⟨i, j, plane, hpre, rfl, rfl, not_lt.1 h1, not_lt.1 h2, not_lt.1 h3, h.symm⟩

/-- C6 (as stated, refuted): the tolerance of the edge search is `EQUAL_EPSILON`, not
`ON_EPSILON`.  With `EQUAL_EPSILON = 0.001`: for `ON_EPSILON = 0.0001` the faces `faceA` and
`faceBnear` have no pair of edges agreeing within `ON_EPSILON`, yet `TryMerge` merges them;
for `ON_EPSILON = 0.05` the edges `1` of `faceA` and `0` of `faceBfar` agree within
`ON_EPSILON`, yet the search finds no pair and `TryMerge` returns none for that reason. -/
theorem TryMerge_edge_tolerance_is_not_ON_EPSILON :
    ((∀ i < faceA.w.length, ∀ j < faceBnear.w.length,
        ¬ SharedEdge (1 / 10000) faceA.w faceBnear.w i j)
      ∧ TryMerge envQ faceA faceBnear = .ok (some faceAB))
    ∧ (SharedEdge (1 / 20) faceA.w faceBfar.w 1 0
      ∧ findEdge envQ.EQUAL_EPSILON faceA.w faceBfar.w = none
      ∧ TryMerge envQ faceA faceBfar = .ok none) := by
  refine ⟨⟨(findEdge_eq_none _ _ _).1 findEdge_faceA_faceBnear_tight,
    TryMerge_faceA_faceBnear⟩, ?_, findEdge_faceA_faceBfar,
    TryMerge_of_findEdge_none envQ faceA faceBfar findEdge_faceA_faceBfar⟩
  simp [SharedEdge, CoordsWithin, faceA, faceB, faceBfar, pt]
  norm_num [abs_div]

/-- C6 (amended): the edge search of `TryMerge` compares within `EQUAL_EPSILON` in every
coordinate.  If no pair `(i, j)` has `f1[i]` agreeing with `f2[j+1]` and `f1[i+1]` with
`f2[j]` (indices cyclic), the result is none; the search result is the first such pair in
lexicographic order of `(i, j)`; and a returned face is built from that pair. -/
theorem TryMerge_common_edge (env : MergeEnv) (f1 f2 : Face) :
    ((∀ i < f1.w.length, ∀ j < f2.w.length,
        ¬ SharedEdge env.EQUAL_EPSILON f1.w f2.w i j) → TryMerge env f1 f2 = .ok none)
    ∧ (∀ i j, findEdge env.EQUAL_EPSILON f1.w f2.w = some (i, j) ↔
        i < f1.w.length ∧ j < f2.w.length ∧ SharedEdge env.EQUAL_EPSILON f1.w f2.w i j
        ∧ ∀ i2 j2, i2 < f1.w.length → j2 < f2.w.length →
            SharedEdge env.EQUAL_EPSILON f1.w f2.w i2 j2 → LexLe i j i2 j2)
    ∧ ((∃ i j, i < f1.w.length ∧ j < f2.w.length
          ∧ SharedEdge env.EQUAL_EPSILON f1.w f2.w i j) →
        ∃ i j, findEdge env.EQUAL_EPSILON f1.w f2.w = some (i, j))
    ∧ (∀ f, TryMerge env f1 f2 = .ok (some f) →
        ∃ i j keep1 keep2, findEdge env.EQUAL_EPSILON f1.w f2.w = some (i, j)
          ∧ f.w = mergedWinding f1.w f2.w i j keep1 keep2) := by
  refine ⟨?_, ?_, ?_, ?_⟩
  · intro h
    exact TryMerge_of_findEdge_none env f1 f2 ((findEdge_eq_none _ _ _).2 h)
  · intro i j
    exact findEdge_eq_some _ _ _ i j
  · rintro ⟨i, j, hi, hj, hs⟩
    cases hfe : findEdge env.EQUAL_EPSILON f1.w f2.w with
    | none => exact absurd hs ((findEdge_eq_none _ _ _).1 hfe i hi j hj)
    | some ij => exact ⟨ij.1, ij.2, rfl⟩
  · intro f h
    obtain ⟨i, j, plane, _, hfe, _, _, _, _, hf⟩ := TryMerge_eq_some env f1 f2 f h
    exact ⟨i, j, _, _, hfe, by rw [hf]⟩

/-- Witness of C6 (amended): the common edge of `faceA` and `faceB` is the pair `(1, 0)`;
`faceA` and `faceBfar` have none. -/
theorem TryMerge_common_edge_witness :
    findEdge envQ.EQUAL_EPSILON faceA.w faceB.w = some (1, 0)
    ∧ SharedEdge envQ.EQUAL_EPSILON faceA.w faceB.w 1 0
    ∧ (∀ i2 j2, i2 < faceA.w.length → j2 < faceB.w.length →
        SharedEdge envQ.EQUAL_EPSILON faceA.w faceB.w i2 j2 → LexLe 1 0 i2 j2)
    ∧ TryMerge envQ faceA faceBfar = .ok none :=
  ⟨findEdge_faceA_faceB,
   (((TryMerge_common_edge envQ faceA faceB).2.1 1 0).1 findEdge_faceA_faceB).2.2.1,
   (((TryMerge_common_edge envQ faceA faceB).2.1 1 0).1 findEdge_faceA_faceB).2.2.2,
   (TryMerge_common_edge envQ faceA faceBfar).1
     ((findEdge_eq_none _ _ _).1 findEdge_faceA_faceBfar)⟩

/-! ## TryMerge : the edge limit -/

theorem TryMerge_faceAoff_faceB :
    TryMerge envSmall faceAoff faceB = .error Fatal.planeOutOfRange := by
  rw [TryMerge_of_findEdge_some envSmall faceAoff faceB 1 0 (by decide) findEdge_faceA_faceB]
  rfl

/-- C7 (as stated, refuted): the squares `faceA` and `faceB` have 8 points in total, more
than `MAXEDGES = 7`, they are merge-compatible and share an edge; with the plane index of the
first outside the plane table, the plane lookup, which precedes the limit test, ends
`TryMerge` with the fatal error: it does not return none. -/
theorem TryMerge_over_limit_fatal :
    faceAoff.w.length + faceB.w.length > envSmall.MAXEDGES
    ∧ TryMerge envSmall faceAoff faceB = .error Fatal.planeOutOfRange
    ∧ TryMerge envSmall faceAoff faceB ≠ .ok none := by
  refine ⟨by decide, TryMerge_faceAoff_faceB, ?_⟩
  rw [TryMerge_faceAoff_faceB]
  simp

/-- C7 (amended): if the two windings have more than `MAXEDGES` points in total, `TryMerge`
never returns a face.  When the plane index of `f1` is in the plane table it returns none
(the merge is declined, not a fatal error, and the two faces stay separate).  Otherwise the
result is none or the fatal error of the plane lookup, and it is the fatal error exactly when
the faces are merge-compatible, share an edge and the plane index of `f1` is outside the
plane table: the lookup precedes the limit test. -/
theorem TryMerge_too_many_edges (env : MergeEnv) (f1 f2 : Face)
    (h : f1.w.length + f2.w.length > env.MAXEDGES) :
    (∀ f, TryMerge env f1 f2 ≠ .ok (some f))
    ∧ (planeAt env.planes f1.planenum ≠ none → TryMerge env f1 f2 = .ok none)
    ∧ (TryMerge env f1 f2 = .ok none ∨ TryMerge env f1 f2 = .error Fatal.planeOutOfRange)
    ∧ (TryMerge env f1 f2 = .error Fatal.planeOutOfRange ↔
        ¬ (f1.w.length = 0 ∨ f2.w.length = 0 ∨ f1.planeside ≠ f2.planeside
          ∨ f1.texinfo ≠ f2.texinfo ∨ f1.contents ≠ f2.contents ∨ f1.lmshift ≠ f2.lmshift)
        ∧ findEdge env.EQUAL_EPSILON f1.w f2.w ≠ none
        ∧ planeAt env.planes f1.planenum = none) := by
  have hsome : ∀ f, TryMerge env f1 f2 ≠ .ok (some f) := by
    intro f hf
    obtain ⟨_, _, _, _, _, _, _, _, hle, _⟩ := TryMerge_eq_some env f1 f2 f hf
    exact absurd h (not_lt.2 hle)
  by_cases hpre : f1.w.length = 0 ∨ f2.w.length = 0 ∨ f1.planeside ≠ f2.planeside
      ∨ f1.texinfo ≠ f2.texinfo ∨ f1.contents ≠ f2.contents ∨ f1.lmshift ≠ f2.lmshift
  · have hT : TryMerge env f1 f2 = .ok none := by
      unfold TryMerge
      rw [if_pos hpre]
    refine ⟨hsome, fun _ => hT, Or.inl hT, ?_⟩
    rw [hT]
    constructor
    · intro h2
      simp at h2
    · intro h2
      exact absurd hpre h2.1
  · cases hfe : findEdge env.EQUAL_EPSILON f1.w f2.w with
    | none =>
      have hT := TryMerge_of_findEdge_none env f1 f2 hfe
      refine ⟨hsome, fun _ => hT, Or.inl hT, ?_⟩
      rw [hT]
      constructor
      · intro h2
        simp at h2
      · intro h2
        exact absurd rfl h2.2.1
    | some ij =>
      obtain ⟨i, j⟩ := ij
      have hT := TryMerge_of_findEdge_some env f1 f2 i j hpre hfe
      cases hp : planeAt env.planes f1.planenum with
      | none =>
        rw [hp] at hT
        simp only [] at hT
        refine ⟨hsome, fun hpl => absurd rfl hpl, Or.inr hT, ?_⟩
        rw [hT]
        exact ⟨fun _ => ⟨hpre, by simp, rfl⟩, fun _ => rfl⟩
      | some plane =>
        rw [hp] at hT
        simp only [] at hT
        have hN : TryMerge env f1 f2 = .ok none := by
          rw [hT]
          split_ifs <;> rfl
        refine ⟨hsome, fun _ => hN, Or.inl hN, ?_⟩
        rw [hN]
        constructor
        · intro h2
          simp at h2
        · intro h2
          simp at h2

/-- Witness of C7 (amended): two squares, 8 points in total, with `MAXEDGES = 7`. -/
theorem TryMerge_too_many_edges_witness :
    faceA.w.length + faceB.w.length > envSmall.MAXEDGES
    ∧ planeAt envSmall.planes faceA.planenum ≠ none
    ∧ TryMerge envSmall faceA faceB = .ok none :=
  ⟨by decide, by decide,
   (TryMerge_too_many_edges envSmall faceA faceB (by decide)).2.1 (by decide)⟩

theorem normalizeQ_scales : ScalesNonneg normalizeQ := by
  intro v
  unfold normalizeQ
  simp only []
  split_ifs with h
  · exact ⟨1, by norm_num, by simp⟩
  · refine ⟨1 / Rat.sqrt (DotProduct v v), ?_, ?_⟩
    · exact div_nonneg (by norm_num) (Rat.sqrt_nonneg _)
    · simp only [Vec3.mk.injEq]
      refine ⟨?_, ?_, ?_⟩ <;> ring

/-! ## The scenario of the two unit squares -/

theorem findEdge_squares (ε : ℚ) (h0 : 0 ≤ ε) (h1 : ε < 1) :
    findEdge ε squareXw squareYw = some (3, 1) := by
  rw [findEdge_eq_some]
  refine ⟨by decide, by decide, ?_, ?_⟩
  · simp [SharedEdge, CoordsWithin, squareXw, squareYw, pt, h0]
  · intro i2 j2 hi2 hj2 hs
    simp only [squareXw, squareYw, List.length_cons, List.length_nil] at hi2 hj2
    have hlt : ¬ ((1 : ℚ) ≤ ε) := not_le.2 h1
    interval_cases i2 <;> interval_cases j2 <;>
      simp [SharedEdge, CoordsWithin, squareXw, squareYw, pt, hlt, LexLe] at hs ⊢

theorem dot1_squares (env : MergeEnv) (N : Vec3) (hN : N.z = 0)
    (hnorm : ScalesNonneg env.normalize) :
    dot1 env N squareXw squareYw 3 1 = 0 := by
  unfold dot1
  simp only []
  obtain ⟨c, _, hc⟩ := hnorm (CrossProduct N
    (VectorSubtract (pt squareXw 3) (pt squareXw ((3 + squareXw.length - 1) % squareXw.length))))
  rw [hc]
  simp [DotProduct, CrossProduct, VectorSubtract, pt, squareXw, squareYw, hN]

theorem dot2_squares (env : MergeEnv) (N : Vec3) (hN : N.z = 0)
    (hnorm : ScalesNonneg env.normalize) :
    dot2 env N squareXw squareYw 3 1 = 0 := by
  unfold dot2
  simp only []
  obtain ⟨c, _, hc⟩ := hnorm (CrossProduct N
    (VectorSubtract (pt squareXw ((3 + 2) % squareXw.length))
      (pt squareXw ((3 + 1) % squareXw.length))))
  rw [hc]
  simp [DotProduct, CrossProduct, VectorSubtract, pt, squareXw, squareYw, hN]

theorem mergeNormal_z (plane : Plane) (side : Int) (hz : plane.normal.z = 0) :
    (mergeNormal plane side).z = 0 := by
  unfold mergeNormal
  split_ifs <;> simp [VectorInverse, hz]

theorem TryMerge_squares_eval (env : MergeEnv) (f1 f2 : Face) (plane : Plane)
    (hw1 : f1.w = squareXw) (hw2 : f2.w = squareYw)
    (hside : f1.planeside = f2.planeside) (htex : f1.texinfo = f2.texinfo)
    (hcont : f1.contents = f2.contents) (hlm : f1.lmshift = f2.lmshift)
    (heq0 : 0 ≤ env.EQUAL_EPSILON) (heq1 : env.EQUAL_EPSILON < 1)
    (hc : 0 ≤ env.CONTINUOUS_EPSILON) (hmax : 8 ≤ env.MAXEDGES)
    (hpl : planeAt env.planes f1.planenum = some plane) (hz : plane.normal.z = 0)
    (hnorm : ScalesNonneg env.normalize) :
    TryMerge env f1 f2 = .ok (some { f1 with w := diagonalw }) := by
  have hpre : ¬ (f1.w.length = 0 ∨ f2.w.length = 0 ∨ f1.planeside ≠ f2.planeside
      ∨ f1.texinfo ≠ f2.texinfo ∨ f1.contents ≠ f2.contents ∨ f1.lmshift ≠ f2.lmshift) := by
    simp [hw1, hw2, hside, htex, hcont, hlm, squareXw, squareYw]
  have hfe : findEdge env.EQUAL_EPSILON f1.w f2.w = some (3, 1) := by
    rw [hw1, hw2]
    exact findEdge_squares _ heq0 heq1
  rw [TryMerge_of_findEdge_some env f1 f2 3 1 hpre hfe, hpl]
  simp only [hw1, hw2, dot1_squares env _ (mergeNormal_z plane _ hz) hnorm,
    dot2_squares env _ (mergeNormal_z plane _ hz) hnorm]
  have h1 : ¬ (0 > env.CONTINUOUS_EPSILON) := not_lt.2 hc
  have h2 : ¬ (squareXw.length + squareYw.length > env.MAXEDGES) := by
    simp [squareXw, squareYw]; omega
  have h3 : ¬ ((0 : ℚ) < -env.CONTINUOUS_EPSILON) := by linarith
  rw [if_neg h1, if_neg h1, if_neg h2]
  simp [h3, mergedWinding, copyLoop, squareXw, squareYw, diagonalw, pt]

theorem TryMerge_squareX_squareY : TryMerge envX squareX squareY = .ok (some diagonal) :=
  TryMerge_squares_eval envX squareX squareY planeX1 rfl rfl rfl rfl rfl rfl
    (by norm_num [envX, envQ]) (by norm_num [envX, envQ]) (by norm_num [envX, envQ])
    (by decide) (by decide) rfl normalizeQ_scales

theorem combo_x_eq_y (w : Winding) (h : ∀ p ∈ w, p.x = p.y) (cs : List ℚ) :
    (combo cs w).x = (combo cs w).y := by
  induction w generalizing cs with
  | nil => cases cs <;> simp [combo, vec3_origin]
  | cons p ps ih =>
    cases cs with
    | nil => simp [combo, vec3_origin]
    | cons c cs =>
      simp only [combo]
      rw [h p (List.mem_cons_self _ _), ih (fun q hq => h q (List.mem_cons_of_mem _ hq)) cs]

theorem not_inHull_diagonalw : ¬ InHull diagonalw ⟨1, 0, 0⟩ := by
  rintro ⟨cs, _, _, _, hcs⟩
  have h := combo_x_eq_y diagonalw (by simp [diagonalw]) cs
  rw [hcs] at h
  norm_num at h

/-- C8 (as stated, refuted): for the two squares of the scenario `TryMerge` returns the face
with the winding `(1,1,0), (1,1,1), (0,0,1), (0,0,0)`, which spans neither square: the corner
`(1,0,0)` of both squares is no combination of its vertices. -/
theorem TryMerge_scenario_result_spans_no_square :
    TryMerge envX squareX squareY = .ok (some diagonal)
    ∧ ¬ Spans diagonal.w squareX.w ∧ ¬ Spans diagonal.w squareY.w := by
  refine ⟨TryMerge_squareX_squareY, ?_, ?_⟩
  · intro h
    exact not_inHull_diagonalw (h ⟨1, 0, 0⟩ (by simp [squareX, squareXw]))
  · intro h
    exact not_inHull_diagonalw (h ⟨1, 0, 0⟩ (by simp [squareY, squareYw]))

/-- C8 (amended): for the two squares of the scenario, carrying the same plane side,
material, contents and lightmap shift, with tolerances `0 <= EQUAL_EPSILON < 1` and
`0 <= CONTINUOUS_EPSILON`, `MAXEDGES >= 8`, and the plane of `f1` in the table with a normal
whose `z` component is `0` (the plane `x = 1` of `f1` or the plane `y = 0` of `f2`), `TryMerge`
returns a face (not none) whose winding has exactly the 4 vertices
`(1,1,0), (1,1,1), (0,0,1), (0,0,0)`; neither vertex of the common edge is among them. -/
theorem TryMerge_scenario (env : MergeEnv) (f1 f2 : Face) (plane : Plane)
    (hw1 : f1.w = squareXw) (hw2 : f2.w = squareYw)
    (hside : f1.planeside = f2.planeside) (htex : f1.texinfo = f2.texinfo)
    (hcont : f1.contents = f2.contents) (hlm : f1.lmshift = f2.lmshift)
    (heq0 : 0 ≤ env.EQUAL_EPSILON) (heq1 : env.EQUAL_EPSILON < 1)
    (hc : 0 ≤ env.CONTINUOUS_EPSILON) (hmax : 8 ≤ env.MAXEDGES)
    (hpl : planeAt env.planes f1.planenum = some plane) (hz : plane.normal.z = 0)
    (hnorm : ScalesNonneg env.normalize) :
    ∃ f, TryMerge env f1 f2 = .ok (some f)
      ∧ f.w = [⟨1, 1, 0⟩, ⟨1, 1, 1⟩, ⟨0, 0, 1⟩, ⟨0, 0, 0⟩]
      ∧ f.w.length = 4
      ∧ (⟨1, 0, 0⟩ : Vec3) ∉ f.w ∧ (⟨1, 0, 1⟩ : Vec3) ∉ f.w := by
  refine ⟨{ f1 with w := diagonalw }, TryMerge_squares_eval env f1 f2 plane hw1 hw2 hside htex
    hcont hlm heq0 heq1 hc hmax hpl hz hnorm, rfl, rfl, ?_, ?_⟩
  · simp [diagonalw]
  · simp [diagonalw]

/-- Witness of C8 (amended): the scenario in the environment `envX`. -/
theorem TryMerge_scenario_witness :
    ∃ f, TryMerge envX squareX squareY = .ok (some f)
      ∧ f.w = [⟨1, 1, 0⟩, ⟨1, 1, 1⟩, ⟨0, 0, 1⟩, ⟨0, 0, 0⟩]
      ∧ f.w.length = 4
      ∧ (⟨1, 0, 0⟩ : Vec3) ∉ f.w ∧ (⟨1, 0, 1⟩ : Vec3) ∉ f.w :=
  TryMerge_scenario envX squareX squareY planeX1 rfl rfl rfl rfl rfl rfl
    (by norm_num [envX, envQ]) (by norm_num [envX, envQ]) (by norm_num [envX, envQ])
    (by decide) (by decide) rfl normalizeQ_scales

/-! ## MergeFaceToList -/

theorem mergeLoop_nil (env : MergeEnv) (face : Face) (done : List Face) :
    mergeLoop env face done [] = .ok (done ++ [face]) := by
  unfold mergeLoop
  rfl

theorem mergeLoop_error (env : MergeEnv) (face g : Face) (done rest1 : List Face) (e : Fatal)
    (h : TryMerge env face g = .error e) :
    mergeLoop env face done (g :: rest1) = .error e := by
  conv_lhs => unfold mergeLoop
  simp only [h]

theorem mergeLoop_merge (env : MergeEnv) (face g newf : Face) (done rest1 : List Face)
    (h : TryMerge env face g = .ok (some newf)) :
    mergeLoop env face done (g :: rest1) = mergeLoop env newf [] (done ++ rest1) := by
  conv_lhs => unfold mergeLoop
  simp only [h]

theorem mergeLoop_skip (env : MergeEnv) (face g : Face) (done rest1 : List Face)
    (h : TryMerge env face g = .ok none) :
    mergeLoop env face done (g :: rest1) = mergeLoop env face (done ++ [g]) rest1 := by
  conv_lhs => unfold mergeLoop
  simp only [h]

theorem mergeLoop_result (env : MergeEnv) (face : Face) (done rest : List Face) :
    ∀ out, mergeLoop env face done rest = .ok out →
      (∀ g ∈ done, TryMerge env face g = .ok none) →
      ∃ kept merged F, out = kept ++ [F] ∧ kept.Sublist (done ++ rest)
        ∧ (kept ++ merged).Perm (done ++ rest) ∧ mergeChain env face merged = some F
        ∧ ∀ g ∈ kept, TryMerge env F g = .ok none := by
  induction face, done, rest using mergeLoop.induct env with
  | case1 face done =>
    intro out h hinv
    rw [mergeLoop_nil] at h
    simp only [Except.ok.injEq] at h
    exact ⟨done, [], face, h.symm, by simp, by simp, rfl, hinv⟩
  | case2 face done g rest1 e he =>
    intro out h _
    rw [mergeLoop_error env face g done rest1 e he] at h
    simp at h
  | case3 face done g rest1 newf hm ih =>
    intro out h _
    rw [mergeLoop_merge env face g newf done rest1 hm] at h
    obtain ⟨kept, merged, F, hout, hsub, hperm, hchain, hnone⟩ :=
      ih out h (fun g hg => absurd hg (List.not_mem_nil g))
    rw [List.nil_append] at hsub hperm
    refine ⟨kept, g :: merged, F, hout, ?_, ?_, ?_, hnone⟩
    · exact hsub.trans
        (List.Sublist.append (List.Sublist.refl done) (List.sublist_cons_self g rest1))
    · exact (List.perm_middle.trans (List.Perm.cons g hperm)).trans List.perm_middle.symm
    · simp only [mergeChain, hm, hchain]
  | case4 face done g rest1 hs ih =>
    intro out h hinv
    rw [mergeLoop_skip env face g done rest1 hs] at h
    have hinv2 : ∀ x ∈ done ++ [g], TryMerge env face x = .ok none := by
      intro x hx
      rcases List.mem_append.1 hx with hx | hx
      · exact hinv x hx
      · rw [List.mem_singleton.1 hx]; exact hs
    obtain ⟨kept, merged, F, hout, hsub, hperm, hchain, hnone⟩ := ih out h hinv2
    rw [List.append_assoc, List.singleton_append] at hsub hperm
    exact ⟨kept, merged, F, hout, hsub, hperm, hchain, hnone⟩
theorem TryMerge_error_plane (env : MergeEnv) (f1 f2 : Face) (e : Fatal)
    (h : TryMerge env f1 f2 = .error e) : planeAt env.planes f1.planenum = none := by
  by_cases hpre : f1.w.length = 0 ∨ f2.w.length = 0 ∨ f1.planeside ≠ f2.planeside
      ∨ f1.texinfo ≠ f2.texinfo ∨ f1.contents ≠ f2.contents ∨ f1.lmshift ≠ f2.lmshift
  · unfold TryMerge at h
    rw [if_pos hpre] at h
    simp at h
  · cases hfe : findEdge env.EQUAL_EPSILON f1.w f2.w with
    | none =>
      rw [TryMerge_of_findEdge_none env f1 f2 hfe] at h
      simp at h
    | some ij =>
      obtain ⟨i, j⟩ := ij
      rw [TryMerge_of_findEdge_some env f1 f2 i j hpre hfe] at h
      cases hpl : planeAt env.planes f1.planenum with
      | none => rfl
      | some plane =>
        rw [hpl] at h
        simp only [] at h
        split_ifs at h

theorem TryMerge_planenum (env : MergeEnv) (f1 f2 f : Face)
    (h : TryMerge env f1 f2 = .ok (some f)) : f.planenum = f1.planenum := by
  obtain ⟨_, _, _, _, _, _, _, _, _, hf⟩ := TryMerge_eq_some env f1 f2 f h
  rw [hf]

theorem mergeLoop_ok (env : MergeEnv) (face : Face) (done rest : List Face) :
    planeAt env.planes face.planenum ≠ none → ∃ out, mergeLoop env face done rest = .ok out := by
  induction face, done, rest using mergeLoop.induct env with
  | case1 face done =>
    intro _
    exact ⟨_, mergeLoop_nil env face done⟩
  | case2 face done g rest1 e he =>
    intro hpl
    exact absurd (TryMerge_error_plane env face g e he) hpl
  | case3 face done g rest1 newf hm ih =>
    intro hpl
    rw [mergeLoop_merge env face g newf done rest1 hm]
    exact ih (by rw [TryMerge_planenum env face g newf hm]; exact hpl)
  | case4 face done g rest1 hs ih =>
    intro hpl
    rw [mergeLoop_skip env face g done rest1 hs]
    exact ih hpl

/-- C10: `MergeFaceToList` returns (the plane index of `face` being in the plane table), and
the updated list is `kept ++ [F]`, where `kept` holds the elements of the original list that
were not merged, in their original order, `merged` the elements that were, `F` is the result
of merging these one after the other into `face` (`face` itself when there are none); its
length is the original length `+ 1 -` the number of merges; and `TryMerge (F, g)` returns
none for every other element `g` of the updated list. -/
theorem MergeFaceToList_result (env : MergeEnv) (face : Face) (list : List Face) :
    (planeAt env.planes face.planenum ≠ none →
        ∃ out, MergeFaceToList env face list = .ok out)
    ∧ ∀ out, MergeFaceToList env face list = .ok out →
        ∃ kept merged F, out = kept ++ [F] ∧ kept.Sublist list
          ∧ (kept ++ merged).Perm list ∧ mergeChain env face merged = some F
          ∧ out.length = list.length + 1 - merged.length
          ∧ ∀ g ∈ kept, TryMerge env F g = .ok none := by
  constructor
  · exact mergeLoop_ok env face [] list
  · intro out h
    obtain ⟨kept, merged, F, hout, hsub, hperm, hchain, hnone⟩ :=
      mergeLoop_result env face [] list out h (fun g hg => absurd hg (List.not_mem_nil g))
    rw [List.nil_append] at hsub hperm
    refine ⟨kept, merged, F, hout, hsub, hperm, hchain, ?_, hnone⟩
    have hlen := hperm.length_eq
    rw [List.length_append] at hlen
    rw [hout, List.length_append, List.length_singleton]
    omega

theorem MergeFaceToList_sample :
    MergeFaceToList envQ faceA [faceBtex, faceB] = .ok [faceBtex, faceAB] := by
  have h1 : TryMerge envQ faceA faceBtex = .ok none :=
    TryMerge_of_texinfo_ne envQ faceA faceBtex (by decide)
  have h2 : TryMerge envQ faceAB faceBtex = .ok none :=
    TryMerge_of_texinfo_ne envQ faceAB faceBtex (by decide)
  unfold MergeFaceToList
  rw [mergeLoop_skip envQ faceA faceBtex [] [faceB] h1,
    mergeLoop_merge envQ faceA faceB faceAB _ [] TryMerge_faceA_faceB]
  simp only [List.nil_append, List.append_nil]
  rw [mergeLoop_skip envQ faceAB faceBtex [] [] h2, mergeLoop_nil]
  rfl

/-- Witness of C10: `faceA` against the list `[faceBtex, faceB]`. -/
theorem MergeFaceToList_result_witness :
    MergeFaceToList envQ faceA [faceBtex, faceB] = .ok [faceBtex, faceAB]
    ∧ ∃ kept merged F, [faceBtex, faceAB] = kept ++ [F] ∧ kept.Sublist [faceBtex, faceB]
        ∧ (kept ++ merged).Perm [faceBtex, faceB] ∧ mergeChain envQ faceA merged = some F
        ∧ [faceBtex, faceAB].length = [faceBtex, faceB].length + 1 - merged.length
        ∧ ∀ g ∈ kept, TryMerge envQ F g = .ok none :=
  ⟨MergeFaceToList_sample,
   (MergeFaceToList_result envQ faceA [faceBtex, faceB]).2 _ MergeFaceToList_sample⟩


/-! ## The copy loops in closed form -/

theorem add_mod_ne_self (n i u : Nat) (hi : i < n) (hu : 0 < u) (hun : u < n) :
    (i + u) % n ≠ i := by
  by_cases h : i + u < n
  · rw [Nat.mod_eq_of_lt h]; omega
  · have h2 : (i + u) % n = i + u - n := by
      rw [Nat.mod_eq_sub_mod (by omega), Nat.mod_eq_of_lt (by omega)]
    rw [h2]; omega

theorem copyLoop_eq_map (w : Winding) (stop : Nat) (d : Nat) :
    ∀ fuel k, d ≤ fuel → k < w.length → (k + d) % w.length = stop →
      (∀ t < d, (k + t) % w.length ≠ stop) →
      copyLoop w stop fuel k = (List.range d).map (fun t => pt w ((k + t) % w.length)) := by
  induction d with
  | zero =>
    intro fuel k _ hk hstop _
    rw [Nat.add_zero, Nat.mod_eq_of_lt hk] at hstop
    cases fuel with
    | zero => rfl
    | succ f => simp [copyLoop, hstop]
  | succ d ih =>
    intro fuel k hfuel hk hstop hne
    cases fuel with
    | zero => omega
    | succ f =>
      have hks : k ≠ stop := by
        have := hne 0 (Nat.succ_pos d)
        rwa [Nat.add_zero, Nat.mod_eq_of_lt hk] at this
      have hn : 0 < w.length := Nat.lt_of_le_of_lt (Nat.zero_le _) hk
      rw [copyLoop, if_neg hks, List.range_succ_eq_map, List.map_cons, List.map_map]
      rw [ih f ((k + 1) % w.length) (Nat.le_of_succ_le_succ hfuel) (Nat.mod_lt _ hn)
        (by rw [Nat.mod_add_mod, ← hstop]; congr 1; omega)
        (by
          intro t ht
          rw [Nat.mod_add_mod]
          have := hne (t + 1) (Nat.succ_lt_succ ht)
          rwa [show k + (t + 1) = k + 1 + t by omega] at this)]
      congr 1
      · rw [Nat.add_zero, Nat.mod_eq_of_lt hk]
      · apply List.map_congr_left
        intro t _
        simp only [Function.comp, Nat.mod_add_mod]
        congr 2
        omega

theorem copyLoop_from (w : Winding) (i s : Nat) (hi : i < w.length) (hs1 : 1 ≤ s)
    (hs : s ≤ w.length) :
    copyLoop w i w.length ((i + s) % w.length) =
      (List.range (w.length - s)).map (fun t => pt w ((i + s + t) % w.length)) := by
  have hn : 0 < w.length := Nat.lt_of_le_of_lt (Nat.zero_le _) hi
  rw [copyLoop_eq_map w i (w.length - s) w.length ((i + s) % w.length) (Nat.sub_le _ _)
    (Nat.mod_lt _ hn)
    (by
      rw [Nat.mod_add_mod, show i + s + (w.length - s) = i + w.length by omega,
        Nat.add_mod_right, Nat.mod_eq_of_lt hi])
    (by
      intro t ht
      rw [Nat.mod_add_mod, Nat.add_assoc]
      exact add_mod_ne_self _ _ _ hi (by omega) (by omega))]
  apply List.map_congr_left
  intro t _
  rw [Nat.mod_add_mod]

/-- The copy loop does not depend on the fuel, once the fuel is the size of the winding. -/
theorem copyLoop_fuel (w : Winding) (i s fuel : Nat) (hi : i < w.length) (hs1 : 1 ≤ s)
    (hs : s ≤ w.length) (hf : w.length ≤ fuel) :
    copyLoop w i fuel ((i + s) % w.length) = copyLoop w i w.length ((i + s) % w.length) := by
  have hn : 0 < w.length := Nat.lt_of_le_of_lt (Nat.zero_le _) hi
  rw [copyLoop_from w i s hi hs1 hs]
  rw [copyLoop_eq_map w i (w.length - s) fuel ((i + s) % w.length) (by omega)
    (Nat.mod_lt _ hn)
    (by
      rw [Nat.mod_add_mod, show i + s + (w.length - s) = i + w.length by omega,
        Nat.add_mod_right, Nat.mod_eq_of_lt hi])
    (by
      intro t ht
      rw [Nat.mod_add_mod, Nat.add_assoc]
      exact add_mod_ne_self _ _ _ hi (by omega) (by omega))]
  apply List.map_congr_left
  intro t _
  rw [Nat.mod_add_mod]

theorem pt_map_range (f : Nat → Vec3) (d t : Nat) (h : t < d) :
    pt ((List.range d).map f) t = f t := by
  unfold pt
  rw [List.getD_eq_getElem _ _ (by simpa using h)]
  simp

theorem pt_append_left (a b : Winding) (t : Nat) (h : t < a.length) :
    pt (a ++ b) t = pt a t := by
  unfold pt
  simp [List.getD_eq_getElem?_getD, List.getElem?_append_left h]

theorem pt_append_right (a b : Winding) (t : Nat) (h : a.length ≤ t) :
    pt (a ++ b) t = pt b (t - a.length) := by
  unfold pt
  simp [List.getD_eq_getElem?_getD, List.getElem?_append_right h]

/-! ## Normals scaled by a factor that is not negative -/

theorem dot_scaled_neg (normalize : Vec3 → Vec3) (hnorm : ScalesNonneg normalize)
    (a x : Vec3) (h : DotProduct a (normalize x) < 0) : DotProduct a x < 0 := by
  obtain ⟨c, hc, he⟩ := hnorm x
  rw [he] at h
  simp only [DotProduct] at h ⊢
  by_contra hcon
  have h1 : 0 ≤ c * (a.x * x.x + a.y * x.y + a.z * x.z) := mul_nonneg hc (not_lt.1 hcon)
  nlinarith

theorem dot_scaled_nonpos (normalize : Vec3 → Vec3) (hnorm : ScalesNonneg normalize)
    (a x : Vec3) (h : DotProduct a x ≤ 0) : DotProduct a (normalize x) ≤ 0 := by
  obtain ⟨c, hc, he⟩ := hnorm x
  rw [he]
  simp only [DotProduct] at h ⊢
  have h1 : c * (a.x * x.x + a.y * x.y + a.z * x.z) ≤ 0 :=
    mul_nonpos_of_nonneg_of_nonpos hc h
  nlinarith

/-- The two triple products at the second junction agree. -/
theorem junction_triple (N p q r : Vec3) :
    DotProduct (VectorSubtract r p) (CrossProduct N (VectorSubtract p q))
      = DotProduct (VectorSubtract q p) (CrossProduct N (VectorSubtract r p)) := by
  simp only [DotProduct, CrossProduct, VectorSubtract]
  ring

theorem convexWithin_of_convex (normalize : Vec3 → Vec3) (hnorm : ScalesNonneg normalize)
    (N : Vec3) (w : Winding) (tol : ℚ) (htol : 0 ≤ tol) (h : Convex N w) :
    ConvexWithin normalize N w tol := by
  intro t ht
  exact le_trans (dot_scaled_nonpos normalize hnorm _ _ (h t ht)) htol

/-! ## Joining two convex windings along a common edge -/

theorem mod_pred (x n : Nat) (hn : 0 < n) (hx : 1 ≤ x) :
    (x % n + n - 1) % n = (x - 1) % n := by
  rw [Nat.add_sub_assoc hn, Nat.mod_add_mod,
    show x + (n - 1) = x - 1 + n by omega, Nat.add_mod_right]

theorem turn_at (normalize : Vec3 → Vec3) (N : Vec3) (w : Winding) (x : Nat) (tol : ℚ)
    (hn : 0 < w.length) (hx : 1 ≤ x) (hc : ConvexWithin normalize N w tol) :
    DotProduct (VectorSubtract (pt w ((x + 1) % w.length)) (pt w (x % w.length)))
      (normalize (CrossProduct N
        (VectorSubtract (pt w (x % w.length)) (pt w ((x - 1) % w.length))))) ≤ tol := by
  have h := hc (x % w.length) (Nat.mod_lt _ hn)
  unfold turn at h
  rwa [Nat.mod_add_mod, mod_pred x _ hn hx] at h

theorem joined_convex (normalize : Vec3 → Vec3) (hnorm : ScalesNonneg normalize) (N : Vec3)
    (w1 w2 : Winding) (i j : Nat) (tol : ℚ) (htol : 0 ≤ tol)
    (h1 : 3 ≤ w1.length) (h2 : 3 ≤ w2.length) (hi : i < w1.length) (hj : j < w2.length)
    (hp1 : pt w1 i = pt w2 ((j + 1) % w2.length))
    (hp2 : pt w1 ((i + 1) % w1.length) = pt w2 j)
    (hc1 : ConvexWithin normalize N w1 tol) (hc2 : ConvexWithin normalize N w2 tol)
    (hd1 : DotProduct (VectorSubtract (pt w2 ((j + 2) % w2.length)) (pt w1 i))
        (normalize (CrossProduct N
          (VectorSubtract (pt w1 i) (pt w1 ((i + w1.length - 1) % w1.length))))) ≤ tol)
    (hd2 : DotProduct
        (VectorSubtract (pt w2 ((j + w2.length - 1) % w2.length)) (pt w1 ((i + 1) % w1.length)))
        (normalize (CrossProduct N
          (VectorSubtract (pt w1 ((i + 2) % w1.length)) (pt w1 ((i + 1) % w1.length))))) < 0) :
    ConvexWithin normalize N
      ((List.range (w1.length - 1)).map (fun t => pt w1 ((i + 1 + t) % w1.length)) ++
       (List.range (w2.length - 1)).map (fun t => pt w2 ((j + 1 + t) % w2.length))) tol := by
  have hn1 : 0 < w1.length := by omega
  have hn2 : 0 < w2.length := by omega
  have hA : ∀ u, u < w1.length - 1 →
      pt ((List.range (w1.length - 1)).map (fun t => pt w1 ((i + 1 + t) % w1.length)) ++
       (List.range (w2.length - 1)).map (fun t => pt w2 ((j + 1 + t) % w2.length))) u
        = pt w1 ((i + 1 + u) % w1.length) := by
    intro u hu
    rw [pt_append_left _ _ _ (by simpa using hu), pt_map_range _ _ _ hu]
  have hB : ∀ u, w1.length - 1 ≤ u → u < w1.length - 1 + (w2.length - 1) →
      pt ((List.range (w1.length - 1)).map (fun t => pt w1 ((i + 1 + t) % w1.length)) ++
       (List.range (w2.length - 1)).map (fun t => pt w2 ((j + 1 + t) % w2.length))) u
        = pt w2 ((j + 1 + (u - (w1.length - 1))) % w2.length) := by
    intro u hu1 hu2
    rw [pt_append_right _ _ _ (by simpa using hu1)]
    simp only [List.length_map, List.length_range]
    rw [pt_map_range _ _ _ (by omega)]
  intro t ht
  simp only [List.length_append, List.length_map, List.length_range] at ht
  unfold turn
  simp only [List.length_append, List.length_map, List.length_range]
  rcases Nat.eq_zero_or_pos t with h0 | hpos
  · -- the vertex `w1[i+1]`, entered from `w2[j-1]`
    subst h0
    have e1 : (0 + 1) % (w1.length - 1 + (w2.length - 1)) = 1 := Nat.mod_eq_of_lt (by omega)
    have e2 : (0 + (w1.length - 1 + (w2.length - 1)) - 1) % (w1.length - 1 + (w2.length - 1))
        = w1.length - 1 + (w2.length - 1) - 1 := by
      rw [Nat.zero_add]; exact Nat.mod_eq_of_lt (by omega)
    rw [e1, e2, hA 0 (by omega), hA 1 (by omega), hB _ (by omega) (by omega)]
    have e3 : (j + 1 + (w1.length - 1 + (w2.length - 1) - 1 - (w1.length - 1))) % w2.length
        = (j + w2.length - 1) % w2.length := by
      congr 1; omega
    rw [e3, Nat.add_zero]
    have hneg := dot_scaled_neg normalize hnorm _ _ hd2
    rw [← junction_triple] at hneg
    exact le_trans (dot_scaled_nonpos normalize hnorm _ _ (le_of_lt hneg)) htol
  · have ep : (t + (w1.length - 1 + (w2.length - 1)) - 1) % (w1.length - 1 + (w2.length - 1))
        = t - 1 := by
      rw [show t + (w1.length - 1 + (w2.length - 1)) - 1
        = t - 1 + (w1.length - 1 + (w2.length - 1)) by omega, Nat.add_mod_right]
      exact Nat.mod_eq_of_lt (by omega)
    rw [ep]
    rcases Nat.lt_trichotomy t (w1.length - 1) with hlt | heq | hgt
    · -- a vertex of `w1` other than the two of the common edge
      have hv := hA t hlt
      have hp := hA (t - 1) (by omega)
      have hnx : pt ((List.range (w1.length - 1)).map (fun t => pt w1 ((i + 1 + t) % w1.length))
          ++ (List.range (w2.length - 1)).map (fun t => pt w2 ((j + 1 + t) % w2.length)))
          ((t + 1) % (w1.length - 1 + (w2.length - 1)))
          = pt w1 ((i + 1 + t + 1) % w1.length) := by
        rw [Nat.mod_eq_of_lt (by omega)]
        rcases Nat.lt_or_ge (t + 1) (w1.length - 1) with h | h
        · rw [hA (t + 1) h]; rfl
        · have ht1 : t + 1 = w1.length - 1 := by omega
          rw [hB (t + 1) h (by omega), ht1, Nat.sub_self, Nat.add_zero, ← hp1]
          congr 1
          rw [show i + 1 + t + 1 = i + w1.length by omega, Nat.add_mod_right,
            Nat.mod_eq_of_lt hi]
      rw [hv, hp, hnx, show i + 1 + (t - 1) = i + 1 + t - 1 by omega]
      exact turn_at normalize N w1 (i + 1 + t) tol hn1 (by omega) hc1
    · -- the vertex `w2[j+1]`, entered from `w1[i-1]`
      subst heq
      rw [Nat.mod_eq_of_lt (by omega), hB (w1.length - 1) (le_refl _) (by omega),
        hB (w1.length - 1 + 1) (by omega) (by omega), hA (w1.length - 1 - 1) (by omega),
        Nat.sub_self, Nat.add_zero, ← hp1]
      have e4 : (j + 1 + (w1.length - 1 + 1 - (w1.length - 1))) % w2.length
          = (j + 2) % w2.length := by
        congr 1; omega
      have e5 : (i + 1 + (w1.length - 1 - 1)) % w1.length
          = (i + w1.length - 1) % w1.length := by
        congr 1; omega
      rw [e4, e5]
      exact hd1
    · -- a vertex of `w2` other than the two of the common edge
      have hv := hB t (by omega) ht
      have hp := hB (t - 1) (by omega) (by omega)
      have hnx : pt ((List.range (w1.length - 1)).map (fun t => pt w1 ((i + 1 + t) % w1.length))
          ++ (List.range (w2.length - 1)).map (fun t => pt w2 ((j + 1 + t) % w2.length)))
          ((t + 1) % (w1.length - 1 + (w2.length - 1)))
          = pt w2 ((j + 1 + (t - (w1.length - 1)) + 1) % w2.length) := by
        rcases Nat.lt_or_ge (t + 1) (w1.length - 1 + (w2.length - 1)) with h | h
        · rw [Nat.mod_eq_of_lt h, hB (t + 1) (by omega) h]
          congr 2; omega
        · have ht1 : t + 1 = w1.length - 1 + (w2.length - 1) := by omega
          rw [ht1, Nat.mod_self, hA 0 (by omega), Nat.add_zero, hp2]
          congr 1
          rw [show j + 1 + (t - (w1.length - 1)) + 1 = j + w2.length by omega,
            Nat.add_mod_right, Nat.mod_eq_of_lt hj]
      rw [hv, hp, hnx,
        show j + 1 + (t - 1 - (w1.length - 1)) = j + 1 + (t - (w1.length - 1)) - 1 by omega]
      exact turn_at normalize N w2 (j + 1 + (t - (w1.length - 1))) tol hn2 (by omega) hc2

/-! ## Convexity of a merged winding : the sample faces -/

theorem findEdge_faceA_faceP : findEdge (1 / 1000) faceA.w faceP.w = some (1, 0) := by
  simp [findEdge, findJ, edgeMatches, coordBreaks, faceA, faceP, pt, List.range_succ,
    List.findSome?, List.find?, Vec3.comp]
  norm_num [abs_div]

theorem TryMerge_faceA_faceP : TryMerge envQ faceA faceP = .ok (some faceAP) := by
  unfold TryMerge
  simp only [show envQ.EQUAL_EPSILON = 1 / 1000 from rfl, findEdge_faceA_faceP]
  simp [envQ, faceA, faceP, faceAP, planeAt, planeZ0, mergeNormal, dot1, dot2, pt,
    VectorSubtract, CrossProduct, DotProduct, normalizeQ_unit, NewFaceFromFace,
    UpdateFaceSphere, mergedWinding, copyLoop]
  norm_num

theorem turn_faceAP : turn normalizeQ ⟨0, 0, 1⟩ faceAP.w 2 = 23999999 / 1600000025 := by
  have h : normalizeQ ⟨-(1 / 2000), 63999999 / 32000000, 0⟩
      = ⟨-(1 / 2000) / (64000001 / 32000000),
          63999999 / 32000000 / (64000001 / 32000000), 0 / (64000001 / 32000000)⟩ :=
    normalizeQ_of_sq _ (64000001 / 32000000) (by norm_num) (by norm_num [DotProduct])
  simp [turn, faceAP, faceA, pt, VectorSubtract, CrossProduct, DotProduct]
  norm_num [h]

theorem convex_faceA : Convex ⟨0, 0, 1⟩ faceA.w := by
  intro t ht
  simp only [faceA, List.length_cons, List.length_nil] at ht
  interval_cases t <;>
    simp [faceA, pt, VectorSubtract, CrossProduct, DotProduct]

theorem convex_faceP : Convex ⟨0, 0, 1⟩ faceP.w := by
  intro t ht
  simp only [faceP, List.length_cons, List.length_nil] at ht
  interval_cases t <;>
    simp [faceP, pt, VectorSubtract, CrossProduct, DotProduct] <;> norm_num

theorem normalizeQ_345 : normalizeQ ⟨-3, 4, 0⟩ = ⟨-3 / 5, 4 / 5, 0⟩ := by
  rw [normalizeQ_of_sq _ 5 (by norm_num) (by norm_num [DotProduct])]
  norm_num

theorem normalizeQ_080 : normalizeQ ⟨0, -8, 0⟩ = ⟨0, -1, 0⟩ := by
  rw [normalizeQ_of_sq _ 8 (by norm_num) (by norm_num [DotProduct])]
  norm_num

theorem findEdge_faceC_faceD : findEdge (1 / 1000) faceC.w faceD.w = some (2, 0) := by
  simp [findEdge, findJ, edgeMatches, coordBreaks, faceC, faceD, faceA, pt, List.range_succ,
    List.findSome?, List.find?, Vec3.comp]
  norm_num [abs_div]

theorem TryMerge_faceC_faceD : TryMerge envQ faceC faceD = .ok (some faceCD) := by
  unfold TryMerge
  simp only [show envQ.EQUAL_EPSILON = 1 / 1000 from rfl, findEdge_faceC_faceD]
  simp [envQ, faceA, faceC, faceD, faceCD, planeAt, planeZ0, mergeNormal, dot1, dot2, pt,
    VectorSubtract, CrossProduct, DotProduct, normalizeQ_345, normalizeQ_080,
    NewFaceFromFace, UpdateFaceSphere, mergedWinding, copyLoop]
  norm_num [normalizeQ_345, normalizeQ_080]

theorem turn_faceCD : turn normalizeQ ⟨0, 0, 1⟩ faceCD.w 2 = 63 / 50000 := by
  simp [turn, faceCD, faceA, pt, VectorSubtract, CrossProduct, DotProduct]
  norm_num [normalizeQ_345]

theorem convex_faceC : Convex ⟨0, 0, 1⟩ faceC.w := by
  intro t ht
  simp only [faceC, List.length_cons, List.length_nil] at ht
  interval_cases t <;>
    norm_num [faceC, pt, VectorSubtract, CrossProduct, DotProduct]

theorem convex_faceD : Convex ⟨0, 0, 1⟩ faceD.w := by
  intro t ht
  simp only [faceD, List.length_cons, List.length_nil] at ht
  interval_cases t <;>
    norm_num [faceD, pt, VectorSubtract, CrossProduct, DotProduct]

theorem dots_faceC_faceD :
    dot1 envQ ⟨0, 0, 1⟩ faceC.w faceD.w 2 0 = -(42 / 5)
    ∧ dot2 envQ ⟨0, 0, 1⟩ faceC.w faceD.w 2 0 = -3 := by
  constructor
  · simp [dot1, envQ, faceA, faceC, faceD, pt, VectorSubtract, CrossProduct, DotProduct]
    norm_num [normalizeQ_345]
  · simp [dot2, envQ, faceA, faceC, faceD, pt, VectorSubtract, CrossProduct, DotProduct]
    norm_num [normalizeQ_080]

theorem inPlane_planeZ0 (w : Winding) (h : ∀ p ∈ w, p.z = 0) : InPlane planeZ0 w := by
  intro p hp
  simp [planeDist, DotProduct, planeZ0, h p hp]

/-! ## Convexity of a merged winding -/

theorem mergedWinding_keep_both (w1 w2 : Winding) (i j : Nat) (hi : i < w1.length)
    (hj : j < w2.length) :
    mergedWinding w1 w2 i j true true =
      (List.range (w1.length - 1)).map (fun t => pt w1 ((i + 1 + t) % w1.length)) ++
      (List.range (w2.length - 1)).map (fun t => pt w2 ((j + 1 + t) % w2.length)) := by
  unfold mergedWinding
  simp only [if_true]
  rw [copyLoop_from w1 i 1 hi (le_refl 1) (by omega),
    copyLoop_from w2 j 1 hj (le_refl 1) (by omega)]

/-- C9 (as stated, refuted), in two ways.  First, `faceA` and `faceP` are convex and lie in
the plane `z = 0` of `faceA`, with the same orientation; `TryMerge` merges them, dropping the
corner `(1,0,0)` because the next vertex of `faceP` is only `0.0005` off the line of the edge
of `faceA`; at the vertex `(63999999/32000000, 1/2000, 0)` of the result the test value is
`23999999/1600000025`, about `0.015`, above `CONTINUOUS_EPSILON = 0.001`.  Second, `faceC`
and `faceD` are convex in the same plane and their common edge agrees only within
`EQUAL_EPSILON`; `TryMerge` merges them keeping both junction vertices, and at the vertex
`(4,3,0)` of the result the test value is `63/50000 = 0.00126`. -/
theorem TryMerge_result_not_convex :
    (Convex (mergeNormal planeZ0 faceA.planeside) faceA.w
      ∧ Convex (mergeNormal planeZ0 faceA.planeside) faceP.w
      ∧ ConvexWithin envQ.normalize (mergeNormal planeZ0 faceA.planeside) faceA.w 0
      ∧ ConvexWithin envQ.normalize (mergeNormal planeZ0 faceA.planeside) faceP.w 0
      ∧ InPlane planeZ0 faceA.w ∧ InPlane planeZ0 faceP.w
      ∧ planeAt envQ.planes faceA.planenum = some planeZ0
      ∧ TryMerge envQ faceA faceP = .ok (some faceAP)
      ∧ turn envQ.normalize (mergeNormal planeZ0 faceA.planeside) faceAP.w 2
          = 23999999 / 1600000025
      ∧ ¬ ConvexWithin envQ.normalize (mergeNormal planeZ0 faceA.planeside) faceAP.w
          envQ.CONTINUOUS_EPSILON)
    ∧ (Convex (mergeNormal planeZ0 faceC.planeside) faceC.w
      ∧ Convex (mergeNormal planeZ0 faceC.planeside) faceD.w
      ∧ ConvexWithin envQ.normalize (mergeNormal planeZ0 faceC.planeside) faceC.w 0
      ∧ ConvexWithin envQ.normalize (mergeNormal planeZ0 faceC.planeside) faceD.w 0
      ∧ InPlane planeZ0 faceC.w ∧ InPlane planeZ0 faceD.w
      ∧ planeAt envQ.planes faceC.planenum = some planeZ0
      ∧ dot1 envQ (mergeNormal planeZ0 faceC.planeside) faceC.w faceD.w 2 0
          < -envQ.CONTINUOUS_EPSILON
      ∧ dot2 envQ (mergeNormal planeZ0 faceC.planeside) faceC.w faceD.w 2 0
          < -envQ.CONTINUOUS_EPSILON
      ∧ TryMerge envQ faceC faceD = .ok (some faceCD)
      ∧ turn envQ.normalize (mergeNormal planeZ0 faceC.planeside) faceCD.w 2 = 63 / 50000
      ∧ ¬ ConvexWithin envQ.normalize (mergeNormal planeZ0 faceC.planeside) faceCD.w
          envQ.CONTINUOUS_EPSILON) := by
  have hN : mergeNormal planeZ0 faceA.planeside = ⟨0, 0, 1⟩ := by
    simp [mergeNormal, faceA, planeZ0]
  have hN2 : mergeNormal planeZ0 faceC.planeside = ⟨0, 0, 1⟩ := by
    simp [mergeNormal, faceC, faceA, planeZ0]
  rw [hN, hN2]
  refine ⟨⟨convex_faceA, convex_faceP,
    convexWithin_of_convex _ normalizeQ_scales _ _ 0 (le_refl 0) convex_faceA,
    convexWithin_of_convex _ normalizeQ_scales _ _ 0 (le_refl 0) convex_faceP,
    inPlane_planeZ0 _ (by simp [faceA]), inPlane_planeZ0 _ (by simp [faceP]), by decide,
    TryMerge_faceA_faceP, turn_faceAP, ?_⟩,
    ⟨convex_faceC, convex_faceD,
    convexWithin_of_convex _ normalizeQ_scales _ _ 0 (le_refl 0) convex_faceC,
    convexWithin_of_convex _ normalizeQ_scales _ _ 0 (le_refl 0) convex_faceD,
    inPlane_planeZ0 _ (by simp [faceC]), inPlane_planeZ0 _ (by simp [faceD]), by decide,
    ?_, ?_, TryMerge_faceC_faceD, turn_faceCD, ?_⟩⟩
  · intro h
    have h2 := h 2 (by decide)
    rw [show envQ.normalize = normalizeQ from rfl, turn_faceAP] at h2
    norm_num [envQ] at h2
  · rw [dots_faceC_faceD.1]
    norm_num [envQ]
  · rw [dots_faceC_faceD.2]
    norm_num [envQ]
  · intro h
    have h2 := h 2 (by decide)
    rw [show envQ.normalize = normalizeQ from rfl, turn_faceCD] at h2
    norm_num [envQ] at h2

/-- C9 (amended): let `TryMerge (f1, f2)` return a face for windings of at least 3 points,
with `normalize` scaling by a factor that is not negative and `CONTINUOUS_EPSILON >= 0`.
If the common edge `(i, j)` coincides exactly (`f1[i] = f2[j+1]`, `f1[i+1] = f2[j]`), both
of its vertices are kept (both `dot` values are below `-CONTINUOUS_EPSILON`), and `f1` and
`f2` are convex within `CONTINUOUS_EPSILON`, then the merged winding is convex within
`CONTINUOUS_EPSILON`: at every vertex `v`, with incoming edge `e` and
`n = normalize (planenormal x e)`, the next vertex `w` has `dot (w - v, n)` at most
`CONTINUOUS_EPSILON`. -/
theorem TryMerge_convex_when_kept (env : MergeEnv) (f1 f2 f : Face) (i j : Nat)
    (plane : Plane) (hnorm : ScalesNonneg env.normalize)
    (hc : 0 ≤ env.CONTINUOUS_EPSILON) (h1 : 3 ≤ f1.w.length) (h2 : 3 ≤ f2.w.length)
    (hm : TryMerge env f1 f2 = .ok (some f))
    (hfe : findEdge env.EQUAL_EPSILON f1.w f2.w = some (i, j))
    (hpl : planeAt env.planes f1.planenum = some plane)
    (hp1 : pt f1.w i = pt f2.w ((j + 1) % f2.w.length))
    (hp2 : pt f1.w ((i + 1) % f1.w.length) = pt f2.w j)
    (hk1 : dot1 env (mergeNormal plane f1.planeside) f1.w f2.w i j < -env.CONTINUOUS_EPSILON)
    (hk2 : dot2 env (mergeNormal plane f1.planeside) f1.w f2.w i j < -env.CONTINUOUS_EPSILON)
    (hc1 : ConvexWithin env.normalize (mergeNormal plane f1.planeside) f1.w
      env.CONTINUOUS_EPSILON)
    (hc2 : ConvexWithin env.normalize (mergeNormal plane f1.planeside) f2.w
      env.CONTINUOUS_EPSILON) :
    ConvexWithin env.normalize (mergeNormal plane f1.planeside) f.w
      env.CONTINUOUS_EPSILON := by
  obtain ⟨i2, j2, plane2, _, hfe2, hpl2, _, _, _, hf⟩ := TryMerge_eq_some env f1 f2 f hm
  rw [hfe] at hfe2
  rw [hpl] at hpl2
  simp only [Option.some.injEq, Prod.mk.injEq] at hfe2 hpl2
  obtain ⟨rfl, rfl⟩ := hfe2
  subst hpl2
  obtain ⟨hi, hj, _, _⟩ := (findEdge_eq_some _ _ _ _ _).1 hfe
  rw [hf]
  simp only [hk1, hk2, decide_True]
  rw [mergedWinding_keep_both f1.w f2.w i j hi hj]
  apply joined_convex env.normalize hnorm _ f1.w f2.w i j _ hc h1 h2 hi hj hp1 hp2 hc1 hc2
  · have h := hk1
    unfold dot1 at h
    simp only [] at h
    linarith
  · have h := hk2
    unfold dot2 at h
    simp only [] at h
    linarith

theorem convex_faceT : Convex ⟨0, 0, 1⟩ faceT.w := by
  intro t ht
  simp only [faceT, List.length_cons, List.length_nil] at ht
  interval_cases t <;>
    norm_num [faceT, pt, VectorSubtract, CrossProduct, DotProduct]

theorem findEdge_faceA_faceT : findEdge (1 / 1000) faceA.w faceT.w = some (1, 0) := by
  simp [findEdge, findJ, edgeMatches, coordBreaks, faceA, faceT, pt, List.range_succ,
    List.findSome?, List.find?, Vec3.comp]
  norm_num [abs_div]

theorem TryMerge_faceA_faceT : TryMerge envQ faceA faceT = .ok (some faceAT) := by
  unfold TryMerge
  simp only [show envQ.EQUAL_EPSILON = 1 / 1000 from rfl, findEdge_faceA_faceT]
  simp [envQ, faceA, faceT, faceAT, planeAt, planeZ0, mergeNormal, dot1, dot2, pt,
    VectorSubtract, CrossProduct, DotProduct, normalizeQ_unit, NewFaceFromFace,
    UpdateFaceSphere, mergedWinding, copyLoop]
  norm_num

/-- Witness of C9 (amended): the square `faceA` and the triangle `faceT` merge into a convex
pentagon, both vertices of the common edge kept. -/
theorem TryMerge_convex_when_kept_witness :
    TryMerge envQ faceA faceT = .ok (some faceAT)
    ∧ ConvexWithin envQ.normalize (mergeNormal planeZ0 faceA.planeside) faceAT.w
        envQ.CONTINUOUS_EPSILON :=
  ⟨TryMerge_faceA_faceT,
   TryMerge_convex_when_kept envQ faceA faceT faceAT 1 0 planeZ0 normalizeQ_scales
    (by norm_num [envQ]) (by decide) (by decide) TryMerge_faceA_faceT findEdge_faceA_faceT
    (by decide) (by simp [faceA, faceT, pt]) (by simp [faceA, faceT, pt])
    (by
      simp [dot1, envQ, faceA, faceT, mergeNormal, planeZ0, pt, VectorSubtract, CrossProduct,
        DotProduct, normalizeQ_unit]
      norm_num)
    (by
      simp [dot2, envQ, faceA, faceT, mergeNormal, planeZ0, pt, VectorSubtract, CrossProduct,
        DotProduct, normalizeQ_unit]
      norm_num)
    (convexWithin_of_convex _ normalizeQ_scales _ _ _ (by norm_num [envQ])
      (by
        rw [show mergeNormal planeZ0 faceA.planeside = ⟨0, 0, 1⟩ by
          simp [mergeNormal, faceA, planeZ0]]
        exact convex_faceA))
    (convexWithin_of_convex _ normalizeQ_scales _ _ _ (by norm_num [envQ])
      (by
        rw [show mergeNormal planeZ0 faceA.planeside = ⟨0, 0, 1⟩ by
          simp [mergeNormal, faceA, planeZ0]]
        exact convex_faceT))⟩

/-! ## MergeFaceList on a list without mergeable pairs -/

theorem mergeLoop_all_skip (env : MergeEnv) (face : Face) (rest : List Face) :
    ∀ done, (∀ g ∈ rest, TryMerge env face g = .ok none) →
      mergeLoop env face done rest = .ok (done ++ rest ++ [face]) := by
  induction rest with
  | nil =>
    intro done _
    rw [mergeLoop_nil, List.append_nil]
  | cons g rest1 ih =>
    intro done h
    rw [mergeLoop_skip env face g done rest1 (h g (List.mem_cons_self _ _)),
      ih (done ++ [g]) (fun x hx => h x (List.mem_cons_of_mem _ hx))]
    simp

theorem MergeFaceList_foldl_id (env : MergeEnv) (rest : List Face) :
    ∀ acc, (∀ f ∈ rest, ∀ g ∈ acc, TryMerge env f g = .ok none) →
      rest.Pairwise (fun g f => TryMerge env f g = .ok none) →
      List.foldlM (fun result face => MergeFaceToList env face result) acc rest
        = .ok (acc ++ rest) := by
  induction rest with
  | nil =>
    intro acc _ _
    simp [List.foldlM, pure, Except.pure]
  | cons f rest1 ih =>
    intro acc h hp
    rw [List.pairwise_cons] at hp
    rw [List.foldlM_cons]
    have h1 : MergeFaceToList env f acc = .ok (acc ++ [f]) := by
      unfold MergeFaceToList
      rw [mergeLoop_all_skip env f acc [] (h f (List.mem_cons_self _ _))]
      simp
    rw [h1]
    show List.foldlM _ (acc ++ [f]) rest1 = _
    rw [ih (acc ++ [f]) ?_ hp.2]
    · simp
    · intro x hx g hg
      rcases List.mem_append.1 hg with hg | hg
      · exact h x (List.mem_cons_of_mem _ hx) g hg
      · rw [List.mem_singleton.1 hg]
        exact hp.1 x hx

/-- C11: if `TryMerge` returns none for every pair of faces at two different positions of the
list, `MergeFaceList` returns the identical list: the same faces, unchanged, in the same
order. -/
theorem MergeFaceList_no_mergeable_pairs (env : MergeEnv) (L : List Face)
    (h : ∀ i j (hi : i < L.length) (hj : j < L.length), i ≠ j →
      TryMerge env (L.get ⟨i, hi⟩) (L.get ⟨j, hj⟩) = .ok none) :
    MergeFaceList env L = .ok L := by
  unfold MergeFaceList
  rw [MergeFaceList_foldl_id env L [] (fun _ _ g hg => absurd hg (List.not_mem_nil g))]
  · simp
  · rw [List.pairwise_iff_get]
    intro i j hij
    exact h j.1 i.1 j.2 i.2 (fun e => by
      have : i.1 < j.1 := hij
      omega)

theorem no_merge_faceA_faceBtex :
    ∀ i j (hi : i < [faceA, faceBtex].length) (hj : j < [faceA, faceBtex].length), i ≠ j →
      TryMerge envQ ([faceA, faceBtex].get ⟨i, hi⟩) ([faceA, faceBtex].get ⟨j, hj⟩)
        = .ok none := by
  intro i j hi hj hij
  have hi2 : i < 2 := hi
  have hj2 : j < 2 := hj
  have hc : (i = 0 ∧ j = 1) ∨ (i = 1 ∧ j = 0) := by omega
  rcases hc with ⟨rfl, rfl⟩ | ⟨rfl, rfl⟩
  · exact TryMerge_of_texinfo_ne envQ faceA faceBtex (by decide)
  · exact TryMerge_of_texinfo_ne envQ faceBtex faceA (by decide)

/-- Witness of C11: the two adjacent squares with differing material references. -/
theorem MergeFaceList_no_mergeable_pairs_witness :
    (∀ i j (hi : i < [faceA, faceBtex].length) (hj : j < [faceA, faceBtex].length), i ≠ j →
      TryMerge envQ ([faceA, faceBtex].get ⟨i, hi⟩) ([faceA, faceBtex].get ⟨j, hj⟩)
        = .ok none)
    ∧ MergeFaceList envQ [faceA, faceBtex] = .ok [faceA, faceBtex] :=
  ⟨no_merge_faceA_faceBtex,
   MergeFaceList_no_mergeable_pairs envQ [faceA, faceBtex] no_merge_faceA_faceBtex⟩

/-! ## Point counts of the built windings -/

theorem clipStep_length_le (split : Plane) (w : Winding) (sides : List Side) (dists : List ℚ)
    (i : Nat) :
    (clipStep split w sides dists i).length ≤
      1 + (if sides.getD i SIDE_ON = SIDE_FRONT ∧ sides.getD (i + 1) SIDE_ON ≠ SIDE_FRONT
            then 1 else 0)
        + (if sides.getD i SIDE_ON = SIDE_BACK ∧ sides.getD (i + 1) SIDE_ON ≠ SIDE_BACK
            then 1 else 0) := by
  unfold clipStep
  rcases hs : sides.getD i SIDE_ON <;> rcases hs1 : sides.getD (i + 1) SIDE_ON <;> simp

theorem divideStepBack_length_le (split : Plane) (w : Winding) (sides : List Side)
    (dists : List ℚ) (i : Nat) :
    (divideStepBack split w sides dists i).length ≤
      1 + (if sides.getD i SIDE_ON = SIDE_FRONT ∧ sides.getD (i + 1) SIDE_ON ≠ SIDE_FRONT
            then 1 else 0)
        + (if sides.getD i SIDE_ON = SIDE_BACK ∧ sides.getD (i + 1) SIDE_ON ≠ SIDE_BACK
            then 1 else 0) := by
  unfold divideStepBack
  rcases hs : sides.getD i SIDE_ON <;> rcases hs1 : sides.getD (i + 1) SIDE_ON <;> simp

theorem flatMap_length_le (f : Nat → List Vec3) (p q : Nat → Bool) (l : List Nat)
    (h : ∀ i ∈ l, (f i).length ≤ 1 + (if p i = true then 1 else 0)
      + (if q i = true then 1 else 0)) :
    (l.flatMap f).length ≤ l.length + l.countP p + l.countP q := by
  induction l with
  | nil => simp
  | cons a l ih =>
    have ha := h a (List.mem_cons_self _ _)
    have hl := ih (fun i hi => h i (List.mem_cons_of_mem _ hi))
    rw [List.flatMap_cons, List.length_append, List.countP_cons, List.countP_cons,
      List.length_cons]
    omega

theorem flatMap_length_le_two (f : Nat → List Vec3) (l : List Nat)
    (h : ∀ i ∈ l, (f i).length ≤ 2) : (l.flatMap f).length ≤ 2 * l.length := by
  induction l with
  | nil => simp
  | cons a l ih =>
    have ha := h a (List.mem_cons_self _ _)
    have hl := ih (fun i hi => h i (List.mem_cons_of_mem _ hi))
    rw [List.flatMap_cons, List.length_append, List.length_cons]
    omega

theorem clipBuild_length_le_two (ε : ℚ) (split : Plane) (w : Winding) :
    (clipBuild ε split w).length ≤ 2 * w.length := by
  have hstep : ∀ i ∈ List.range w.length,
      (clipStep split w (sidesOf ε split w) (distsOf split w) i).length ≤ 2 := by
    intro i _
    unfold clipStep
    rcases hs : (sidesOf ε split w).getD i SIDE_ON <;>
      rcases hs1 : (sidesOf ε split w).getD (i + 1) SIDE_ON <;> simp
  have h := flatMap_length_le_two _ _ hstep
  rw [List.length_range] at h
  exact h

theorem divideBuildBack_length_le_two (ε : ℚ) (split : Plane) (w : Winding) :
    (divideBuildBack ε split w).length ≤ 2 * w.length := by
  have hstep : ∀ i ∈ List.range w.length,
      (divideStepBack split w (sidesOf ε split w) (distsOf split w) i).length ≤ 2 := by
    intro i _
    unfold divideStepBack
    rcases hs : (sidesOf ε split w).getD i SIDE_ON <;>
      rcases hs1 : (sidesOf ε split w).getD (i + 1) SIDE_ON <;> simp
  have h := flatMap_length_le_two _ _ hstep
  rw [List.length_range] at h
  exact h

theorem ClipWinding_ok_of_length (ε : ℚ) (w : Winding) (split : Plane) (keepon : Bool)
    (h : (clipBuild ε split w).length ≤ w.length + 4) :
    ∃ r, ClipWinding ε w split keepon = .ok r := by
  unfold ClipWinding
  simp only []
  split_ifs
  · exact ⟨_, rfl⟩
  · exact ⟨_, rfl⟩
  · exact ⟨_, rfl⟩
  · exfalso; omega
  · exact ⟨_, rfl⟩

theorem DivideWinding_ok_of_length (ε : ℚ) (w : Winding) (split : Plane)
    (hf : (divideBuildFront ε split w).length ≤ w.length + 4)
    (hb : (divideBuildBack ε split w).length ≤ w.length + 4) :
    ∃ r, DivideWinding ε w split = .ok r := by
  unfold DivideWinding
  simp only []
  split_ifs with h1 h2 h3
  · exact ⟨_, rfl⟩
  · exact ⟨_, rfl⟩
  · exfalso; omega
  · exact ⟨_, rfl⟩

theorem ClipWinding_segmentX :
    ClipWinding (1 / 10) segmentX planeXHalf false = .ok (some [⟨1 / 2, 0, 0⟩, ⟨1, 0, 0⟩, ⟨1 / 2, 0, 0⟩]) := by
  simp [ClipWinding, counts, clipBuild, clipStep, sidesOf, distsOf, segmentX, planeXHalf,
    sideOf, planeDist, DotProduct, splitPoint, midCoord, pt, List.range, List.range.loop,
    List.flatMap]
  norm_num
  simp +decide

theorem DivideWinding_segmentX :
    DivideWinding (1 / 10) segmentX planeXHalf
      = .ok (some [⟨1 / 2, 0, 0⟩, ⟨1, 0, 0⟩, ⟨1 / 2, 0, 0⟩],
          some [⟨0, 0, 0⟩, ⟨1 / 2, 0, 0⟩, ⟨1 / 2, 0, 0⟩]) := by
  simp [DivideWinding, counts, divideBuildFront, divideBuildBack, divideStepFront,
    divideStepBack, sidesOf, distsOf, segmentX, planeXHalf,
    sideOf, planeDist, DotProduct, splitPoint, midCoord, pt, List.range, List.range.loop,
    List.flatMap]
  norm_num
  simp +decide

theorem clipBuild_length_le_runs (ε : ℚ) (split : Plane) (w : Winding) :
    (clipBuild ε split w).length
      ≤ w.length + runEnds ε split w SIDE_FRONT + runEnds ε split w SIDE_BACK := by
  have hstep : ∀ i ∈ List.range w.length,
      (clipStep split w (sidesOf ε split w) (distsOf split w) i).length ≤
        1 + (if (fun i => decide (sideAt ε split w i = SIDE_FRONT
                ∧ sideAt ε split w (i + 1) ≠ SIDE_FRONT)) i = true then 1 else 0)
          + (if (fun i => decide (sideAt ε split w i = SIDE_BACK
                ∧ sideAt ε split w (i + 1) ≠ SIDE_BACK)) i = true then 1 else 0) := by
    intro i hi
    have hi1 : i < w.length := List.mem_range.1 hi
    have h0 := sidesOf_getD ε split w i (by omega) (by omega)
    have h1 := sidesOf_getD ε split w (i + 1) (by omega) (by omega)
    have h := clipStep_length_le split w (sidesOf ε split w) (distsOf split w) i
    rw [h0, h1] at h
    simpa [sideAt] using h
  have h := flatMap_length_le _ _ _ _ hstep
  rw [List.length_range] at h
  exact h

theorem divideBuildBack_length_le_runs (ε : ℚ) (split : Plane) (w : Winding) :
    (divideBuildBack ε split w).length
      ≤ w.length + runEnds ε split w SIDE_FRONT + runEnds ε split w SIDE_BACK := by
  have hstep : ∀ i ∈ List.range w.length,
      (divideStepBack split w (sidesOf ε split w) (distsOf split w) i).length ≤
        1 + (if (fun i => decide (sideAt ε split w i = SIDE_FRONT
                ∧ sideAt ε split w (i + 1) ≠ SIDE_FRONT)) i = true then 1 else 0)
          + (if (fun i => decide (sideAt ε split w i = SIDE_BACK
                ∧ sideAt ε split w (i + 1) ≠ SIDE_BACK)) i = true then 1 else 0) := by
    intro i hi
    have hi1 : i < w.length := List.mem_range.1 hi
    have h0 := sidesOf_getD ε split w i (by omega) (by omega)
    have h1 := sidesOf_getD ε split w (i + 1) (by omega) (by omega)
    have h := divideStepBack_length_le split w (sidesOf ε split w) (distsOf split w) i
    rw [h0, h1] at h
    simpa [sideAt] using h
  have h := flatMap_length_le _ _ _ _ hstep
  rw [List.length_range] at h
  exact h

theorem ClipWinding_some_cases (ε : ℚ) (w : Winding) (split : Plane) (keepon : Bool)
    (r : Winding) (h : ClipWinding ε w split keepon = .ok (some r)) :
    r = w ∨ r = clipBuild ε split w := by
  unfold ClipWinding at h
  simp only [] at h
  split_ifs at h
  · left; simpa using h.symm
  · simp at h
  · left; simpa using h.symm
  · right; simpa using h.symm

theorem DivideWinding_cases (ε : ℚ) (w : Winding) (split : Plane)
    (f b : Option Winding) (h : DivideWinding ε w split = .ok (f, b)) :
    (∀ r, f = some r → r = w ∨ r = divideBuildFront ε split w)
    ∧ (∀ r, b = some r → r = w ∨ r = divideBuildBack ε split w) := by
  unfold DivideWinding at h
  simp only [] at h
  split_ifs at h
  · simp only [Except.ok.injEq, Prod.mk.injEq] at h
    obtain ⟨rfl, rfl⟩ := h
    exact ⟨fun r hr => by simp at hr, fun r hr => Or.inl (by simpa using hr.symm)⟩
  · simp only [Except.ok.injEq, Prod.mk.injEq] at h
    obtain ⟨rfl, rfl⟩ := h
    exact ⟨fun r hr => Or.inl (by simpa using hr.symm), fun r hr => by simp at hr⟩
  · simp only [Except.ok.injEq, Prod.mk.injEq] at h
    obtain ⟨rfl, rfl⟩ := h
    exact ⟨fun r hr => Or.inr (by simpa using hr.symm),
      fun r hr => Or.inr (by simpa using hr.symm)⟩

/-- C18: for every winding of n points whose Front vertices form one contiguous cyclic run and
whose Back vertices form one contiguous cyclic run (as for a convex winding, n >= 3 included),
and every plane, the winding built by `ClipWinding` has at most n + 2 points, `ClipWinding`
returns without the fatal point-count error and what it returns has at most n + 2 <= n + 4
points; the same holds for both outputs of `DivideWinding`. -/
theorem ClipWinding_point_count (ε : ℚ) (w : Winding) (split : Plane) (keepon : Bool)
    (hF : OneRun ε split w SIDE_FRONT) (hB : OneRun ε split w SIDE_BACK) :
    (clipBuild ε split w).length ≤ w.length + 2
    ∧ (∃ r, ClipWinding ε w split keepon = .ok r)
    ∧ (∀ r, ClipWinding ε w split keepon = .ok (some r) → r.length ≤ w.length + 2)
    ∧ (divideBuildFront ε split w).length ≤ w.length + 2
    ∧ (divideBuildBack ε split w).length ≤ w.length + 2
    ∧ (∃ r, DivideWinding ε w split = .ok r)
    ∧ (∀ f b, DivideWinding ε w split = .ok (f, b) →
        (∀ r, f = some r → r.length ≤ w.length + 2)
        ∧ (∀ r, b = some r → r.length ≤ w.length + 2)) := by
  have hc : (clipBuild ε split w).length ≤ w.length + 2 := by
    have := clipBuild_length_le_runs ε split w
    unfold OneRun at hF hB
    omega
  have hb : (divideBuildBack ε split w).length ≤ w.length + 2 := by
    have := divideBuildBack_length_le_runs ε split w
    unfold OneRun at hF hB
    omega
  have hf : (divideBuildFront ε split w).length ≤ w.length + 2 := hc
  refine ⟨hc, ClipWinding_ok_of_length ε w split keepon (by omega), ?_, hf, hb,
    DivideWinding_ok_of_length ε w split (by omega) (by omega), ?_⟩
  · intro r hr
    rcases ClipWinding_some_cases ε w split keepon r hr with rfl | rfl
    · omega
    · exact hc
  · intro f b hfb
    obtain ⟨h1, h2⟩ := DivideWinding_cases ε w split f b hfb
    constructor
    · intro r hr
      rcases h1 r hr with rfl | rfl
      · omega
      · exact hf
    · intro r hr
      rcases h2 r hr with rfl | rfl
      · omega
      · exact hb

theorem oneRun_squareZ0_front : OneRun (1 / 10) planeXHalf squareZ0 SIDE_FRONT := by
  simp [OneRun, runEnds, sideAt, squareZ0, planeXHalf, sideOf, planeDist, DotProduct, pt,
    List.range, List.range.loop, List.countP, List.countP.go]
  norm_num
  decide

theorem oneRun_squareZ0_back : OneRun (1 / 10) planeXHalf squareZ0 SIDE_BACK := by
  simp [OneRun, runEnds, sideAt, squareZ0, planeXHalf, sideOf, planeDist, DotProduct, pt,
    List.range, List.range.loop, List.countP, List.countP.go]
  norm_num
  decide

/-- Witness of C18: the unit square cut by the plane `x = 1/2`. -/
theorem ClipWinding_point_count_witness :
    OneRun (1 / 10) planeXHalf squareZ0 SIDE_FRONT ∧ OneRun (1 / 10) planeXHalf squareZ0 SIDE_BACK
    ∧ (clipBuild (1 / 10) planeXHalf squareZ0).length ≤ squareZ0.length + 2
    ∧ (∃ r, ClipWinding (1 / 10) squareZ0 planeXHalf false = .ok r)
    ∧ (∀ r, ClipWinding (1 / 10) squareZ0 planeXHalf false = .ok (some r) →
        r.length ≤ squareZ0.length + 2)
    ∧ (divideBuildFront (1 / 10) planeXHalf squareZ0).length ≤ squareZ0.length + 2
    ∧ (divideBuildBack (1 / 10) planeXHalf squareZ0).length ≤ squareZ0.length + 2
    ∧ (∃ r, DivideWinding (1 / 10) squareZ0 planeXHalf = .ok r)
    ∧ (∀ f b, DivideWinding (1 / 10) squareZ0 planeXHalf = .ok (f, b) →
        (∀ r, f = some r → r.length ≤ squareZ0.length + 2)
        ∧ (∀ r, b = some r → r.length ≤ squareZ0.length + 2)) :=
  ⟨oneRun_squareZ0_front, oneRun_squareZ0_back,
   ClipWinding_point_count (1 / 10) squareZ0 planeXHalf false
     oneRun_squareZ0_front oneRun_squareZ0_back⟩

/-! ## Windings with fewer than three points -/

/-- Counterexample of C19: the two-point winding `segmentX` cut by the plane `x = 1/2`:
`ClipWinding` and `DivideWinding` return windings and signal no error. -/
theorem ClipWinding_short_winding_returns :
    segmentX.length = 2
    ∧ ClipWinding (1 / 10) segmentX planeXHalf false
        = .ok (some [⟨1 / 2, 0, 0⟩, ⟨1, 0, 0⟩, ⟨1 / 2, 0, 0⟩])
    ∧ DivideWinding (1 / 10) segmentX planeXHalf
        = .ok (some [⟨1 / 2, 0, 0⟩, ⟨1, 0, 0⟩, ⟨1 / 2, 0, 0⟩],
            some [⟨0, 0, 0⟩, ⟨1 / 2, 0, 0⟩, ⟨1 / 2, 0, 0⟩]) :=
  ⟨rfl, ClipWinding_segmentX, DivideWinding_segmentX⟩

/-- C19 (amended): for every winding with fewer than 3 points (0, 1 or 2 points) and every
plane, `ClipWinding` and `DivideWinding` signal no error: each returns a result (a winding
or an empty result). -/
theorem ClipWinding_short_winding_no_error (ε : ℚ) (w : Winding) (split : Plane)
    (keepon : Bool) (h : w.length < 3) :
    (∃ r, ClipWinding ε w split keepon = .ok r) ∧ (∃ r, DivideWinding ε w split = .ok r) := by
  have hc := clipBuild_length_le_two ε split w
  have hb := divideBuildBack_length_le_two ε split w
  have hf : (divideBuildFront ε split w).length ≤ 2 * w.length := hc
  exact ⟨ClipWinding_ok_of_length ε w split keepon (by omega),
    DivideWinding_ok_of_length ε w split (by omega) (by omega)⟩

/-- Witness of C19 (amended): the two-point winding `segmentX`. -/
theorem ClipWinding_short_winding_no_error_witness :
    segmentX.length < 3
    ∧ (∃ r, ClipWinding (1 / 10) segmentX planeXHalf false = .ok r)
    ∧ (∃ r, DivideWinding (1 / 10) segmentX planeXHalf = .ok r) :=
  ⟨by decide, ClipWinding_short_winding_no_error (1 / 10) segmentX planeXHalf false (by decide)⟩

/-! ## BaseWindingForPlane -/

theorem majorAxis_eq (B : ℚ) (hB : 0 < B) (n : Vec3) :
    majorAxis B n =
      if |n.z| > max |n.x| |n.y| then 2 else if |n.y| > |n.x| then 1 else 0 := by
  have h0 : |n.x| > -B := by
    have := abs_nonneg n.x
    linarith
  have hr : List.range 3 = [0, 1, 2] := rfl
  unfold majorAxis
  rw [hr]
  simp only [List.foldl, axisStep, Vec3.comp, if_pos h0]
  by_cases h1 : |n.y| > |n.x|
  · rw [if_pos h1]
    have hm : max |n.x| |n.y| = |n.y| := max_eq_right (le_of_lt h1)
    rw [hm]
    by_cases h2 : |n.z| > |n.y|
    · simp [h2]
    · have h1b : |n.x| < |n.y| := h1
      simp [h2, h1b]
  · rw [if_neg h1]
    have hm : max |n.x| |n.y| = |n.x| := max_eq_left (not_lt.1 h1)
    rw [hm]
    by_cases h2 : |n.z| > |n.x|
    · simp [h2]
    · have h1b : ¬ |n.x| < |n.y| := h1
      simp [h2, h1b]

theorem majorAxis_cases (B : ℚ) (hB : 0 < B) (n : Vec3) :
    majorAxis B n = 0 ∨ majorAxis B n = 1 ∨ majorAxis B n = 2 := by
  rw [majorAxis_eq B hB n]
  split_ifs <;> simp

theorem BaseWindingForPlane_cases (B : ℚ) (hB : 0 < B) (N : Vec3 → Vec3) (p : Plane) :
    BaseWindingForPlane B N p = .ok (baseWindingPoints N p ⟨0, 0, 1⟩)
    ∨ BaseWindingForPlane B N p = .ok (baseWindingPoints N p ⟨1, 0, 0⟩) := by
  unfold BaseWindingForPlane
  simp only []
  rcases majorAxis_cases B hB p.normal with h | h | h
  · left; rw [if_pos (Or.inl h)]
  · left; rw [if_pos (Or.inr h)]
  · right; rw [if_neg (by rw [h]; decide), if_pos h]

theorem baseWindingPoints_length (N : Vec3 → Vec3) (p : Plane) (vup0 : Vec3) :
    (baseWindingPoints N p vup0).length = 4 := rfl

theorem MidpointWinding_baseWindingPoints (N : Vec3 → Vec3) (p : Plane) (vup0 : Vec3) :
    MidpointWinding (baseWindingPoints N p vup0) = VectorScale p.normal p.dist := by
  simp only [MidpointWinding, baseWindingPoints, List.foldl, List.length_cons, List.length_nil,
    VectorAdd, VectorSubtract, VectorScale, vec3_origin]
  norm_num
  refine ⟨?_, ?_, ?_⟩ <;> ring

/-- C16: for every plane (normal, dist), whatever `VectorNormalize` returns and for every
positive `BOGUS_RANGE`, `BaseWindingForPlane` returns a winding of exactly 4 points whose
arithmetic mean, as computed by `MidpointWinding`, equals normal * dist; for normal (0,0,1)
and dist 0 the centroid is (0,0,0). -/
theorem BaseWindingForPlane_centered (B : ℚ) (N : Vec3 → Vec3) (p : Plane) (hB : 0 < B) :
    (∃ w, BaseWindingForPlane B N p = .ok w ∧ w.length = 4
      ∧ MidpointWinding w = VectorScale p.normal p.dist)
    ∧ (∃ w, BaseWindingForPlane B N ⟨⟨0, 0, 1⟩, 0⟩ = .ok w ∧ w.length = 4
      ∧ MidpointWinding w = ⟨0, 0, 0⟩) := by
  have key : ∀ q : Plane, ∃ w, BaseWindingForPlane B N q = .ok w ∧ w.length = 4
      ∧ MidpointWinding w = VectorScale q.normal q.dist := by
    intro q
    rcases BaseWindingForPlane_cases B hB N q with h | h
    · exact ⟨_, h, rfl, MidpointWinding_baseWindingPoints N q _⟩
    · exact ⟨_, h, rfl, MidpointWinding_baseWindingPoints N q _⟩
  refine ⟨key p, ?_⟩
  obtain ⟨w, h1, h2, h3⟩ := key ⟨⟨0, 0, 1⟩, 0⟩
  refine ⟨w, h1, h2, ?_⟩
  rw [h3]
  simp [VectorScale]

/-- Witness of C16: the plane `x = 1/2` with `BOGUS_RANGE = 18000`. -/
theorem BaseWindingForPlane_centered_witness :
    (0 : ℚ) < 18000
    ∧ (∃ w, BaseWindingForPlane 18000 normalizeQ planeXHalf = .ok w ∧ w.length = 4
      ∧ MidpointWinding w = VectorScale planeXHalf.normal planeXHalf.dist)
    ∧ (∃ w, BaseWindingForPlane 18000 normalizeQ ⟨⟨0, 0, 1⟩, 0⟩ = .ok w ∧ w.length = 4
      ∧ MidpointWinding w = ⟨0, 0, 0⟩) :=
  ⟨by norm_num, BaseWindingForPlane_centered 18000 normalizeQ planeXHalf (by norm_num)⟩

theorem BaseWindingForPlane_axisX (B : ℚ) (N : Vec3 → Vec3) (hB : 0 < B) (hN : FixesUnit N)
    (s d : ℚ) (hs : s = 1 ∨ s = -1) :
    BaseWindingForPlane B N ⟨⟨s, 0, 0⟩, d⟩
      = .ok [⟨s * d, -(8192 * s), 8192⟩, ⟨s * d, 8192 * s, 8192⟩,
             ⟨s * d, 8192 * s, -8192⟩, ⟨s * d, -(8192 * s), -8192⟩] := by
  have hx : majorAxis B ⟨s, 0, 0⟩ = 0 := by
    rw [majorAxis_eq B hB]
    rcases hs with rfl | rfl <;> norm_num
  have hu : N ⟨0, 0, 1⟩ = ⟨0, 0, 1⟩ := hN _ (by norm_num [DotProduct])
  unfold BaseWindingForPlane
  simp only [hx]
  simp [baseWindingPoints, DotProduct, VectorMA, hu, VectorScale, CrossProduct, VectorAdd,
    VectorSubtract]
  ring_nf

theorem BaseWindingForPlane_axisY (B : ℚ) (N : Vec3 → Vec3) (hB : 0 < B) (hN : FixesUnit N)
    (s d : ℚ) (hs : s = 1 ∨ s = -1) :
    BaseWindingForPlane B N ⟨⟨0, s, 0⟩, d⟩
      = .ok [⟨8192 * s, s * d, 8192⟩, ⟨-(8192 * s), s * d, 8192⟩,
             ⟨-(8192 * s), s * d, -8192⟩, ⟨8192 * s, s * d, -8192⟩] := by
  have hx : majorAxis B ⟨0, s, 0⟩ = 1 := by
    rw [majorAxis_eq B hB]
    rcases hs with rfl | rfl <;> norm_num
  have hu : N ⟨0, 0, 1⟩ = ⟨0, 0, 1⟩ := hN _ (by norm_num [DotProduct])
  unfold BaseWindingForPlane
  simp only [hx]
  simp [baseWindingPoints, DotProduct, VectorMA, hu, VectorScale, CrossProduct, VectorAdd,
    VectorSubtract]
  ring_nf

theorem BaseWindingForPlane_axisZ (B : ℚ) (N : Vec3 → Vec3) (hB : 0 < B) (hN : FixesUnit N)
    (s d : ℚ) (hs : s = 1 ∨ s = -1) :
    BaseWindingForPlane B N ⟨⟨0, 0, s⟩, d⟩
      = .ok [⟨8192, 8192 * s, s * d⟩, ⟨8192, -(8192 * s), s * d⟩,
             ⟨-8192, -(8192 * s), s * d⟩, ⟨-8192, 8192 * s, s * d⟩] := by
  have hx : majorAxis B ⟨0, 0, s⟩ = 2 := by
    rw [majorAxis_eq B hB]
    rcases hs with rfl | rfl <;> norm_num
  have hu : N ⟨1, 0, 0⟩ = ⟨1, 0, 0⟩ := hN _ (by norm_num [DotProduct])
  unfold BaseWindingForPlane
  simp only [hx]
  simp [baseWindingPoints, DotProduct, VectorMA, hu, VectorScale, CrossProduct, VectorAdd,
    VectorSubtract]
  ring_nf

theorem maxComp_four (a b c d : Vec3) (j : Nat) :
    maxComp [a, b, c, d] j
      = max (max (max (max (a.comp j) (a.comp j)) (b.comp j)) (c.comp j)) (d.comp j) := rfl

theorem minComp_four (a b c d : Vec3) (j : Nat) :
    minComp [a, b, c, d] j
      = min (min (min (min (a.comp j) (a.comp j)) (b.comp j)) (c.comp j)) (d.comp j) := rfl

theorem axisX_square (s d : ℚ) (hs : s = 1 ∨ s = -1) :
    IsSquare [⟨s * d, -(8192 * s), 8192⟩, ⟨s * d, 8192 * s, 8192⟩,
             ⟨s * d, 8192 * s, -8192⟩, ⟨s * d, -(8192 * s), -8192⟩] 16384 := by
  refine ⟨rfl, ?_⟩
  intro i hi
  rcases hs with rfl | rfl <;> interval_cases i <;>
      norm_num [edgeVec, pt, DotProduct, VectorSubtract]

theorem axisX_extent (s d : ℚ) (hs : s = 1 ∨ s = -1) :
    ∀ j, j < 3 → extent [⟨s * d, -(8192 * s), 8192⟩, ⟨s * d, 8192 * s, 8192⟩,
             ⟨s * d, 8192 * s, -8192⟩, ⟨s * d, -(8192 * s), -8192⟩] j
        = if (Vec3.mk s 0 0).comp j = 0 then 16384 else 0 := by
  intro j hj
  rw [extent, maxComp_four, minComp_four]
  rcases hs with rfl | rfl <;> interval_cases j <;> simp only [Vec3.comp] <;> norm_num

theorem axisY_square (s d : ℚ) (hs : s = 1 ∨ s = -1) :
    IsSquare [⟨8192 * s, s * d, 8192⟩, ⟨-(8192 * s), s * d, 8192⟩,
             ⟨-(8192 * s), s * d, -8192⟩, ⟨8192 * s, s * d, -8192⟩] 16384 := by
  refine ⟨rfl, ?_⟩
  intro i hi
  rcases hs with rfl | rfl <;> interval_cases i <;>
      norm_num [edgeVec, pt, DotProduct, VectorSubtract]

theorem axisY_extent (s d : ℚ) (hs : s = 1 ∨ s = -1) :
    ∀ j, j < 3 → extent [⟨8192 * s, s * d, 8192⟩, ⟨-(8192 * s), s * d, 8192⟩,
             ⟨-(8192 * s), s * d, -8192⟩, ⟨8192 * s, s * d, -8192⟩] j
        = if (Vec3.mk 0 s 0).comp j = 0 then 16384 else 0 := by
  intro j hj
  rw [extent, maxComp_four, minComp_four]
  rcases hs with rfl | rfl <;> interval_cases j <;> simp only [Vec3.comp] <;> norm_num

theorem axisZ_square (s d : ℚ) (hs : s = 1 ∨ s = -1) :
    IsSquare [⟨8192, 8192 * s, s * d⟩, ⟨8192, -(8192 * s), s * d⟩,
             ⟨-8192, -(8192 * s), s * d⟩, ⟨-8192, 8192 * s, s * d⟩] 16384 := by
  refine ⟨rfl, ?_⟩
  intro i hi
  rcases hs with rfl | rfl <;> interval_cases i <;>
      norm_num [edgeVec, pt, DotProduct, VectorSubtract]

theorem axisZ_extent (s d : ℚ) (hs : s = 1 ∨ s = -1) :
    ∀ j, j < 3 → extent [⟨8192, 8192 * s, s * d⟩, ⟨8192, -(8192 * s), s * d⟩,
             ⟨-8192, -(8192 * s), s * d⟩, ⟨-8192, 8192 * s, s * d⟩] j
        = if (Vec3.mk 0 0 s).comp j = 0 then 16384 else 0 := by
  intro j hj
  rw [extent, maxComp_four, minComp_four]
  rcases hs with rfl | rfl <;> interval_cases j <;> simp only [Vec3.comp] <;> norm_num

theorem BaseWindingForPlane_planeZ0 (B : ℚ) (N : Vec3 → Vec3) (hB : 0 < B)
    (hN : FixesUnit N) :
    BaseWindingForPlane B N ⟨⟨0, 0, 1⟩, 0⟩
      = .ok [⟨8192, 8192, 0⟩, ⟨8192, -8192, 0⟩, ⟨-8192, -8192, 0⟩, ⟨-8192, 8192, 0⟩] := by
  rw [BaseWindingForPlane_axisZ B N hB hN 1 0 (Or.inl rfl)]
  norm_num

theorem fixesUnit_normalizeQ : FixesUnit normalizeQ := fun v h => normalizeQ_unit v h

/-- C17: for every axis-aligned unit normal (plus or minus a coordinate axis) and every dist,
with a `VectorNormalize` that leaves unit vectors as they are and a positive `BOGUS_RANGE`,
the winding returned by `BaseWindingForPlane` is a square of side 16384 whose bounding extent
is 2 * 8192 = 16384 along each of the two in-plane axes (and 0 along the normal); for normal
(0,0,1), dist 0 its points are (8192,8192,0), (8192,-8192,0), (-8192,-8192,0),
(-8192,8192,0). -/
theorem BaseWindingForPlane_axis_square (B : ℚ) (N : Vec3 → Vec3) (n : Vec3) (dist : ℚ)
    (hB : 0 < B) (hN : FixesUnit N) (hn : n ∈ axisNormals) :
    (∃ w, BaseWindingForPlane B N ⟨n, dist⟩ = .ok w ∧ IsSquare w 16384
      ∧ ∀ j, j < 3 → extent w j = if n.comp j = 0 then 2 * 8192 else 0)
    ∧ BaseWindingForPlane B N ⟨⟨0, 0, 1⟩, 0⟩
      = .ok [⟨8192, 8192, 0⟩, ⟨8192, -8192, 0⟩, ⟨-8192, -8192, 0⟩, ⟨-8192, 8192, 0⟩] := by
  refine ⟨?_, BaseWindingForPlane_planeZ0 B N hB hN⟩
  have h2 : (2 : ℚ) * 8192 = 16384 := by norm_num
  rw [h2]
  simp only [axisNormals, List.mem_cons, List.mem_nil_iff, or_false] at hn
  rcases hn with rfl | rfl | rfl | rfl | rfl | rfl
  · exact ⟨_, BaseWindingForPlane_axisX B N hB hN 1 dist (Or.inl rfl),
      axisX_square 1 dist (Or.inl rfl), axisX_extent 1 dist (Or.inl rfl)⟩
  · exact ⟨_, BaseWindingForPlane_axisX B N hB hN (-1) dist (Or.inr rfl),
      axisX_square (-1) dist (Or.inr rfl), axisX_extent (-1) dist (Or.inr rfl)⟩
  · exact ⟨_, BaseWindingForPlane_axisY B N hB hN 1 dist (Or.inl rfl),
      axisY_square 1 dist (Or.inl rfl), axisY_extent 1 dist (Or.inl rfl)⟩
  · exact ⟨_, BaseWindingForPlane_axisY B N hB hN (-1) dist (Or.inr rfl),
      axisY_square (-1) dist (Or.inr rfl), axisY_extent (-1) dist (Or.inr rfl)⟩
  · exact ⟨_, BaseWindingForPlane_axisZ B N hB hN 1 dist (Or.inl rfl),
      axisZ_square 1 dist (Or.inl rfl), axisZ_extent 1 dist (Or.inl rfl)⟩
  · exact ⟨_, BaseWindingForPlane_axisZ B N hB hN (-1) dist (Or.inr rfl),
      axisZ_square (-1) dist (Or.inr rfl), axisZ_extent (-1) dist (Or.inr rfl)⟩

/-- Witness of C17: the normal `(0,-1,0)` at distance `5`, with `BOGUS_RANGE = 18000` and the
sample normalisation. -/
theorem BaseWindingForPlane_axis_square_witness :
    (0 : ℚ) < 18000 ∧ FixesUnit normalizeQ ∧ (⟨0, -1, 0⟩ : Vec3) ∈ axisNormals
    ∧ (∃ w, BaseWindingForPlane 18000 normalizeQ ⟨⟨0, -1, 0⟩, 5⟩ = .ok w ∧ IsSquare w 16384
      ∧ ∀ j, j < 3 → extent w j = if (⟨0, -1, 0⟩ : Vec3).comp j = 0 then 2 * 8192 else 0)
    ∧ BaseWindingForPlane 18000 normalizeQ ⟨⟨0, 0, 1⟩, 0⟩
      = .ok [⟨8192, 8192, 0⟩, ⟨8192, -8192, 0⟩, ⟨-8192, -8192, 0⟩, ⟨-8192, 8192, 0⟩] :=
  ⟨by norm_num, fixesUnit_normalizeQ, by simp [axisNormals],
   BaseWindingForPlane_axis_square 18000 normalizeQ ⟨0, -1, 0⟩ 5 (by norm_num)
     fixesUnit_normalizeQ (by simp [axisNormals])⟩

theorem BaseWindingForPlane_zero_normal (B : ℚ) (N : Vec3 → Vec3) (hB : 0 < B) (d : ℚ) :
    BaseWindingForPlane B N ⟨⟨0, 0, 0⟩, d⟩
      = .ok [VectorScale (N ⟨0, 0, 1⟩) 8192, VectorScale (N ⟨0, 0, 1⟩) 8192,
             VectorInverse (VectorScale (N ⟨0, 0, 1⟩) 8192),
             VectorInverse (VectorScale (N ⟨0, 0, 1⟩) 8192)] := by
  have hx : majorAxis B ⟨0, 0, 0⟩ = 0 := by
    rw [majorAxis_eq B hB]
    norm_num
  unfold BaseWindingForPlane
  simp only [hx]
  simp [baseWindingPoints, DotProduct, VectorMA, VectorScale, CrossProduct, VectorAdd,
    VectorSubtract, VectorInverse]

/-- C20: for every positive `BOGUS_RANGE`, `BaseWindingForPlane` never signals the fatal
no-winding-axis error: it returns a winding for every plane, and for the zero normal
(0,0,0) it takes the up-vector (0,0,1) of the axes 0 and 1 and returns the degenerate winding
u, u, -u, -u with u = 8192 * VectorNormalize (0,0,1). -/
theorem BaseWindingForPlane_never_signals (B : ℚ) (N : Vec3 → Vec3) (p : Plane) (d : ℚ)
    (hB : 0 < B) :
    (∃ w, BaseWindingForPlane B N p = .ok w)
    ∧ BaseWindingForPlane B N p ≠ .error Fatal.errNoWindingAxis
    ∧ BaseWindingForPlane B N ⟨⟨0, 0, 0⟩, d⟩
      = .ok [VectorScale (N ⟨0, 0, 1⟩) 8192, VectorScale (N ⟨0, 0, 1⟩) 8192,
             VectorInverse (VectorScale (N ⟨0, 0, 1⟩) 8192),
             VectorInverse (VectorScale (N ⟨0, 0, 1⟩) 8192)] := by
  refine ⟨?_, ?_, BaseWindingForPlane_zero_normal B N hB d⟩
  · rcases BaseWindingForPlane_cases B hB N p with h | h <;> exact ⟨_, h⟩
  · rcases BaseWindingForPlane_cases B hB N p with h | h <;> rw [h] <;> simp

theorem BaseWindingForPlane_zero_normal_sample :
    BaseWindingForPlane 18000 normalizeQ ⟨⟨0, 0, 0⟩, 0⟩
      = .ok [⟨0, 0, 8192⟩, ⟨0, 0, 8192⟩, ⟨0, 0, -8192⟩, ⟨0, 0, -8192⟩] := by
  rw [BaseWindingForPlane_zero_normal 18000 normalizeQ (by norm_num) 0,
    normalizeQ_unit ⟨0, 0, 1⟩ (by norm_num [DotProduct])]
  simp [VectorScale, VectorInverse]

/-- Witness of C20: the zero normal with `BOGUS_RANGE = 18000` and the sample normalisation;
the winding returned is (0,0,8192), (0,0,8192), (0,0,-8192), (0,0,-8192). -/
theorem BaseWindingForPlane_never_signals_witness :
    (0 : ℚ) < 18000
    ∧ BaseWindingForPlane 18000 normalizeQ ⟨⟨0, 0, 0⟩, 0⟩
      = .ok [⟨0, 0, 8192⟩, ⟨0, 0, 8192⟩, ⟨0, 0, -8192⟩, ⟨0, 0, -8192⟩]
    ∧ (∃ w, BaseWindingForPlane 18000 normalizeQ ⟨⟨0, 0, 0⟩, 0⟩ = .ok w)
    ∧ BaseWindingForPlane 18000 normalizeQ ⟨⟨0, 0, 0⟩, 0⟩ ≠ .error Fatal.errNoWindingAxis
    ∧ BaseWindingForPlane 18000 normalizeQ ⟨⟨0, 0, 0⟩, 0⟩
      = .ok [VectorScale (normalizeQ ⟨0, 0, 1⟩) 8192, VectorScale (normalizeQ ⟨0, 0, 1⟩) 8192,
             VectorInverse (VectorScale (normalizeQ ⟨0, 0, 1⟩) 8192),
             VectorInverse (VectorScale (normalizeQ ⟨0, 0, 1⟩) 8192)] :=
  ⟨by norm_num, BaseWindingForPlane_zero_normal_sample,
   BaseWindingForPlane_never_signals 18000 normalizeQ ⟨⟨0, 0, 0⟩, 0⟩ 0 (by norm_num)⟩

/-! ## Trees: references, face lists, shape -/

theorem wrapInt_range (x : Int) :
    -2147483648 ≤ wrapInt x ∧ wrapInt x < 2147483648 := by
  unfold wrapInt
  omega

theorem nodeTask_error (env : MergeEnv) (Sub : Face → List Face) (r : NodeRef)
    (s : MergeState) (e : Fatal) (hm : MergeFaceList env (facelistAt s.tree r) = .error e) :
    nodeTask env Sub r s = .error e := by
  unfold nodeTask
  simp only [hm]

theorem pathSum_append (c : Vec3 → Vec3 → ℚ) (X Y : List Vec3) :
    ∀ prev, pathSum c prev (X ++ Y)
      = pathSum c prev X + pathSum c ((X.getLast?).getD prev) Y := by
  induction X with
  | nil => intro prev; simp [pathSum]
  | cons x X ih =>
    intro prev
    rw [List.cons_append, pathSum, pathSum, ih x, add_assoc]
    congr 2
    cases X with
    | nil => rfl
    | cons y Y2 =>
      obtain ⟨z, hz⟩ : ∃ z, (y :: Y2).getLast? = some z :=
        ⟨_, List.getLast?_eq_getLast _ (List.cons_ne_nil _ _)⟩
      simp [List.getLast?_cons_cons, hz]

theorem cycSum_append_comm (c : Vec3 → Vec3 → ℚ) (X Y : List Vec3) :
    cycSum c (X ++ Y) = cycSum c (Y ++ X) := by
  rcases List.eq_nil_or_concat X with rfl | ⟨X1, x, rfl⟩
  · simp
  rcases List.eq_nil_or_concat Y with rfl | ⟨Y1, y, rfl⟩
  · simp
  simp only [List.concat_eq_append]
  unfold cycSum
  have h1 : ((X1 ++ [x]) ++ (Y1 ++ [y])).getLast? = some y := by
    rw [← List.append_assoc, List.getLast?_append]; rfl
  have h2 : ((Y1 ++ [y]) ++ (X1 ++ [x])).getLast? = some x := by
    rw [← List.append_assoc, List.getLast?_append]; rfl
  rw [h1, h2]
  simp only [pathSum_append c (X1 ++ [x]) (Y1 ++ [y]), pathSum_append c (Y1 ++ [y]) (X1 ++ [x]),
    List.getLast?_append, List.getLast?_singleton, Option.or_some, Option.getD_some]
  ring

theorem cycSum_eq_pathSum (c : Vec3 → Vec3 → ℚ) (L : List Vec3) (z : Vec3) :
    cycSum c (L ++ [z]) = pathSum c z (L ++ [z]) := by
  unfold cycSum
  rw [List.getLast?_append]
  rfl

theorem suffix_balance (c : Vec3 → Vec3 → ℚ) (σ : Nat → Side) (P M : Nat → Vec3) (m : Nat) :
    ∀ k pF pB pA pC,
      ((pF = pB ∧ pB = pA ∧ pA = pC) ∨ (pF = pA ∧ pB = pC ∧ σ k ≠ SIDE_BACK)
        ∨ (pB = pA ∧ pF = pC ∧ σ k ≠ SIDE_FRONT)) →
      pathSum c pF ((List.range' k m).flatMap (stepFront σ P M))
        + pathSum c pB ((List.range' k m).flatMap (stepBack σ P M))
      = pathSum c pA ((List.range' k m).flatMap (stepAll σ P M))
        + pathSum c pC ((List.range' k m).flatMap (stepPlane σ P M)) := by
  induction m with
  | zero =>
    intro k pF pB pA pC _
    simp [pathSum]
  | succ m ih =>
    intro k pF pB pA pC hmode
    rw [List.range'_succ]
    simp only [List.flatMap_cons]
    have hP := ih (k + 1) (P k) (P k) (P k) (P k) (Or.inl ⟨rfl, rfl, rfl⟩)
    have hM := ih (k + 1) (M k) (M k) (M k) (M k) (Or.inl ⟨rfl, rfl, rfl⟩)
    rcases hk : σ k <;> rcases hk1 : σ (k + 1)
    all_goals simp only [stepFront, stepBack, stepAll, stepPlane, hk, hk1, reduceCtorEq,
      if_false, if_true, or_false, false_or, or_self, or_true, true_or, List.nil_append,
      List.cons_append, List.append_nil, pathSum, ne_eq, not_true_eq_false, and_false,
      not_false_eq_true, and_true] at hmode ⊢
    · obtain ⟨rfl, rfl⟩ : pF = pA ∧ pB = pC := by
        rcases hmode with ⟨h1, h2, h3⟩ | h
        · exact ⟨h1.trans h2, h2.trans h3⟩
        · exact h
      have := ih (k + 1) (P k) pB (P k) pB (Or.inr (Or.inl ⟨rfl, rfl, by rw [hk1]; decide⟩))
      linarith
    · obtain ⟨rfl, rfl⟩ : pF = pA ∧ pB = pC := by
        rcases hmode with ⟨h1, h2, h3⟩ | h
        · exact ⟨h1.trans h2, h2.trans h3⟩
        · exact h
      linarith
    · obtain ⟨rfl, rfl⟩ : pF = pA ∧ pB = pC := by
        rcases hmode with ⟨h1, h2, h3⟩ | h
        · exact ⟨h1.trans h2, h2.trans h3⟩
        · exact h
      have := ih (k + 1) (P k) pB (P k) pB (Or.inr (Or.inl ⟨rfl, rfl, by rw [hk1]; decide⟩))
      linarith
    · obtain ⟨rfl, rfl⟩ : pB = pA ∧ pF = pC := by
        rcases hmode with ⟨h1, h2, h3⟩ | h
        · exact ⟨h2, h1.trans (h2.trans h3)⟩
        · exact h
      linarith
    · obtain ⟨rfl, rfl⟩ : pB = pA ∧ pF = pC := by
        rcases hmode with ⟨h1, h2, h3⟩ | h
        · exact ⟨h2, h1.trans (h2.trans h3)⟩
        · exact h
      have := ih (k + 1) pF (P k) (P k) pF (Or.inr (Or.inr ⟨rfl, rfl, by rw [hk1]; decide⟩))
      linarith
    · obtain ⟨rfl, rfl⟩ : pB = pA ∧ pF = pC := by
        rcases hmode with ⟨h1, h2, h3⟩ | h
        · exact ⟨h2, h1.trans (h2.trans h3)⟩
        · exact h
      have := ih (k + 1) pF (P k) (P k) pF (Or.inr (Or.inr ⟨rfl, rfl, by rw [hk1]; decide⟩))
      linarith
    all_goals
      rcases hmode with ⟨rfl, rfl, rfl⟩ | ⟨rfl, rfl⟩ | ⟨rfl, rfl⟩ <;> linarith

theorem cycSum_window (c : Vec3 → Vec3 → ℚ) (f : Nat → List Vec3) (n : Nat)
    (hper : ∀ i, f (i + n) = f i) (k : Nat) (hk : k ≤ n) :
    cycSum c ((List.range' k n).flatMap f) = cycSum c ((List.range' 0 n).flatMap f) := by
  have h1 : List.range' 0 n = List.range' 0 k ++ List.range' k (n - k) := by
    have := List.range'_append_1 0 k (n - k)
    rw [Nat.zero_add, Nat.sub_add_cancel hk] at this
    exact this.symm
  have h2 : List.range' k n = List.range' k (n - k) ++ List.range' n k := by
    have := List.range'_append_1 k (n - k) k
    rw [Nat.add_sub_cancel' hk] at this
    exact this.symm
  have h3 : (List.range' n k).flatMap f = (List.range' 0 k).flatMap f := by
    have := List.map_add_range' n 0 k 1
    rw [Nat.add_zero] at this
    rw [← this, List.flatMap_map]
    apply List.flatMap_congr
    intro x _
    rw [Nat.add_comm n x, hper]
  rw [h2, List.flatMap_append, h3, h1, List.flatMap_append, cycSum_append_comm]

theorem step_ends (σ : Nat → Side) (P M : Nat → Vec3) (i : Nat)
    (h : σ i = SIDE_ON ∨ ¬ (σ (i + 1) = SIDE_ON ∨ σ (i + 1) = σ i)) :
    ∃ p preF preB preA preC, stepFront σ P M i = preF ++ [p] ∧ stepBack σ P M i = preB ++ [p]
      ∧ stepAll σ P M i = preA ++ [p] ∧ stepPlane σ P M i = preC ++ [p] := by
  by_cases hon : σ i = SIDE_ON
  · exact ⟨P i, [], [], [], [], by simp [stepFront, hon], by simp [stepBack, hon],
      by simp [stepAll, hon], by simp [stepPlane, hon]⟩
  · have hs : ¬ (σ (i + 1) = SIDE_ON ∨ σ (i + 1) = σ i) := h.resolve_left hon
    refine ⟨M i, if σ i = SIDE_FRONT then [P i] else [], if σ i = SIDE_BACK then [P i] else [],
      [P i], [], ?_, ?_, ?_, ?_⟩
    · simp only [stepFront, if_neg hon, if_neg hs]
    · simp only [stepBack, if_neg hon, if_neg hs]
    · simp only [stepAll, if_neg hon, if_neg hs]
    · simp only [stepPlane, if_neg hon, if_neg hs, List.nil_append]

theorem cycSum_balance_window (c : Vec3 → Vec3 → ℚ) (σ : Nat → Side) (P M : Nat → Vec3)
    (k n : Nat)
    (h : σ (k + n) = SIDE_ON ∨ ¬ (σ (k + n + 1) = SIDE_ON ∨ σ (k + n + 1) = σ (k + n))) :
    cycSum c ((List.range' k (n + 1)).flatMap (stepFront σ P M))
      + cycSum c ((List.range' k (n + 1)).flatMap (stepBack σ P M))
    = cycSum c ((List.range' k (n + 1)).flatMap (stepAll σ P M))
      + cycSum c ((List.range' k (n + 1)).flatMap (stepPlane σ P M)) := by
  obtain ⟨p, preF, preB, preA, preC, hF, hB, hA, hC⟩ := step_ends σ P M (k + n) h
  have hb := suffix_balance c σ P M (n + 1) k p p p p (Or.inl ⟨rfl, rfl, rfl⟩)
  have key : ∀ (f : Nat → List Vec3) (pre : List Vec3), f (k + n) = pre ++ [p] →
      cycSum c ((List.range' k (n + 1)).flatMap f)
        = pathSum c p ((List.range' k (n + 1)).flatMap f) := by
    intro f pre hf
    rw [List.range'_1_concat, List.flatMap_append]
    simp only [List.flatMap_cons, List.flatMap_nil, List.append_nil, hf]
    rw [← List.append_assoc, cycSum_eq_pathSum]
  rw [key _ preF hF, key _ preB hB, key _ preA hA, key _ preC hC]
  exact hb

theorem pathSum_stepAll (c : Vec3 → Vec3 → ℚ) (σ : Nat → Side) (P M : Nat → Vec3)
    (hsplit : ∀ i, σ i ≠ SIDE_ON → ¬ (σ (i + 1) = SIDE_ON ∨ σ (i + 1) = σ i) →
      c (P i) (M i) + c (M i) (P (i + 1)) = c (P i) (P (i + 1))) (m : Nat) :
    ∀ k prev, pathSum c prev ((List.range' k m).flatMap (stepAll σ P M) ++ [P (k + m)])
      = pathSum c prev ((List.range' k (m + 1)).map P) := by
  induction m with
  | zero =>
    intro k prev
    simp [pathSum]
  | succ m ih =>
    intro k prev
    have hk : k + (m + 1) = k + 1 + m := by omega
    rw [List.range'_succ k (m + 1), List.range'_succ k m, List.map_cons, List.flatMap_cons,
      List.append_assoc, hk]
    by_cases hs : σ k ≠ SIDE_ON ∧ ¬ (σ (k + 1) = SIDE_ON ∨ σ (k + 1) = σ k)
    · have hA : stepAll σ P M k = [P k, M k] := by
        simp only [stepAll, if_neg hs.1, if_neg hs.2]
        rfl
      rw [hA]
      simp only [List.cons_append, List.append_eq, List.nil_append, pathSum]
      rw [ih (k + 1) (M k), List.range'_succ (k + 1) m, List.map_cons]
      simp only [pathSum]
      have := hsplit k hs.1 hs.2
      linarith
    · have hA : stepAll σ P M k = [P k] := by
        unfold stepAll
        by_cases hon : σ k = SIDE_ON
        · rw [if_pos hon]
        · have h2 : σ (k + 1) = SIDE_ON ∨ σ (k + 1) = σ k := by
            by_contra h2
            exact hs ⟨hon, h2⟩
          rw [if_neg hon, if_pos h2]
          rfl
      rw [hA]
      simp only [List.cons_append, List.append_eq, List.nil_append, pathSum]
      rw [ih (k + 1) (P k), List.range'_succ (k + 1) m, List.map_cons]
      simp only [pathSum]

theorem cycSum_cons (c : Vec3 → Vec3 → ℚ) (h x : Vec3) (t : List Vec3) :
    cycSum c (h :: t) = pathSum c x ((h :: t) ++ [h]) - c x h := by
  have h1 : cycSum c (h :: t) = cycSum c (t ++ [h]) := by
    have := cycSum_append_comm c [h] t
    simpa using this
  rw [h1, cycSum_eq_pathSum, List.cons_append, pathSum]
  ring

theorem stepAll_head (σ : Nat → Side) (P M : Nat → Vec3) (k : Nat) :
    ∃ t, stepAll σ P M k = P k :: t := by
  unfold stepAll
  split_ifs <;> exact ⟨_, rfl⟩

theorem cycSum_stepAll (c : Vec3 → Vec3 → ℚ) (σ : Nat → Side) (P M : Nat → Vec3)
    (hsplit : ∀ i, σ i ≠ SIDE_ON → ¬ (σ (i + 1) = SIDE_ON ∨ σ (i + 1) = σ i) →
      c (P i) (M i) + c (M i) (P (i + 1)) = c (P i) (P (i + 1))) (n : Nat)
    (hP : P n = P 0) :
    cycSum c ((List.range' 0 n).flatMap (stepAll σ P M))
      = cycSum c ((List.range' 0 n).map P) := by
  cases n with
  | zero => simp
  | succ n =>
    obtain ⟨t, ht⟩ := stepAll_head σ P M 0
    have hA : (List.range' 0 (n + 1)).flatMap (stepAll σ P M)
        = P 0 :: (t ++ (List.range' 1 n).flatMap (stepAll σ P M)) := by
      rw [List.range'_succ, List.flatMap_cons, ht]
      rfl
    have hW : (List.range' 0 (n + 1)).map P = P 0 :: (List.range' 1 n).map P := by
      rw [List.range'_succ, List.map_cons]
    have hlin := pathSum_stepAll c σ P M hsplit (n + 1) 0 (P 0)
    rw [Nat.zero_add, hP] at hlin
    rw [hA] at hlin ⊢
    rw [cycSum_cons c (P 0) (P 0), hlin, hW, cycSum_cons c (P 0) (P 0)]
    congr 1
    rw [List.range'_1_concat 0 (n + 1), List.map_append, ← hW]
    simp [hP]

/-! ## The windings of ClipWinding as sequences of steps -/

theorem winding_eq_map_vertexAt (w : Winding) :
    w = (List.range' 0 w.length).map (vertexAt w) := by
  apply List.ext_getElem
  · simp
  · intro i h1 h2
    simp only [List.getElem_map, List.getElem_range', vertexAt, pt, Nat.zero_add, Nat.one_mul,
      Nat.mod_eq_of_lt h1]
    rw [List.getD_eq_getElem _ _ h1]

theorem clipBuild_eq_stepFront (ε : ℚ) (split : Plane) (w : Winding) :
    clipBuild ε split w
      = (List.range' 0 w.length).flatMap
          (stepFront (sideAt ε split w) (vertexAt w) (splitAt split w)) := by
  unfold clipBuild
  rw [List.range_eq_range']
  apply List.flatMap_congr
  intro i hi
  have hi1 : i < w.length := by
    rw [List.mem_range'_1] at hi
    omega
  rw [clipStep_eq ε split w i hi1]
  simp only [stepFront, sideAt, vertexAt, splitAt, Nat.mod_eq_of_lt hi1]

theorem divideBuildBack_eq_stepBack (ε : ℚ) (split : Plane) (w : Winding) :
    divideBuildBack ε split w
      = (List.range' 0 w.length).flatMap
          (stepBack (sideAt ε split w) (vertexAt w) (splitAt split w)) := by
  unfold divideBuildBack
  rw [List.range_eq_range']
  apply List.flatMap_congr
  intro i hi
  have hi1 : i < w.length := by
    rw [List.mem_range'_1] at hi
    omega
  have hn : 0 < w.length := Nat.lt_of_le_of_lt (Nat.zero_le _) hi1
  unfold divideStepBack
  rw [sidesOf_getD ε split w i hn (Nat.le_of_lt hi1), sidesOf_getD ε split w (i + 1) hn hi1,
    distsOf_getD split w i hn (Nat.le_of_lt hi1), distsOf_getD split w (i + 1) hn hi1]
  simp only [stepBack, sideAt, vertexAt, splitAt, Nat.mod_eq_of_lt hi1]
  split_ifs <;> simp

theorem planeSeq_eq (ε : ℚ) (split : Plane) (w : Winding) :
    planeSeq ε split w
      = (List.range' 0 w.length).flatMap
          (stepPlane (sideAt ε split w) (vertexAt w) (splitAt split w)) := by
  unfold planeSeq
  rw [List.range_eq_range']

theorem sideAt_periodic (ε : ℚ) (split : Plane) (w : Winding) (i : Nat) :
    sideAt ε split w (i + w.length) = sideAt ε split w i := by
  unfold sideAt
  rw [Nat.add_mod_right]

theorem vertexAt_periodic (w : Winding) (i : Nat) :
    vertexAt w (i + w.length) = vertexAt w i := by
  unfold vertexAt
  rw [Nat.add_mod_right]

theorem splitAt_periodic (split : Plane) (w : Winding) (i : Nat) :
    splitAt split w (i + w.length) = splitAt split w i := by
  unfold splitAt
  rw [vertexAt_periodic, Nat.add_right_comm, vertexAt_periodic]

theorem steps_periodic (ε : ℚ) (split : Plane) (w : Winding) (i : Nat) :
    stepFront (sideAt ε split w) (vertexAt w) (splitAt split w) (i + w.length)
        = stepFront (sideAt ε split w) (vertexAt w) (splitAt split w) i
    ∧ stepBack (sideAt ε split w) (vertexAt w) (splitAt split w) (i + w.length)
        = stepBack (sideAt ε split w) (vertexAt w) (splitAt split w) i
    ∧ stepAll (sideAt ε split w) (vertexAt w) (splitAt split w) (i + w.length)
        = stepAll (sideAt ε split w) (vertexAt w) (splitAt split w) i
    ∧ stepPlane (sideAt ε split w) (vertexAt w) (splitAt split w) (i + w.length)
        = stepPlane (sideAt ε split w) (vertexAt w) (splitAt split w) i := by
  have h1 := sideAt_periodic ε split w i
  have h2 : sideAt ε split w (i + w.length + 1) = sideAt ε split w (i + 1) := by
    rw [Nat.add_right_comm, sideAt_periodic]
  have h3 := vertexAt_periodic w i
  have h4 := splitAt_periodic split w i
  simp only [stepFront, stepBack, stepAll, stepPlane, h1, h2, h3, h4, and_self]

/-! ## Split points and areas -/

theorem lerp_comp (a b c dist x1 y1 z1 x2 y2 z2 d1 d2 : ℚ) (hu : a * a + b * b + c * c = 1)
    (h1 : d1 = x1 * a + y1 * b + z1 * c - dist) (h2 : d2 = x2 * a + y2 * b + z2 * c - dist)
    (hne : d1 ≠ d2) :
    midCoord a dist x1 x2 (d1 / (d1 - d2)) = x1 + d1 / (d1 - d2) * (x2 - x1) := by
  by_cases ha : a = 1 ∨ a = -1
  · obtain ⟨hb, hc⟩ := unit_axis a b c hu ha
    subst hb hc
    have key := lerp_zero d1 d2 (sub_ne_zero.2 hne)
    rcases ha with rfl | rfl
    · have hm : midCoord 1 dist x1 x2 (d1 / (d1 - d2)) = dist := by simp [midCoord]
      rw [hm]
      linear_combination (-1) * key + (1 - d1 / (d1 - d2)) * h1 + (d1 / (d1 - d2)) * h2
    · have hm : midCoord (-1) dist x1 x2 (d1 / (d1 - d2)) = -dist := by
        unfold midCoord
        norm_num
      rw [hm]
      linear_combination key - (1 - d1 / (d1 - d2)) * h1 - (d1 / (d1 - d2)) * h2
  · exact midCoord_lerp _ _ _ _ _ ha

theorem splitPoint_lerp (split : Plane) (p1 p2 : Vec3)
    (hu : DotProduct split.normal split.normal = 1)
    (hne : planeDist split p1 ≠ planeDist split p2) :
    splitPoint split p1 p2 (planeDist split p1) (planeDist split p2)
      = ⟨p1.x + planeDist split p1 / (planeDist split p1 - planeDist split p2) * (p2.x - p1.x),
         p1.y + planeDist split p1 / (planeDist split p1 - planeDist split p2) * (p2.y - p1.y),
         p1.z + planeDist split p1 / (planeDist split p1 - planeDist split p2) * (p2.z - p1.z)⟩ := by
  obtain ⟨⟨a, b, c⟩, dist⟩ := split
  simp only [DotProduct] at hu
  simp only [splitPoint, Vec3.mk.injEq]
  refine ⟨?_, ?_, ?_⟩
  · exact lerp_comp a b c dist p1.x p1.y p1.z p2.x p2.y p2.z _ _ hu
      (by simp only [planeDist, DotProduct]) (by simp only [planeDist, DotProduct]) hne
  · exact lerp_comp b c a dist p1.y p1.z p1.x p2.y p2.z p2.x _ _ (by linarith)
      (by simp only [planeDist, DotProduct]; ring) (by simp only [planeDist, DotProduct]; ring) hne
  · exact lerp_comp c a b dist p1.z p1.x p1.y p2.z p2.x p2.y _ _ (by linarith)
      (by simp only [planeDist, DotProduct]; ring) (by simp only [planeDist, DotProduct]; ring) hne

theorem crossAlong_lerp (n p1 p2 : Vec3) (t : ℚ) :
    crossAlong n p1 ⟨p1.x + t * (p2.x - p1.x), p1.y + t * (p2.y - p1.y),
        p1.z + t * (p2.z - p1.z)⟩
      + crossAlong n ⟨p1.x + t * (p2.x - p1.x), p1.y + t * (p2.y - p1.y),
        p1.z + t * (p2.z - p1.z)⟩ p2
      = crossAlong n p1 p2 := by
  simp only [crossAlong, DotProduct, CrossProduct]
  ring

theorem crossAlong_self (n a : Vec3) : crossAlong n a a = 0 := by
  simp only [crossAlong, DotProduct, CrossProduct]
  ring

theorem crossAlong_swap (n a b : Vec3) : crossAlong n a b + crossAlong n b a = 0 := by
  simp only [crossAlong, DotProduct, CrossProduct]
  ring

theorem cycSum_short (n : Vec3) (C : List Vec3) (h : C.length ≤ 2) :
    cycSum (crossAlong n) C = 0 := by
  match C, h with
  | [], _ => rfl
  | [a], _ => simp [cycSum, pathSum, crossAlong_self]
  | [a, b], _ =>
    simp only [cycSum, List.getLast?_cons_cons, List.getLast?_singleton, pathSum, add_zero]
    rw [add_comm]
    exact crossAlong_swap n a b

theorem split_crossAlong (ε : ℚ) (split : Plane)
    (hu : DotProduct split.normal split.normal = 1) (w : Winding) (n : Vec3) (i : Nat)
    (_h1 : sideAt ε split w i ≠ SIDE_ON)
    (h2 : ¬ (sideAt ε split w (i + 1) = SIDE_ON ∨ sideAt ε split w (i + 1) = sideAt ε split w i)) :
    crossAlong n (vertexAt w i) (splitAt split w i)
      + crossAlong n (splitAt split w i) (vertexAt w (i + 1))
      = crossAlong n (vertexAt w i) (vertexAt w (i + 1)) := by
  have hne : planeDist split (vertexAt w i) ≠ planeDist split (vertexAt w (i + 1)) := by
    intro h
    apply h2
    right
    unfold sideAt
    unfold vertexAt at h
    rw [h]
  unfold splitAt
  rw [splitPoint_lerp split _ _ hu hne]
  exact crossAlong_lerp n _ _ _

theorem exists_vertex_of_counts (ε : ℚ) (split : Plane) (w : Winding) (s : Side)
    (h : counts ε split w s ≠ 0) : ∃ i, i < w.length ∧ sideAt ε split w i = s := by
  rw [Ne, counts_eq_zero_iff] at h
  unfold NoVertex at h
  push_neg at h
  obtain ⟨p, hp, hs⟩ := h
  obtain ⟨i, hi, rfl⟩ := List.getElem_of_mem hp
  refine ⟨i, hi, ?_⟩
  unfold sideAt pt
  rw [Nat.mod_eq_of_lt hi, List.getD_eq_getElem _ _ hi]
  exact hs

theorem exists_plane_step (ε : ℚ) (split : Plane) (w : Winding)
    (hF : counts ε split w SIDE_FRONT ≠ 0) (hB : counts ε split w SIDE_BACK ≠ 0) :
    ∃ i, i < w.length ∧ (sideAt ε split w i = SIDE_ON
      ∨ ¬ (sideAt ε split w (i + 1) = SIDE_ON
          ∨ sideAt ε split w (i + 1) = sideAt ε split w i)) := by
  by_contra hcon
  push_neg at hcon
  obtain ⟨iF, hiF, hsF⟩ := exists_vertex_of_counts ε split w SIDE_FRONT hF
  obtain ⟨iB, _, hsB⟩ := exists_vertex_of_counts ε split w SIDE_BACK hB
  have hn : 0 < w.length := Nat.lt_of_le_of_lt (Nat.zero_le _) hiF
  have hmod : ∀ i, sideAt ε split w (i % w.length) = sideAt ε split w i := by
    intro i
    unfold sideAt
    rw [Nat.mod_mod]
  have hon : ∀ i, sideAt ε split w i ≠ SIDE_ON := by
    intro i
    rw [← hmod i]
    exact (hcon (i % w.length) (Nat.mod_lt _ hn)).1
  have hstep : ∀ i, sideAt ε split w (i + 1) = sideAt ε split w i := by
    intro i
    have h1 := (hcon (i % w.length) (Nat.mod_lt _ hn)).2
    have h2 : sideAt ε split w (i % w.length + 1) = sideAt ε split w (i + 1) := by
      unfold sideAt
      rw [Nat.mod_add_mod]
    rw [h2, hmod i] at h1
    exact h1.resolve_left (hon (i + 1))
  have hall : ∀ i, sideAt ε split w i = sideAt ε split w 0 := by
    intro i
    induction i with
    | zero => rfl
    | succ i ih => rw [hstep i, ih]
  rw [hall iF] at hsF
  rw [hall iB, hsF] at hsB
  exact absurd hsB (by decide)

theorem flatMap_length_le_add (f g : Nat → List Vec3)
    (h : ∀ i, (f i).length ≤ 1 + (g i).length) (l : List Nat) :
    (l.flatMap f).length ≤ l.length + (l.flatMap g).length := by
  induction l with
  | nil => simp
  | cons a l ih =>
    have := h a
    simp only [List.flatMap_cons, List.length_append, List.length_cons]
    omega

theorem stepFront_length_le (σ : Nat → Side) (P M : Nat → Vec3) (i : Nat) :
    (stepFront σ P M i).length ≤ 1 + (stepPlane σ P M i).length := by
  unfold stepFront stepPlane
  split_ifs <;> simp

theorem stepBack_length_le (σ : Nat → Side) (P M : Nat → Vec3) (i : Nat) :
    (stepBack σ P M i).length ≤ 1 + (stepPlane σ P M i).length := by
  unfold stepBack stepPlane
  split_ifs <;> simp

theorem clipBuild_length_le_planeSeq (ε : ℚ) (split : Plane) (w : Winding) :
    (clipBuild ε split w).length ≤ w.length + (planeSeq ε split w).length := by
  rw [clipBuild_eq_stepFront, planeSeq_eq]
  have := flatMap_length_le_add _ _ (stepFront_length_le (sideAt ε split w) (vertexAt w)
    (splitAt split w)) (List.range' 0 w.length)
  simpa using this

theorem divideBuildBack_length_le_planeSeq (ε : ℚ) (split : Plane) (w : Winding) :
    (divideBuildBack ε split w).length ≤ w.length + (planeSeq ε split w).length := by
  rw [divideBuildBack_eq_stepBack, planeSeq_eq]
  have := flatMap_length_le_add _ _ (stepBack_length_le (sideAt ε split w) (vertexAt w)
    (splitAt split w)) (List.range' 0 w.length)
  simpa using this

theorem builds_cycSum (ε : ℚ) (split : Plane) (w : Winding) (n : Vec3)
    (hu : DotProduct split.normal split.normal = 1)
    (hF : counts ε split w SIDE_FRONT ≠ 0) (hB : counts ε split w SIDE_BACK ≠ 0) :
    cycSum (crossAlong n) (clipBuild ε split w)
      + cycSum (crossAlong n) (divideBuildBack ε split w)
    = cycSum (crossAlong n) w + cycSum (crossAlong n) (planeSeq ε split w) := by
  obtain ⟨i0, hi0, hend⟩ := exists_plane_step ε split w hF hB
  obtain ⟨m, hm⟩ : ∃ m, w.length = m + 1 := ⟨w.length - 1, by omega⟩
  have hidx : i0 + 1 + m = i0 + w.length := by omega
  have hs1 : sideAt ε split w (i0 + 1 + m) = sideAt ε split w i0 := by
    rw [hidx, sideAt_periodic]
  have hs2 : sideAt ε split w (i0 + 1 + m + 1) = sideAt ε split w (i0 + 1) := by
    rw [hidx, Nat.add_right_comm, sideAt_periodic]
  have hbal := cycSum_balance_window (crossAlong n) (sideAt ε split w) (vertexAt w)
    (splitAt split w) (i0 + 1) m (by rw [hs1, hs2]; exact hend)
  rw [← hm] at hbal
  rw [cycSum_window _ _ w.length (fun i => (steps_periodic ε split w i).1) (i0 + 1) hi0,
    cycSum_window _ _ w.length (fun i => (steps_periodic ε split w i).2.1) (i0 + 1) hi0,
    cycSum_window _ _ w.length (fun i => (steps_periodic ε split w i).2.2.1) (i0 + 1) hi0,
    cycSum_window _ _ w.length (fun i => (steps_periodic ε split w i).2.2.2) (i0 + 1) hi0,
    cycSum_stepAll (crossAlong n) _ _ _ (split_crossAlong ε split hu w n) w.length
      (by have := vertexAt_periodic w 0; rwa [Nat.zero_add] at this),
    ← winding_eq_map_vertexAt, ← clipBuild_eq_stepFront, ← divideBuildBack_eq_stepBack,
    ← planeSeq_eq] at hbal
  exact hbal

/-! ## Areas of the two clips -/

theorem ClipWinding_of_straddle (ε : ℚ) (w : Winding) (split : Plane) (keepon : Bool)
    (hF : counts ε split w SIDE_FRONT ≠ 0) (hB : counts ε split w SIDE_BACK ≠ 0)
    (hlen : (clipBuild ε split w).length ≤ w.length + 4) :
    ClipWinding ε w split keepon = .ok (some (clipBuild ε split w)) := by
  unfold ClipWinding
  rw [if_neg (fun h => hF h.2.1), if_neg hF, if_neg hB]
  simp only []
  rw [if_neg (by omega)]

theorem ClipWinding_of_no_front (ε : ℚ) (w : Winding) (split : Plane)
    (hF : counts ε split w SIDE_FRONT = 0) :
    ClipWinding ε w split false = .ok none := by
  unfold ClipWinding
  rw [if_neg (by simp), if_pos hF]

theorem ClipWinding_of_no_back (ε : ℚ) (w : Winding) (split : Plane)
    (hF : counts ε split w SIDE_FRONT ≠ 0) (hB : counts ε split w SIDE_BACK = 0) :
    ClipWinding ε w split false = .ok (some w) := by
  unfold ClipWinding
  rw [if_neg (by simp), if_neg hF, if_pos hB]

/-- C14 (amended): for all windings W (convex or not), every tolerance `ON_EPSILON >= 0` and
every plane P with a unit normal such that W has a vertex that is not On and, when it has
both Front and Back vertices, the On vertices and the generated split points are together at
most two (as for a convex W of which no two neighbouring vertices are On): both clips return,
and area(ClipWinding(W, P, false)) + area(ClipWinding(W, flip(P), false)) = area(W), where
an empty result has area 0 and area is the polygon area of the point sequence seen along any
fixed direction `n`. -/
theorem ClipWinding_area_partition (ε : ℚ) (w : Winding) (split : Plane) (n : Vec3)
    (hε : 0 ≤ ε) (hu : DotProduct split.normal split.normal = 1)
    (hside : counts ε split w SIDE_FRONT ≠ 0 ∨ counts ε split w SIDE_BACK ≠ 0)
    (hC : counts ε split w SIDE_FRONT ≠ 0 → counts ε split w SIDE_BACK ≠ 0 →
      (planeSeq ε split w).length ≤ 2) :
    ∃ f b, ClipWinding ε w split false = .ok f ∧ ClipWinding ε w split.flip false = .ok b
      ∧ areaOpt n f + areaOpt n b = areaAlong n w := by
  by_cases hF : counts ε split w SIDE_FRONT = 0
  · have hB : counts ε split w SIDE_BACK ≠ 0 := hside.resolve_left (fun h => h hF)
    refine ⟨none, some w, ClipWinding_of_no_front ε w split hF,
      ClipWinding_of_no_back ε w split.flip
        (fun h => hB ((counts_flip_front ε hε split w).1 h))
        ((counts_flip_back ε hε split w).2 hF), ?_⟩
    simp [areaOpt]
  · by_cases hB : counts ε split w SIDE_BACK = 0
    · refine ⟨some w, none, ClipWinding_of_no_back ε w split hF hB,
        ClipWinding_of_no_front ε w split.flip ((counts_flip_front ε hε split w).2 hB), ?_⟩
      simp [areaOpt]
    · have hlen := hC hF hB
      have h1 := clipBuild_length_le_planeSeq ε split w
      have h2 := divideBuildBack_length_le_planeSeq ε split w
      rw [divideBuildBack_eq ε hε split w] at h2
      refine ⟨some (clipBuild ε split w), some (clipBuild ε split.flip w),
        ClipWinding_of_straddle ε w split false hF hB (by omega),
        ClipWinding_of_straddle ε w split.flip false
          (fun h => hB ((counts_flip_front ε hε split w).1 h))
          (fun h => hF ((counts_flip_back ε hε split w).1 h)) (by omega), ?_⟩
      have hsum := builds_cycSum ε split w n hu hF hB
      rw [cycSum_short n _ hlen, divideBuildBack_eq ε hε split w] at hsum
      simp only [areaOpt, areaAlong]
      linarith

theorem planeSeq_squareZ0 :
    planeSeq (1 / 10) planeXHalf squareZ0 = [⟨1 / 2, 0, 0⟩, ⟨1 / 2, 1, 0⟩] := by
  simp [planeSeq, stepPlane, sideAt, vertexAt, splitAt, splitPoint, midCoord, squareZ0,
    planeXHalf, sideOf, planeDist, DotProduct, pt, List.range, List.range.loop, List.flatMap]
  norm_num
  simp +decide

/-- Witness of C14 (amended): the unit square cut by the plane `x = 1/2`, areas seen along
`(0,0,1)`. -/
theorem ClipWinding_area_partition_witness :
    (0 : ℚ) ≤ 1 / 10 ∧ DotProduct planeXHalf.normal planeXHalf.normal = 1
    ∧ (counts (1 / 10) planeXHalf squareZ0 SIDE_FRONT ≠ 0
        ∨ counts (1 / 10) planeXHalf squareZ0 SIDE_BACK ≠ 0)
    ∧ (planeSeq (1 / 10) planeXHalf squareZ0).length ≤ 2
    ∧ ∃ f b, ClipWinding (1 / 10) squareZ0 planeXHalf false = .ok f
      ∧ ClipWinding (1 / 10) squareZ0 planeXHalf.flip false = .ok b
      ∧ areaOpt ⟨0, 0, 1⟩ f + areaOpt ⟨0, 0, 1⟩ b = areaAlong ⟨0, 0, 1⟩ squareZ0 :=
  ⟨by norm_num, by norm_num [planeXHalf, DotProduct],
   Or.inl (fun h => squareZ0_has_front ((counts_eq_zero_iff _ _ _ _).1 h)),
   by rw [planeSeq_squareZ0]; decide,
   ClipWinding_area_partition (1 / 10) squareZ0 planeXHalf ⟨0, 0, 1⟩ (by norm_num)
     (by norm_num [planeXHalf, DotProduct])
     (Or.inl (fun h => squareZ0_has_front ((counts_eq_zero_iff _ _ _ _).1 h)))
     (fun _ _ => by rw [planeSeq_squareZ0]; decide)⟩

theorem ClipWinding_triangleZ0_none :
    ClipWinding 0 triangleZ0 planeZ0 false = .ok none
    ∧ ClipWinding 0 triangleZ0 planeZ0.flip false = .ok none := by
  constructor
  · apply ClipWinding_of_no_front
    simp [counts, triangleZ0, planeZ0, sideOf, planeDist, DotProduct]
  · apply ClipWinding_of_no_front
    simp [counts, triangleZ0, planeZ0, Plane.flip, VectorInverse, sideOf, planeDist, DotProduct]

theorem areaAlong_triangleZ0 : areaAlong ⟨0, 0, 1⟩ triangleZ0 = 1 / 2 := by
  simp [areaAlong, cycSum, pathSum, crossAlong, DotProduct, CrossProduct, triangleZ0]

theorem ClipWinding_sliverQuad :
    ClipWinding (1 / 10) sliverQuad planeXHalf false
      = .ok (some [⟨9 / 20, -1, 0⟩, ⟨11 / 20, -101 / 100, 0⟩, ⟨3 / 2, 0, 0⟩, ⟨1 / 2, 0, 0⟩]) := by
  simp [ClipWinding, counts, clipBuild, clipStep, sidesOf, distsOf, sliverQuad, planeXHalf,
    sideOf, planeDist, DotProduct, splitPoint, midCoord, pt, List.range, List.range.loop,
    List.flatMap]
  norm_num
  simp +decide

theorem ClipWinding_sliverQuad_flip :
    ClipWinding (1 / 10) sliverQuad planeXHalf.flip false
      = .ok (some [⟨9 / 20, -1, 0⟩, ⟨11 / 20, -101 / 100, 0⟩, ⟨1 / 2, 0, 0⟩, ⟨-1 / 2, 0, 0⟩]) := by
  simp [ClipWinding, counts, clipBuild, clipStep, sidesOf, distsOf, sliverQuad, planeXHalf,
    Plane.flip, VectorInverse,
    sideOf, planeDist, DotProduct, splitPoint, midCoord, pt, List.range, List.range.loop,
    List.flatMap]
  norm_num
  simp +decide

theorem convex_sliverQuad : Convex ⟨0, 0, -1⟩ sliverQuad := by
  intro t ht
  have ht4 : t < 4 := ht
  interval_cases t <;>
    norm_num [sliverQuad, pt, DotProduct, CrossProduct, VectorSubtract]

/-- Counterexample of C14: (1) the triangle `triangleZ0` lies in the plane `z = 0`: both
clips are empty, the areas add to 0, the triangle has area 1/2; (2) the convex quadrilateral
`sliverQuad` has two neighbouring vertices within `ON_EPSILON = 1/10` of the plane
`x = 1/2`: both clips keep both of them, the areas add to 2211/2000, the quadrilateral has
area 4221/4000. -/
theorem ClipWinding_area_not_partitioned :
    (ClipWinding 0 triangleZ0 planeZ0 false = .ok none
      ∧ ClipWinding 0 triangleZ0 planeZ0.flip false = .ok none
      ∧ areaOpt ⟨0, 0, 1⟩ none + areaOpt ⟨0, 0, 1⟩ none = 0
      ∧ areaAlong ⟨0, 0, 1⟩ triangleZ0 = 1 / 2)
    ∧ (Convex ⟨0, 0, -1⟩ sliverQuad
      ∧ ClipWinding (1 / 10) sliverQuad planeXHalf false
        = .ok (some [⟨9 / 20, -1, 0⟩, ⟨11 / 20, -101 / 100, 0⟩, ⟨3 / 2, 0, 0⟩, ⟨1 / 2, 0, 0⟩])
      ∧ ClipWinding (1 / 10) sliverQuad planeXHalf.flip false
        = .ok (some [⟨9 / 20, -1, 0⟩, ⟨11 / 20, -101 / 100, 0⟩, ⟨1 / 2, 0, 0⟩, ⟨-1 / 2, 0, 0⟩])
      ∧ areaOpt ⟨0, 0, 1⟩
            (some [⟨9 / 20, -1, 0⟩, ⟨11 / 20, -101 / 100, 0⟩, ⟨3 / 2, 0, 0⟩, ⟨1 / 2, 0, 0⟩])
          + areaOpt ⟨0, 0, 1⟩
            (some [⟨9 / 20, -1, 0⟩, ⟨11 / 20, -101 / 100, 0⟩, ⟨1 / 2, 0, 0⟩, ⟨-1 / 2, 0, 0⟩])
          = 2211 / 2000
      ∧ areaAlong ⟨0, 0, 1⟩ sliverQuad = 4221 / 4000) := by
  refine ⟨⟨ClipWinding_triangleZ0_none.1, ClipWinding_triangleZ0_none.2, ?_,
    areaAlong_triangleZ0⟩, convex_sliverQuad, ClipWinding_sliverQuad,
    ClipWinding_sliverQuad_flip, ?_, ?_⟩
  · simp [areaOpt]
  · simp [areaOpt, areaAlong, cycSum, pathSum, crossAlong, DotProduct, CrossProduct]
    norm_num
  · simp [areaAlong, cycSum, pathSum, crossAlong, DotProduct, CrossProduct, sliverQuad]
    norm_num

/-! ## Closed polygons joined along an edge -/

theorem cycSum_rot_last (c : Vec3 → Vec3 → ℚ) (h : Vec3) (t : List Vec3) :
    cycSum c (h :: t) = pathSum c h (t ++ [h]) := by
  have h1 : cycSum c (h :: t) = cycSum c (t ++ [h]) := by
    have := cycSum_append_comm c [h] t
    simpa using this
  rw [h1, cycSum_eq_pathSum]

theorem cycSum_edge_first (c : Vec3 → Vec3 → ℚ) (p1 p2 : Vec3) (A : List Vec3) :
    cycSum c (p1 :: p2 :: A)
      = c p1 p2 + pathSum c p2 A + c ((A.getLast?).getD p2) p1 := by
  rw [cycSum_rot_last, List.cons_append, pathSum, pathSum_append]
  simp only [pathSum, add_zero]
  ring

theorem cycSum_join_both (c : Vec3 → Vec3 → ℚ) (p1 p2 : Vec3) (A B : List Vec3) :
    cycSum c (p2 :: A ++ p1 :: B)
      = pathSum c p2 A + c ((A.getLast?).getD p2) p1 + pathSum c p1 B
        + c ((B.getLast?).getD p1) p2 := by
  rw [List.cons_append, cycSum_rot_last, List.append_assoc, pathSum_append, List.cons_append,
    pathSum, pathSum_append]
  simp only [pathSum, add_zero]
  ring

theorem cycSum_join_first (c : Vec3 → Vec3 → ℚ) (p1 a1 : Vec3) (A B : List Vec3) :
    cycSum c ((a1 :: A) ++ p1 :: B)
      = pathSum c a1 A + c ((A.getLast?).getD a1) p1 + pathSum c p1 B
        + c ((B.getLast?).getD p1) a1 := by
  rw [List.cons_append, cycSum_rot_last, List.append_assoc, pathSum_append, List.cons_append,
    pathSum, pathSum_append]
  simp only [pathSum, add_zero]
  ring

theorem cycSum_join_second (c : Vec3 → Vec3 → ℚ) (p2 b1 : Vec3) (A B : List Vec3) :
    cycSum c (p2 :: A ++ b1 :: B)
      = pathSum c p2 A + c ((A.getLast?).getD p2) b1 + pathSum c b1 B
        + c ((B.getLast?).getD b1) p2 :=
  cycSum_join_both c b1 p2 A B

theorem flatMap_singleton_eq_map (q : Nat → Vec3) (l : List Nat) :
    l.flatMap (fun t => [q t]) = l.map q := by
  induction l with
  | nil => rfl
  | cons a l ih => rw [List.flatMap_cons, ih]; rfl

theorem cycSum_rotate_winding (c : Vec3 → Vec3 → ℚ) (w : Winding) (i : Nat)
    (hi : i ≤ w.length) :
    cycSum c w = cycSum c ((List.range' i w.length).map (vertexAt w)) := by
  have h := cycSum_window c (fun t => [vertexAt w t]) w.length
    (fun t => by
      show [vertexAt w (t + w.length)] = [vertexAt w t]
      rw [vertexAt_periodic]) i hi
  rw [flatMap_singleton_eq_map, flatMap_singleton_eq_map, ← winding_eq_map_vertexAt] at h
  exact h.symm

theorem copyLoop_vertexAt (w : Winding) (i s : Nat) (hi : i < w.length) (hs1 : 1 ≤ s)
    (hs : s ≤ w.length) :
    copyLoop w i w.length ((i + s) % w.length)
      = (List.range' (i + s) (w.length - s)).map (vertexAt w) := by
  rw [copyLoop_from w i s hi hs1 hs, List.range'_eq_map_range, List.map_map]
  rfl

theorem winding_rot (c : Vec3 → Vec3 → ℚ) (w : Winding) (i : Nat) (hi : i < w.length)
    (h3 : 3 ≤ w.length) :
    ∃ A, cycSum c w
        = cycSum c (pt w i :: pt w ((i + 1) % w.length) :: pt w ((i + 2) % w.length) :: A)
      ∧ copyLoop w i w.length ((i + 1) % w.length)
        = pt w ((i + 1) % w.length) :: pt w ((i + 2) % w.length) :: A
      ∧ copyLoop w i w.length ((i + 2) % w.length) = pt w ((i + 2) % w.length) :: A
      ∧ ((pt w ((i + 2) % w.length) :: A).getLast?).getD (pt w ((i + 1) % w.length))
        = pt w ((i + w.length - 1) % w.length) := by
  obtain ⟨m, hm⟩ : ∃ m, w.length = m + 3 := ⟨w.length - 3, by omega⟩
  refine ⟨(List.range' (i + 3) m).map (vertexAt w), ?_, ?_, ?_, ?_⟩
  · rw [cycSum_rotate_winding c w i (Nat.le_of_lt hi), hm, List.range'_succ, List.range'_succ,
      List.range'_succ]
    simp only [List.map_cons, vertexAt, ← hm, Nat.mod_eq_of_lt hi]
  · rw [copyLoop_vertexAt w i 1 hi (le_refl 1) (by omega), hm]
    have : m + 3 - 1 = m + 2 := by omega
    rw [this, List.range'_succ, List.range'_succ]
    simp only [List.map_cons, vertexAt, ← hm]
  · rw [copyLoop_vertexAt w i 2 hi (by omega) (by omega), hm]
    have : m + 3 - 2 = m + 1 := by omega
    rw [this, List.range'_succ]
    simp only [List.map_cons, vertexAt, ← hm]
  · have hl : pt w ((i + 2) % w.length) :: (List.range' (i + 3) m).map (vertexAt w)
        = (List.range' (i + 2) (m + 1)).map (vertexAt w) := by
      rw [List.range'_succ]
      simp only [List.map_cons, vertexAt]
    rw [hl, List.range'_1_concat, List.map_append, List.getLast?_append]
    have hidx : i + 2 + m = i + w.length - 1 := by omega
    simp [vertexAt, hidx]

theorem getLast_cons_getD (a d : Vec3) (A : List Vec3) :
    ((a :: A).getLast?).getD d = (A.getLast?).getD a := by
  cases A with
  | nil => rfl
  | cons b B =>
    obtain ⟨z, hz⟩ : ∃ z, (b :: B).getLast? = some z :=
      ⟨_, List.getLast?_eq_getLast _ (List.cons_ne_nil _ _)⟩
    simp [List.getLast?_cons_cons, hz]

theorem mergedWinding_cycSum (n : Vec3) (w1 w2 : Winding) (i j : Nat) (keep1 keep2 : Bool)
    (hi : i < w1.length) (hj : j < w2.length) (h1 : 3 ≤ w1.length) (h2 : 3 ≤ w2.length)
    (hp1 : pt w1 i = pt w2 ((j + 1) % w2.length))
    (hp2 : pt w1 ((i + 1) % w1.length) = pt w2 j) :
    cycSum (crossAlong n) (mergedWinding w1 w2 i j keep1 keep2)
      = cycSum (crossAlong n) w1 + cycSum (crossAlong n) w2
        - (if keep1 = true then 0
           else triAlong n (pt w1 ((i + w1.length - 1) % w1.length)) (pt w1 i)
             (pt w2 ((j + 2) % w2.length)))
        - (if keep2 = true then 0
           else triAlong n (pt w2 ((j + w2.length - 1) % w2.length))
             (pt w1 ((i + 1) % w1.length)) (pt w1 ((i + 2) % w1.length))) := by
  obtain ⟨A, hA1, hA2, hA3, hA4⟩ := winding_rot (crossAlong n) w1 i hi h1
  obtain ⟨B, hB1, hB2, hB3, hB4⟩ := winding_rot (crossAlong n) w2 j hj h2
  rw [← hp2, ← hp1] at hB1
  rw [← hp1] at hB2 hB4
  rw [getLast_cons_getD] at hA4 hB4
  rw [hA1, hB1, cycSum_edge_first, cycSum_edge_first, getLast_cons_getD, getLast_cons_getD,
    hA4, hB4]
  unfold mergedWinding
  cases keep1 <;> cases keep2
  · simp only [Bool.false_eq_true, if_false, hA3, hB3]
    rw [cycSum_join_first, hA4, hB4]
    simp only [pathSum, triAlong, crossAlong, DotProduct, CrossProduct]
    ring
  · simp only [Bool.false_eq_true, if_false, if_true, hA2, hB3]
    rw [cycSum_join_both, getLast_cons_getD, hA4, hB4]
    simp only [pathSum, triAlong, crossAlong, DotProduct, CrossProduct]
    ring
  · simp only [Bool.false_eq_true, if_false, if_true, hA3, hB2]
    rw [cycSum_join_first, hA4, getLast_cons_getD, hB4]
    simp only [pathSum, triAlong, crossAlong, DotProduct, CrossProduct]
    ring
  · simp only [if_true, hA2, hB2]
    rw [cycSum_join_both, getLast_cons_getD, hA4, getLast_cons_getD, hB4]
    simp only [pathSum, triAlong, crossAlong, DotProduct, CrossProduct]
    ring

/-! ## Areas of merged faces -/

theorem TryMerge_area (n : Vec3) (env : MergeEnv) (f1 f2 f : Face) (i j : Nat) (plane : Plane)
    (h : TryMerge env f1 f2 = .ok (some f)) (h1 : 3 ≤ f1.w.length) (h2 : 3 ≤ f2.w.length)
    (hfe : findEdge env.EQUAL_EPSILON f1.w f2.w = some (i, j))
    (hpl : planeAt env.planes f1.planenum = some plane)
    (hp1 : pt f1.w i = pt f2.w ((j + 1) % f2.w.length))
    (hp2 : pt f1.w ((i + 1) % f1.w.length) = pt f2.w j) :
    areaAlong n f.w
      = areaAlong n f1.w + areaAlong n f2.w - junctionLoss n env plane f1 f2 i j / 2 := by
  obtain ⟨i2, j2, plane2, _, hfe2, hpl2, _, _, _, hf⟩ := TryMerge_eq_some env f1 f2 f h
  rw [hfe] at hfe2
  rw [hpl] at hpl2
  simp only [Option.some.injEq, Prod.mk.injEq] at hfe2 hpl2
  obtain ⟨rfl, rfl⟩ := hfe2
  subst hpl2
  obtain ⟨hi, hj, _, _⟩ := (findEdge_eq_some env.EQUAL_EPSILON f1.w f2.w i j).1 hfe
  have hw : f.w = mergedWinding f1.w f2.w i j
      (decide (dot1 env (mergeNormal plane f1.planeside) f1.w f2.w i j
        < -env.CONTINUOUS_EPSILON))
      (decide (dot2 env (mergeNormal plane f1.planeside) f1.w f2.w i j
        < -env.CONTINUOUS_EPSILON)) := by
    rw [hf]
  unfold areaAlong junctionLoss
  rw [hw, mergedWinding_cycSum n f1.w f2.w i j _ _ hi hj h1 h2 hp1 hp2]
  simp only [decide_eq_true_eq]
  ring

theorem totalArea_append (n : Vec3) (a b : List Face) :
    totalArea n (a ++ b) = totalArea n a + totalArea n b := by
  simp [totalArea]

theorem totalArea_cons (n : Vec3) (f : Face) (l : List Face) :
    totalArea n (f :: l) = areaAlong n f.w + totalArea n l := by
  simp [totalArea]

theorem mergeLoop_area (env : MergeEnv) (n : Vec3) (Good : Face → Prop)
    (hclosed : ∀ f1 f2 f, Good f1 → Good f2 → TryMerge env f1 f2 = .ok (some f) →
      Good f ∧ areaAlong n f.w = areaAlong n f1.w + areaAlong n f2.w)
    (face : Face) (done rest : List Face) :
    ∀ out, mergeLoop env face done rest = .ok out → Good face → (∀ g ∈ done, Good g) →
      (∀ g ∈ rest, Good g) →
      (∀ g ∈ out, Good g)
      ∧ totalArea n out = areaAlong n face.w + totalArea n done + totalArea n rest := by
  induction face, done, rest using mergeLoop.induct env with
  | case1 face done =>
    intro out h hgf hgd _
    rw [mergeLoop_nil] at h
    simp only [Except.ok.injEq] at h
    subst h
    constructor
    · intro g hg
      rcases List.mem_append.1 hg with hg | hg
      · exact hgd g hg
      · rw [List.mem_singleton.1 hg]; exact hgf
    · rw [totalArea_append, totalArea_cons]
      simp [totalArea]
      ring
  | case2 face done g rest1 e he =>
    intro out h _ _ _
    rw [mergeLoop_error env face g done rest1 e he] at h
    simp at h
  | case3 face done g rest1 newf hm ih =>
    intro out h hgf hgd hgr
    rw [mergeLoop_merge env face g newf done rest1 hm] at h
    obtain ⟨hgn, harea⟩ := hclosed face g newf hgf (hgr g (List.mem_cons_self _ _)) hm
    obtain ⟨ho1, ho2⟩ := ih out h hgn (fun x hx => absurd hx (List.not_mem_nil x))
      (fun x hx => by
        rcases List.mem_append.1 hx with hx | hx
        · exact hgd x hx
        · exact hgr x (List.mem_cons_of_mem _ hx))
    refine ⟨ho1, ?_⟩
    rw [ho2, harea, totalArea_append, totalArea_cons]
    simp [totalArea]
    ring
  | case4 face done g rest1 hs ih =>
    intro out h hgf hgd hgr
    rw [mergeLoop_skip env face g done rest1 hs] at h
    obtain ⟨ho1, ho2⟩ := ih out h hgf
      (fun x hx => by
        rcases List.mem_append.1 hx with hx | hx
        · exact hgd x hx
        · rw [List.mem_singleton.1 hx]; exact hgr g (List.mem_cons_self _ _))
      (fun x hx => hgr x (List.mem_cons_of_mem _ hx))
    refine ⟨ho1, ?_⟩
    rw [ho2, totalArea_append, totalArea_cons, totalArea_cons]
    simp [totalArea]
    ring

theorem MergeFaceList_foldl_area (env : MergeEnv) (n : Vec3) (Good : Face → Prop)
    (hclosed : ∀ f1 f2 f, Good f1 → Good f2 → TryMerge env f1 f2 = .ok (some f) →
      Good f ∧ areaAlong n f.w = areaAlong n f1.w + areaAlong n f2.w)
    (rest : List Face) :
    ∀ acc out, List.foldlM (fun result face => MergeFaceToList env face result) acc rest
        = .ok out →
      (∀ g ∈ acc, Good g) → (∀ g ∈ rest, Good g) →
      (∀ g ∈ out, Good g) ∧ totalArea n out = totalArea n acc + totalArea n rest := by
  induction rest with
  | nil =>
    intro acc out h hga _
    simp only [List.foldlM, pure, Except.pure, Except.ok.injEq] at h
    subst h
    exact ⟨hga, by simp [totalArea]⟩
  | cons f rest1 ih =>
    intro acc out h hga hgr
    rw [List.foldlM_cons] at h
    cases hstep : MergeFaceToList env f acc with
    | error e =>
      rw [hstep] at h
      simp [bind, Except.bind] at h
    | ok r =>
      rw [hstep] at h
      have h2 : List.foldlM (fun result face => MergeFaceToList env face result) r rest1
          = .ok out := h
      unfold MergeFaceToList at hstep
      obtain ⟨hr1, hr2⟩ := mergeLoop_area env n Good hclosed f [] acc r hstep
        (hgr f (List.mem_cons_self _ _)) (fun x hx => absurd hx (List.not_mem_nil x)) hga
      obtain ⟨ho1, ho2⟩ := ih r out h2 hr1 (fun x hx => hgr x (List.mem_cons_of_mem _ hx))
      refine ⟨ho1, ?_⟩
      rw [ho2, hr2, totalArea_cons]
      simp [totalArea]
      ring

theorem findEdge_faceUpper_faceLower :
    findEdge (1 / 1000) faceUpper.w faceLower.w = some (2, 0) := by
  simp [findEdge, findJ, edgeMatches, coordBreaks, faceA, faceUpper, faceLower, pt,
    List.range_succ, List.findSome?, List.find?, Vec3.comp]
  norm_num

theorem TryMerge_faceUpper_faceLower :
    TryMerge envSix faceUpper faceLower = .ok (some faceA) := by
  have h1 : normalizeQ ⟨1, 0, 0⟩ = ⟨1, 0, 0⟩ := normalizeQ_unit _ (by norm_num [DotProduct])
  have h2 : normalizeQ ⟨0, 1, 0⟩ = ⟨0, 1, 0⟩ := normalizeQ_unit _ (by norm_num [DotProduct])
  unfold TryMerge
  simp only [show envSix.EQUAL_EPSILON = 1 / 1000 from rfl, findEdge_faceUpper_faceLower]
  simp [envSix, envQ, faceA, faceUpper, faceLower, planeAt, planeZ0, mergeNormal, dot1, dot2,
    pt, VectorSubtract, CrossProduct, DotProduct, NewFaceFromFace,
    UpdateFaceSphere, mergedWinding, copyLoop]
  norm_num [h1, h2]

theorem findEdge_faceLower_faceUpper :
    findEdge (1 / 1000) faceLower.w faceUpper.w = some (0, 2) := by
  simp [findEdge, findJ, edgeMatches, coordBreaks, faceA, faceUpper, faceLower, pt,
    List.range_succ, List.findSome?, List.find?, Vec3.comp]
  norm_num

theorem TryMerge_faceLower_faceUpper :
    TryMerge envSix faceLower faceUpper = .ok (some faceArot) := by
  have h1 : normalizeQ ⟨-1, 0, 0⟩ = ⟨-1, 0, 0⟩ := normalizeQ_unit _ (by norm_num [DotProduct])
  have h2 : normalizeQ ⟨0, -1, 0⟩ = ⟨0, -1, 0⟩ := normalizeQ_unit _ (by norm_num [DotProduct])
  unfold TryMerge
  simp only [show envSix.EQUAL_EPSILON = 1 / 1000 from rfl, findEdge_faceLower_faceUpper]
  simp [envSix, envQ, faceA, faceArot, faceUpper, faceLower, planeAt, planeZ0, mergeNormal,
    dot1, dot2, pt, VectorSubtract, CrossProduct, DotProduct, NewFaceFromFace,
    UpdateFaceSphere, mergedWinding, copyLoop]
  norm_num [h1, h2]

theorem findEdge_faceUpper_faceUpper :
    findEdge (1 / 1000) faceUpper.w faceUpper.w = none := by
  simp [findEdge, findJ, edgeMatches, coordBreaks, faceA, faceUpper, pt,
    List.range_succ, List.findSome?, List.find?, Vec3.comp]
  norm_num [abs_div]

theorem findEdge_faceLower_faceLower :
    findEdge (1 / 1000) faceLower.w faceLower.w = none := by
  simp [findEdge, findJ, edgeMatches, coordBreaks, faceA, faceLower, pt,
    List.range_succ, List.findSome?, List.find?, Vec3.comp]
  norm_num [abs_div]

theorem TryMerge_ne_some_of_edges (env : MergeEnv) (f1 f2 f : Face)
    (h : env.MAXEDGES < f1.w.length + f2.w.length) : TryMerge env f1 f2 ≠ .ok (some f) := by
  intro hm
  obtain ⟨_, _, _, _, _, _, _, _, hle, _⟩ := TryMerge_eq_some env f1 f2 f hm
  omega

theorem areaAlong_halfFaces :
    areaAlong ⟨0, 0, -1⟩ faceUpper.w = 1 / 2 ∧ areaAlong ⟨0, 0, -1⟩ faceLower.w = 1 / 2
    ∧ areaAlong ⟨0, 0, -1⟩ faceA.w = 1 ∧ areaAlong ⟨0, 0, -1⟩ faceArot.w = 1 := by
  refine ⟨?_, ?_, ?_, ?_⟩ <;>
    norm_num [areaAlong, cycSum, pathSum, crossAlong, DotProduct, CrossProduct, faceA,
      faceUpper, faceLower, faceArot]

theorem halfFaces_closed :
    ∀ f1 f2 f, f1 ∈ halfFaces → f2 ∈ halfFaces → TryMerge envSix f1 f2 = .ok (some f) →
      f ∈ halfFaces
      ∧ areaAlong ⟨0, 0, -1⟩ f.w = areaAlong ⟨0, 0, -1⟩ f1.w + areaAlong ⟨0, 0, -1⟩ f2.w := by
  obtain ⟨hU, hL, hA, hR⟩ := areaAlong_halfFaces
  intro f1 f2 f h1 h2 hm
  simp only [halfFaces, List.mem_cons, List.mem_nil_iff, or_false] at h1 h2
  rcases h1 with rfl | rfl | rfl | rfl <;> rcases h2 with rfl | rfl | rfl | rfl
  · rw [TryMerge_of_findEdge_none envSix _ _ findEdge_faceUpper_faceUpper] at hm; simp at hm
  · rw [TryMerge_faceUpper_faceLower] at hm
    simp only [Except.ok.injEq, Option.some.injEq] at hm
    subst hm
    exact ⟨by simp [halfFaces], by rw [hU, hL, hA]; norm_num⟩
  · exact absurd hm (TryMerge_ne_some_of_edges envSix _ _ f (by decide))
  · exact absurd hm (TryMerge_ne_some_of_edges envSix _ _ f (by decide))
  · rw [TryMerge_faceLower_faceUpper] at hm
    simp only [Except.ok.injEq, Option.some.injEq] at hm
    subst hm
    exact ⟨by simp [halfFaces], by rw [hU, hL, hR]; norm_num⟩
  · rw [TryMerge_of_findEdge_none envSix _ _ findEdge_faceLower_faceLower] at hm; simp at hm
  all_goals exact absurd hm (TryMerge_ne_some_of_edges envSix _ _ f (by decide))

theorem MergeFaceList_halves :
    MergeFaceList envSix [faceLower, faceUpper] = .ok [faceA] := by
  unfold MergeFaceList
  rw [List.foldlM_cons]
  have h1 : MergeFaceToList envSix faceLower [] = .ok [faceLower] := by
    unfold MergeFaceToList
    rw [mergeLoop_nil]
    rfl
  have h2 : MergeFaceToList envSix faceUpper [faceLower] = .ok [faceA] := by
    unfold MergeFaceToList
    rw [mergeLoop_merge envSix faceUpper faceLower faceA [] [] TryMerge_faceUpper_faceLower]
    simp only [List.append_nil]
    rw [mergeLoop_nil]
    rfl
  rw [h1]
  show List.foldlM (fun result face => MergeFaceToList envSix face result) [faceLower]
    [faceUpper] = .ok [faceA]
  rw [List.foldlM_cons, h2]
  rfl

/-- Counterexample of C15, areas seen along `(0,0,-1)`.  (1) `TryMerge` merges `faceA` and
`faceP` leaving out the corner `(1,0,0)`, which is not on the line through its neighbours:
the result has `1/4000` more area than the two faces together.  (2) `TryMerge` merges `faceC`
and `faceD`, whose common edge agrees only within `EQUAL_EPSILON`: the result has `9/20000`
more area.  (3) `MergeFaceList` on the list of `faceP` and `faceA` returns the one face of
(1): the total area has changed. -/
theorem TryMerge_area_not_conserved :
    (TryMerge envQ faceA faceP = .ok (some faceAP)
      ∧ areaAlong ⟨0, 0, -1⟩ faceAP.w
        = areaAlong ⟨0, 0, -1⟩ faceA.w + areaAlong ⟨0, 0, -1⟩ faceP.w + 1 / 4000)
    ∧ (TryMerge envQ faceC faceD = .ok (some faceCD)
      ∧ areaAlong ⟨0, 0, -1⟩ faceCD.w
        = areaAlong ⟨0, 0, -1⟩ faceC.w + areaAlong ⟨0, 0, -1⟩ faceD.w + 9 / 20000)
    ∧ (MergeFaceList envQ [faceP, faceA] = .ok [faceAP]
      ∧ totalArea ⟨0, 0, -1⟩ [faceAP] = totalArea ⟨0, 0, -1⟩ [faceP, faceA] + 1 / 4000) := by
  have hAP : areaAlong ⟨0, 0, -1⟩ faceAP.w
      = areaAlong ⟨0, 0, -1⟩ faceA.w + areaAlong ⟨0, 0, -1⟩ faceP.w + 1 / 4000 := by
    norm_num [areaAlong, cycSum, pathSum, crossAlong, DotProduct, CrossProduct, faceA, faceP,
      faceAP]
  refine ⟨⟨TryMerge_faceA_faceP, hAP⟩, ⟨TryMerge_faceC_faceD, ?_⟩, ?_, ?_⟩
  · norm_num [areaAlong, cycSum, pathSum, crossAlong, DotProduct, CrossProduct, faceA, faceC,
      faceD, faceCD]
  · unfold MergeFaceList
    have h1 : MergeFaceToList envQ faceP [] = .ok [faceP] := by
      unfold MergeFaceToList
      rw [mergeLoop_nil]
      rfl
    have h2 : MergeFaceToList envQ faceA [faceP] = .ok [faceAP] := by
      unfold MergeFaceToList
      rw [mergeLoop_merge envQ faceA faceP faceAP [] [] TryMerge_faceA_faceP]
      simp only [List.append_nil]
      rw [mergeLoop_nil]
      rfl
    rw [List.foldlM_cons, h1]
    show List.foldlM (fun result face => MergeFaceToList envQ face result) [faceP] [faceA]
      = .ok [faceAP]
    rw [List.foldlM_cons, h2]
    rfl
  · simp only [totalArea, List.map_cons, List.map_nil, List.sum_cons, List.sum_nil, add_zero]
    rw [hAP]
    ring

/-- C15 (amended): whenever `TryMerge (f1, f2)` returns a face, the two windings have at least
3 points and the common edge `(i, j)` it found coincides exactly, the polygon area of the
result equals area(f1) + area(f2) minus the area of the triangle cut off at each junction
vertex that is left out (`junctionLoss / 2`, which is zero when the vertex lies on the line
through its neighbours); and for any face list whose faces belong to a set `Good` that is
closed under `TryMerge` with every merge in it conserving the area, the total area of the
faces returned by `MergeFaceList` equals the total area of the input faces.  Areas are seen
along any fixed direction `n`. -/
theorem TryMerge_area_conserved (env : MergeEnv) (n : Vec3) :
    (∀ f1 f2 f i j plane, TryMerge env f1 f2 = .ok (some f) →
      3 ≤ f1.w.length → 3 ≤ f2.w.length →
      findEdge env.EQUAL_EPSILON f1.w f2.w = some (i, j) →
      planeAt env.planes f1.planenum = some plane →
      pt f1.w i = pt f2.w ((j + 1) % f2.w.length) →
      pt f1.w ((i + 1) % f1.w.length) = pt f2.w j →
      areaAlong n f.w
        = areaAlong n f1.w + areaAlong n f2.w - junctionLoss n env plane f1 f2 i j / 2)
    ∧ (∀ (Good : Face → Prop) (L out : List Face),
      (∀ f1 f2 f, Good f1 → Good f2 → TryMerge env f1 f2 = .ok (some f) →
        Good f ∧ areaAlong n f.w = areaAlong n f1.w + areaAlong n f2.w) →
      (∀ f ∈ L, Good f) → MergeFaceList env L = .ok out →
      totalArea n out = totalArea n L) := by
  constructor
  · intro f1 f2 f i j plane h h1 h2 hfe hpl hp1 hp2
    exact TryMerge_area n env f1 f2 f i j plane h h1 h2 hfe hpl hp1 hp2
  · intro Good L out hclosed hL hm
    unfold MergeFaceList at hm
    have := (MergeFaceList_foldl_area env n Good hclosed L [] out hm
      (fun g hg => absurd hg (List.not_mem_nil g)) hL).2
    rw [this]
    simp [totalArea]

theorem junctionLoss_faceA_faceB : junctionLoss ⟨0, 0, -1⟩ envQ planeZ0 faceA faceB 1 0 = 0 := by
  norm_num [junctionLoss, triAlong, crossAlong, DotProduct, CrossProduct, faceA, faceB, pt]

/-- Witness of C15 (amended): `faceA` and `faceB` merge into `faceAB`, both junction vertices
left out and on the line through their neighbours, areas 1 + 1 = 2; and, with `MAXEDGES = 6`,
the list of the two halves of `faceA`, within the set `halfFaces`, is merged into `faceA`. -/
theorem TryMerge_area_conserved_witness :
    (TryMerge envQ faceA faceB = .ok (some faceAB)
      ∧ findEdge envQ.EQUAL_EPSILON faceA.w faceB.w = some (1, 0)
      ∧ planeAt envQ.planes faceA.planenum = some planeZ0
      ∧ junctionLoss ⟨0, 0, -1⟩ envQ planeZ0 faceA faceB 1 0 = 0
      ∧ areaAlong ⟨0, 0, -1⟩ faceAB.w
        = areaAlong ⟨0, 0, -1⟩ faceA.w + areaAlong ⟨0, 0, -1⟩ faceB.w
          - junctionLoss ⟨0, 0, -1⟩ envQ planeZ0 faceA faceB 1 0 / 2)
    ∧ (MergeFaceList envSix [faceLower, faceUpper] = .ok [faceA]
      ∧ totalArea ⟨0, 0, -1⟩ [faceA] = totalArea ⟨0, 0, -1⟩ [faceLower, faceUpper]) :=
  ⟨⟨TryMerge_faceA_faceB, findEdge_faceA_faceB, rfl, junctionLoss_faceA_faceB,
    (TryMerge_area_conserved envQ ⟨0, 0, -1⟩).1 faceA faceB faceAB 1 0 planeZ0
      TryMerge_faceA_faceB (by decide) (by decide) findEdge_faceA_faceB rfl rfl rfl⟩,
   MergeFaceList_halves,
   (TryMerge_area_conserved envSix ⟨0, 0, -1⟩).2 (fun f => f ∈ halfFaces)
     [faceLower, faceUpper] [faceA] halfFaces_closed (by simp [halfFaces])
     MergeFaceList_halves⟩

/-! ## TryMerge and the plane index of the second face -/

theorem TryMerge_planenum_irrelevant (env : MergeEnv) (f1 f2 : Face) (k : Int) :
    TryMerge env f1 { f2 with planenum := k } = TryMerge env f1 f2 := rfl

theorem TryMerge_squareX_squareYp : TryMerge envXY squareX squareYp = .ok (some diagonal) :=
  TryMerge_squares_eval envXY squareX squareYp planeX1 rfl rfl rfl rfl rfl rfl
    (by norm_num [envXY, envQ]) (by norm_num [envXY, envQ]) (by norm_num [envXY, envQ])
    (by decide) (by decide) rfl normalizeQ_scales

theorem squares_in_their_planes :
    InPlane planeX1 squareX.w ∧ InPlane planeY0 squareYp.w
    ∧ ¬ InPlane planeX1 squareYp.w ∧ ¬ InPlane planeY0 squareX.w := by
  refine ⟨?_, ?_, ?_, ?_⟩
  · intro p hp
    simp only [squareX, squareXw, List.mem_cons, List.mem_singleton, List.not_mem_nil,
      or_false] at hp
    rcases hp with rfl | rfl | rfl | rfl <;> norm_num [planeDist, DotProduct, planeX1]
  · intro p hp
    simp only [squareYp, squareY, squareYw, List.mem_cons, List.mem_singleton,
      List.not_mem_nil, or_false] at hp
    rcases hp with rfl | rfl | rfl | rfl <;> norm_num [planeDist, DotProduct, planeY0]
  · intro h
    have := h ⟨0, 0, 0⟩ (by simp [squareYp, squareY, squareYw])
    norm_num [planeDist, DotProduct, planeX1] at this
  · intro h
    have := h ⟨1, 1, 0⟩ (by simp [squareX, squareXw])
    norm_num [planeDist, DotProduct, planeY0] at this

/-- C27: the result of `TryMerge` does not depend on the plane index of `f2`: replacing the
plane index of `f2` by any other value leaves `TryMerge (f1, f2)` unchanged.  The plane
indices are never compared and only the plane of `f1` is read, so faces lying in different
planes can be merged: the square in the plane `x = 1` (plane index 0) and the square in the
plane `y = 0` (plane index 1), neither lying in the plane of the other, merge into one face
that carries the plane index of the first. -/
theorem TryMerge_ignores_second_plane_index :
    (∀ (env : MergeEnv) (f1 f2 : Face) (k : Int),
      TryMerge env f1 { f2 with planenum := k } = TryMerge env f1 f2)
    ∧ squareX.planenum ≠ squareYp.planenum
    ∧ planeAt envXY.planes squareX.planenum = some planeX1
    ∧ planeAt envXY.planes squareYp.planenum = some planeY0
    ∧ InPlane planeX1 squareX.w ∧ InPlane planeY0 squareYp.w
    ∧ ¬ InPlane planeX1 squareYp.w ∧ ¬ InPlane planeY0 squareX.w
    ∧ ∃ f, TryMerge envXY squareX squareYp = .ok (some f)
        ∧ f.planenum = squareX.planenum :=
  ⟨TryMerge_planenum_irrelevant, by decide, rfl, rfl, squares_in_their_planes.1,
    squares_in_their_planes.2.1, squares_in_their_planes.2.2.1, squares_in_their_planes.2.2.2,
    diagonal, TryMerge_squareX_squareYp, rfl⟩

/-! ## DivideWinding on a winding lying in the plane -/

theorem sideOf_on_of_abs_le (ε d : ℚ) (h : |d| ≤ ε) : sideOf ε d = SIDE_ON := by
  have h1 := (abs_le.1 h).1
  have h2 := (abs_le.1 h).2
  unfold sideOf
  rw [if_neg (not_lt.2 h2), if_neg (not_lt.2 h1)]

theorem DivideWinding_of_all_on (ε : ℚ) (w : Winding) (split : Plane)
    (h : ∀ p ∈ w, |planeDist split p| ≤ ε) :
    DivideWinding ε w split = .ok (none, some w) := by
  unfold DivideWinding
  rw [if_pos ((counts_eq_zero_iff ..).2 (fun p hp => by
    rw [sideOf_on_of_abs_le ε _ (h p hp)]; decide))]

theorem DivideWinding_outputs (ε : ℚ) (w : Winding) (split : Plane) :
    DivideWinding ε w split = .ok (none, some w)
    ∨ DivideWinding ε w split = .ok (some w, none)
    ∨ DivideWinding ε w split
        = .ok (some (divideBuildFront ε split w), some (divideBuildBack ε split w))
    ∨ (DivideWinding ε w split = .error Fatal.errLowPointCount
        ∧ (w.length + 4 < (divideBuildFront ε split w).length
            ∨ w.length + 4 < (divideBuildBack ε split w).length)) := by
  unfold DivideWinding
  by_cases h1 : counts ε split w SIDE_FRONT = 0
  · rw [if_pos h1]
    exact Or.inl rfl
  · rw [if_neg h1]
    by_cases h2 : counts ε split w SIDE_BACK = 0
    · rw [if_pos h2]
      exact Or.inr (Or.inl rfl)
    · rw [if_neg h2]
      simp only []
      by_cases h3 : (divideBuildFront ε split w).length > w.length + 4
          ∨ (divideBuildBack ε split w).length > w.length + 4
      · rw [if_pos h3]
        exact Or.inr (Or.inr (Or.inr ⟨rfl, h3⟩))
      · rw [if_neg h3]
        exact Or.inr (Or.inr (Or.inl rfl))

/-- C26: a winding all of whose vertices are within `ON_EPSILON` of the plane is treated by
`DivideWinding` as lying on the back side: the back output is the input winding unchanged and
the front output is empty.  For every input the two outputs are never both empty: the result
is the input as back output, the input as front output, or the two built windings (which the
source has stored in both outputs also when it then signals the point-count error). -/
theorem DivideWinding_on_plane_goes_back (ε : ℚ) (w : Winding) (split : Plane) :
    ((∀ p ∈ w, |planeDist split p| ≤ ε) → DivideWinding ε w split = .ok (none, some w))
    ∧ (DivideWinding ε w split = .ok (none, some w)
        ∨ DivideWinding ε w split = .ok (some w, none)
        ∨ DivideWinding ε w split
            = .ok (some (divideBuildFront ε split w), some (divideBuildBack ε split w))
        ∨ (DivideWinding ε w split = .error Fatal.errLowPointCount
            ∧ (w.length + 4 < (divideBuildFront ε split w).length
                ∨ w.length + 4 < (divideBuildBack ε split w).length)))
    ∧ (∀ f b, DivideWinding ε w split = .ok (f, b) → f ≠ none ∨ b ≠ none) := by
  refine ⟨DivideWinding_of_all_on ε w split, DivideWinding_outputs ε w split, ?_⟩
  intro f b h
  rcases DivideWinding_outputs ε w split with h1 | h1 | h1 | h1
  · rw [h1] at h
    simp only [Except.ok.injEq, Prod.mk.injEq] at h
    exact Or.inr (by rw [← h.2]; simp)
  · rw [h1] at h
    simp only [Except.ok.injEq, Prod.mk.injEq] at h
    exact Or.inl (by rw [← h.1]; simp)
  · rw [h1] at h
    simp only [Except.ok.injEq, Prod.mk.injEq] at h
    exact Or.inl (by rw [← h.1]; simp)
  · rw [h1.1] at h
    simp at h

theorem triangleZ0_within (p : Vec3) (hp : p ∈ triangleZ0) :
    |planeDist planeZ0 p| ≤ 1 / 10 := by
  simp only [triangleZ0, List.mem_cons, List.mem_singleton, List.not_mem_nil, or_false] at hp
  rcases hp with rfl | rfl | rfl <;> norm_num [planeDist, DotProduct, planeZ0]

/-- Witness of C26: the triangle lying in the plane `z = 0` goes to the back output, and the
square cut by `x = 1/2` gives two windings. -/
theorem DivideWinding_on_plane_goes_back_witness :
    (∀ p ∈ triangleZ0, |planeDist planeZ0 p| ≤ 1 / 10)
    ∧ DivideWinding (1 / 10) triangleZ0 planeZ0 = .ok (none, some triangleZ0)
    ∧ (some squareFrontHalf ≠ none ∨ some squareBackHalf ≠ none) :=
  ⟨triangleZ0_within,
   (DivideWinding_on_plane_goes_back (1 / 10) triangleZ0 planeZ0).1 triangleZ0_within,
   (DivideWinding_on_plane_goes_back (1 / 10) squareZ0 planeXHalf).2.2 _ _
     DivideWinding_squareZ0⟩

/-! ## Termination of MergeFaceToList and MergeFaceList -/

theorem mergeStep_cases (env : MergeEnv) (s s1 : MergeIter)
    (h : mergeStep env s = .ok (some s1)) :
    (s1.restarts = s.restarts + 1 ∧ s1.done = []
      ∧ s1.rest.length + 1 = s.done.length + s.rest.length)
    ∨ (s1.restarts = s.restarts ∧ s1.face = s.face ∧ s1.rest.length + 1 = s.rest.length
      ∧ s1.done.length + s1.rest.length = s.done.length + s.rest.length) := by
  unfold mergeStep at h
  rcases hr : s.rest with _ | ⟨g, rest1⟩
  · rw [hr] at h
    simp at h
  · rw [hr] at h
    simp only [] at h
    rcases ht : TryMerge env s.face g with e | (_ | newf)
    · rw [ht] at h
      simp at h
    · rw [ht] at h
      simp only [Except.ok.injEq, Option.some.injEq] at h
      subst h
      right
      simp
      omega
    · rw [ht] at h
      simp only [Except.ok.injEq, Option.some.injEq] at h
      subst h
      left
      simp
      omega

theorem mergeRun_eq (env : MergeEnv) : ∀ (fuel : Nat) (face : Face) (done rest : List Face)
    (r : Nat), rest.length + 1 + (done.length + rest.length) ^ 2 ≤ fuel →
    ∃ k, k ≤ done.length + rest.length
      ∧ mergeRun env fuel ⟨face, done, rest, r⟩ = some (mergeLoop env face done rest, r + k)
      ∧ ∀ out, mergeLoop env face done rest = .ok out →
          out.length + k = done.length + rest.length + 1 := by
  intro fuel
  induction fuel with
  | zero =>
    intro face done rest r h
    omega
  | succ fuel ih =>
    intro face done rest r h
    cases rest with
    | nil =>
      refine ⟨0, Nat.zero_le _, ?_, ?_⟩
      · simp [mergeRun, mergeStep, mergeLoop_nil]
      · intro out hout
        rw [mergeLoop_nil] at hout
        simp only [Except.ok.injEq] at hout
        subst hout
        simp
    | cons g rest1 =>
      simp only [List.length_cons] at h ⊢
      rcases ht : TryMerge env face g with e | (_ | newf)
      · refine ⟨0, Nat.zero_le _, ?_, ?_⟩
        · simp [mergeRun, mergeStep, ht, mergeLoop_error env face g done rest1 e ht]
        · intro out hout
          rw [mergeLoop_error env face g done rest1 e ht] at hout
          simp at hout
      · have e1 : (done ++ [g]).length + rest1.length = done.length + (rest1.length + 1) := by
          simp only [List.length_append, List.length_singleton]
          omega
        obtain ⟨k, hk, hrun, hlen⟩ := ih face (done ++ [g]) rest1 r (by rw [e1]; omega)
        rw [e1] at hk hlen
        refine ⟨k, hk, ?_, ?_⟩
        · rw [mergeLoop_skip env face g done rest1 ht, ← hrun]
          simp [mergeRun, mergeStep, ht]
        · intro out hout
          rw [mergeLoop_skip env face g done rest1 ht] at hout
          exact hlen out hout
      · have e1 : ([] : List Face).length + (done ++ rest1).length
            = done.length + rest1.length := by
          simp
        have e2 : (done.length + (rest1.length + 1)) ^ 2
            = (done.length + rest1.length) ^ 2 + 2 * (done.length + rest1.length) + 1 := by
          ring
        have e3 : (done ++ rest1).length = done.length + rest1.length := by simp
        obtain ⟨k, hk, hrun, hlen⟩ := ih newf [] (done ++ rest1) (r + 1)
          (by rw [e1, e3]; omega)
        rw [e1] at hk hlen
        refine ⟨k + 1, by omega, ?_, ?_⟩
        · rw [mergeLoop_merge env face g newf done rest1 ht]
          have e4 : r + (k + 1) = r + 1 + k := by omega
          rw [e4, ← hrun]
          simp [mergeRun, mergeStep, ht]
        · intro out hout
          rw [mergeLoop_merge env face g newf done rest1 ht] at hout
          have := hlen out hout
          omega

theorem mergeListRun_eq (env : MergeEnv) (fuel : Nat) : ∀ (input result : List Face),
    (result.length + input.length + 1) ^ 2 ≤ fuel →
    mergeListRun env fuel input result
      = some (input.foldlM (fun result face => MergeFaceToList env face result) result) := by
  intro input
  induction input with
  | nil =>
    intro result _
    rfl
  | cons face input ih =>
    intro result h
    simp only [List.length_cons] at h
    have e1 : (result.length + (input.length + 1) + 1) ^ 2
        = result.length + 1 + (0 + result.length) ^ 2 + (result.length
          + 2 * (result.length + 1) * (input.length + 1) + (input.length + 1) ^ 2) := by
      ring
    obtain ⟨k, hk, hrun, hlen⟩ := mergeRun_eq env fuel face [] result 0
      (by simp only [List.length_nil]; omega)
    simp only [mergeListRun, hrun, List.foldlM_cons, MergeFaceToList]
    rcases hm : mergeLoop env face [] result with e | result1
    · rfl
    · have h1 := hlen result1 hm
      simp only [List.length_nil] at h1
      have h2 : result1.length + input.length + 1 ≤ result.length + (input.length + 1) + 1 := by
        omega
      exact ih result1 (le_trans (Nat.pow_le_pow_left h2 2) h)

/-- C24: `MergeFaceToList` terminates for every face and every list: run one iteration at a
time, its loop ends within `(n + 1)^2` tests of the loop condition for a list of `n`
elements, with the outcome of `MergeFaceToList` (the updated list or the fatal error of the
plane lookup) after at most `n` restarts, and every restart has taken one element from the
list: a returned list has `n + 1 - restarts` elements.  An iteration that does not end the
loop is either a restart from the front after a merge, the list one element shorter, or an
advance of the iterator over an unchanged list.  Consequently `MergeFaceList` terminates for
every input list: with `(m + 1)^2` tests allowed to each call, for `m` input faces, its loop
ends with the outcome of `MergeFaceList`. -/
theorem MergeFaceToList_terminates (env : MergeEnv) (face : Face) (list input : List Face)
    (s s1 : MergeIter) :
    (∀ fuel, (list.length + 1) ^ 2 ≤ fuel →
      ∃ k, k ≤ list.length
        ∧ mergeRun env fuel ⟨face, [], list, 0⟩ = some (MergeFaceToList env face list, k)
        ∧ ∀ out, MergeFaceToList env face list = .ok out →
            out.length + k = list.length + 1)
    ∧ (mergeStep env s = .ok (some s1) →
        (s1.restarts = s.restarts + 1 ∧ s1.done = []
          ∧ s1.rest.length + 1 = s.done.length + s.rest.length)
        ∨ (s1.restarts = s.restarts ∧ s1.face = s.face ∧ s1.rest.length + 1 = s.rest.length
          ∧ s1.done.length + s1.rest.length = s.done.length + s.rest.length))
    ∧ (∀ fuel, (input.length + 1) ^ 2 ≤ fuel →
        mergeListRun env fuel input [] = some (MergeFaceList env input)) := by
  refine ⟨?_, mergeStep_cases env s s1, ?_⟩
  · intro fuel h
    have e1 : (list.length + 1) ^ 2 = list.length + 1 + (0 + list.length) ^ 2 + list.length := by
      ring
    obtain ⟨k, hk, hrun, hlen⟩ := mergeRun_eq env fuel face [] list 0
      (by simp only [List.length_nil]; omega)
    simp only [List.length_nil, Nat.zero_add] at hk hrun hlen
    exact ⟨k, hk, hrun, hlen⟩
  · intro fuel h
    exact mergeListRun_eq env fuel input [] (by simpa using h)

theorem mergeStep_sample :
    mergeStep envQ ⟨faceA, [], [faceBtex, faceB], 0⟩
      = .ok (some ⟨faceA, [faceBtex], [faceB], 0⟩) := by
  have h : TryMerge envQ faceA faceBtex = .ok none :=
    TryMerge_of_texinfo_ne envQ faceA faceBtex (by decide)
  simp [mergeStep, h]

/-- Witness of C24: merging `faceA` into the list `faceBtex, faceB` ends within 9 tests of the
loop condition after exactly one restart, with the list `faceBtex, faceAB`; its first
iteration advances the iterator over `faceBtex`; and `MergeFaceList` on the two triangle
halves of `faceA` ends within 9 tests for each call. -/
theorem MergeFaceToList_terminates_witness :
    (([faceBtex, faceB] : List Face).length + 1) ^ 2 ≤ 9
    ∧ mergeRun envQ 9 ⟨faceA, [], [faceBtex, faceB], 0⟩ = some (.ok [faceBtex, faceAB], 1)
    ∧ mergeStep envQ ⟨faceA, [], [faceBtex, faceB], 0⟩
        = .ok (some ⟨faceA, [faceBtex], [faceB], 0⟩)
    ∧ mergeListRun envSix 9 [faceLower, faceUpper] [] = some (.ok [faceA]) := by
  have h := MergeFaceToList_terminates envQ faceA [faceBtex, faceB] [faceLower, faceUpper]
    ⟨faceA, [], [faceBtex, faceB], 0⟩ ⟨faceA, [faceBtex], [faceB], 0⟩
  obtain ⟨k, _, hrun, hlen⟩ := h.1 9 (by decide)
  have hk := hlen _ MergeFaceToList_sample
  simp only [List.length_cons, List.length_nil] at hk
  have hk1 : k = 1 := by omega
  subst hk1
  rw [MergeFaceToList_sample] at hrun
  refine ⟨by decide, hrun, mergeStep_sample, ?_⟩
  have h2 := (MergeFaceToList_terminates envSix faceA [] [faceLower, faceUpper]
    ⟨faceA, [], [], 0⟩ ⟨faceA, [], [], 0⟩).2.2 9 (by decide)
  rw [MergeFaceList_halves] at h2
  exact h2

/-! ## Split points are exact intersections -/

theorem distSlot_eq (split : Plane) (w : Winding) (i : Nat) (hi : i < w.length) :
    distSlot split w i = planeDist split (pt w i)
    ∧ distSlot split w (i + 1) = planeDist split (pt w ((i + 1) % w.length)) := by
  have h0 : 0 < w.length := by omega
  unfold distSlot
  rw [distsOf_getD split w i h0 (by omega), distsOf_getD split w (i + 1) h0 (by omega),
    Nat.mod_eq_of_lt hi]
  exact ⟨rfl, rfl⟩

theorem sideSlot_eq (ε : ℚ) (split : Plane) (w : Winding) (i : Nat) (hi : i < w.length) :
    sideSlot ε split w i = sideOf ε (planeDist split (pt w i))
    ∧ sideSlot ε split w (i + 1) = sideOf ε (planeDist split (pt w ((i + 1) % w.length))) := by
  have h0 : 0 < w.length := by omega
  unfold sideSlot
  rw [sidesOf_getD ε split w i h0 (by omega), sidesOf_getD ε split w (i + 1) h0 (by omega),
    Nat.mod_eq_of_lt hi]
  exact ⟨rfl, rfl⟩

theorem sideOf_opposite (ε d1 d2 : ℚ) (h1 : sideOf ε d1 ≠ SIDE_ON)
    (h2 : sideOf ε d2 ≠ SIDE_ON) (h3 : sideOf ε d2 ≠ sideOf ε d1) :
    (ε < d1 ∧ d2 < -ε) ∨ (d1 < -ε ∧ ε < d2) := by
  unfold sideOf at h1 h2 h3
  by_cases a1 : d1 > ε
  · rw [if_pos a1] at h3
    by_cases a2 : d2 > ε
    · rw [if_pos a2] at h3
      exact absurd rfl h3
    · rw [if_neg a2] at h2 h3
      by_cases b2 : d2 < -ε
      · exact Or.inl ⟨a1, b2⟩
      · rw [if_neg b2] at h2
        exact absurd rfl h2
  · rw [if_neg a1] at h1 h3
    by_cases b1 : d1 < -ε
    · rw [if_pos b1] at h3
      by_cases a2 : d2 > ε
      · exact Or.inr ⟨b1, a2⟩
      · rw [if_neg a2] at h2 h3
        by_cases b2 : d2 < -ε
        · rw [if_pos b2] at h3
          exact absurd rfl h3
        · rw [if_neg b2] at h2
          exact absurd rfl h2
    · rw [if_neg b1] at h1
      exact absurd rfl h1

theorem splitFactor_bounds (d1 d2 : ℚ) (h : (0 < d1 ∧ d2 < 0) ∨ (d1 < 0 ∧ 0 < d2)) :
    d1 - d2 ≠ 0 ∧ 0 < d1 / (d1 - d2) ∧ d1 / (d1 - d2) < 1 := by
  rcases h with ⟨a, b⟩ | ⟨a, b⟩
  · have hp : 0 < d1 - d2 := by linarith
    refine ⟨ne_of_gt hp, div_pos a hp, ?_⟩
    rw [div_lt_one hp]
    linarith
  · have hn : d1 - d2 < 0 := by linarith
    refine ⟨ne_of_lt hn, div_pos_of_neg_of_neg a hn, ?_⟩
    rw [div_lt_one_of_neg hn]
    linarith

theorem midCoord_snap (nj dist p1j p2j dot : ℚ) :
    (nj = 1 → midCoord nj dist p1j p2j dot = dist)
    ∧ (nj = -1 → midCoord nj dist p1j p2j dot = -dist) := by
  constructor
  · intro h
    unfold midCoord
    rw [if_pos h]
  · intro h
    have h1 : ¬ nj = 1 := by rw [h]; norm_num
    unfold midCoord
    rw [if_neg h1, if_pos h]

theorem step_of_generatesSplit (ε : ℚ) (split : Plane) (w : Winding) (i : Nat)
    (hg : GeneratesSplit ε split w i) :
    clipStep split w (sidesOf ε split w) (distsOf split w) i
      = (if sideSlot ε split w i = SIDE_FRONT then [pt w i] else []) ++ [midOf split w i]
    ∧ divideStepFront split w (sidesOf ε split w) (distsOf split w) i
      = (if sideSlot ε split w i = SIDE_FRONT then [pt w i] else []) ++ [midOf split w i]
    ∧ divideStepBack split w (sidesOf ε split w) (distsOf split w) i
      = (if sideSlot ε split w i = SIDE_BACK then [pt w i] else []) ++ [midOf split w i] := by
  obtain ⟨_, h1, h2⟩ := hg
  unfold sideSlot at h1 h2
  refine ⟨?_, ?_, ?_⟩
  · unfold clipStep
    simp only []
    rw [if_neg h1, if_neg h2]
    rfl
  · unfold divideStepFront
    simp only []
    rw [if_neg h1, if_neg h2]
    rfl
  · unfold divideStepBack
    simp only []
    rw [if_neg h1, if_neg h2]
    rfl

theorem step_without_split (ε : ℚ) (split : Plane) (w : Winding) (i : Nat)
    (hg : ¬ GeneratesSplit ε split w i) (hi : i < w.length) :
    (∀ v ∈ clipStep split w (sidesOf ε split w) (distsOf split w) i, v = pt w i)
    ∧ (∀ v ∈ divideStepFront split w (sidesOf ε split w) (distsOf split w) i, v = pt w i)
    ∧ (∀ v ∈ divideStepBack split w (sidesOf ε split w) (distsOf split w) i, v = pt w i) := by
  unfold GeneratesSplit sideSlot at hg
  have hc : (sidesOf ε split w).getD i SIDE_ON = SIDE_ON
      ∨ ((sidesOf ε split w).getD i SIDE_ON ≠ SIDE_ON
        ∧ ((sidesOf ε split w).getD (i + 1) SIDE_ON = SIDE_ON
          ∨ (sidesOf ε split w).getD (i + 1) SIDE_ON = (sidesOf ε split w).getD i SIDE_ON)) := by
    by_cases h1 : (sidesOf ε split w).getD i SIDE_ON = SIDE_ON
    · exact Or.inl h1
    · right
      refine ⟨h1, ?_⟩
      by_contra h2
      exact hg ⟨hi, h1, h2⟩
  refine ⟨?_, ?_, ?_⟩
  · intro v hv
    unfold clipStep at hv
    simp only [] at hv
    rcases hc with h1 | ⟨h1, h2⟩
    · rw [if_pos h1] at hv
      simpa using hv
    · rw [if_neg h1, if_pos h2] at hv
      split_ifs at hv <;> simp at hv
      exact hv
  · intro v hv
    unfold divideStepFront at hv
    simp only [] at hv
    rcases hc with h1 | ⟨h1, h2⟩
    · rw [if_pos h1] at hv
      simpa using hv
    · rw [if_neg h1, if_pos h2] at hv
      split_ifs at hv <;> simp at hv
      exact hv
  · intro v hv
    unfold divideStepBack at hv
    simp only [] at hv
    rcases hc with h1 | ⟨h1, h2⟩
    · rw [if_pos h1] at hv
      simpa using hv
    · rw [if_neg h1, if_pos h2] at hv
      split_ifs at hv <;> simp at hv
      exact hv

theorem generatesSplit_opposite (ε : ℚ) (split : Plane) (w : Winding) (i : Nat)
    (hg : GeneratesSplit ε split w i) :
    (ε < distSlot split w i ∧ distSlot split w (i + 1) < -ε)
    ∨ (distSlot split w i < -ε ∧ ε < distSlot split w (i + 1)) := by
  obtain ⟨hi, h1, h2⟩ := hg
  rw [(sideSlot_eq ε split w i hi).1] at h1
  rw [(sideSlot_eq ε split w i hi).1, (sideSlot_eq ε split w i hi).2] at h2
  rw [(distSlot_eq split w i hi).1, (distSlot_eq split w i hi).2]
  exact sideOf_opposite ε _ _ h1 (fun h => h2 (Or.inl h)) (fun h => h2 (Or.inr h))

theorem midOf_exact (split : Plane) (w : Winding) (i : Nat) (hi : i < w.length)
    (hd : distSlot split w i - distSlot split w (i + 1) ≠ 0)
    (hu : DotProduct split.normal split.normal = 1) :
    midOf split w i
      = ⟨(pt w i).x + splitFactor split w i * ((pt w ((i + 1) % w.length)).x - (pt w i).x),
         (pt w i).y + splitFactor split w i * ((pt w ((i + 1) % w.length)).y - (pt w i).y),
         (pt w i).z + splitFactor split w i * ((pt w ((i + 1) % w.length)).z - (pt w i).z)⟩
    ∧ planeDist split (midOf split w i) = 0 := by
  unfold midOf splitFactor
  rw [(distSlot_eq split w i hi).1, (distSlot_eq split w i hi).2] at hd ⊢
  have hne : planeDist split (pt w i) ≠ planeDist split (pt w ((i + 1) % w.length)) :=
    fun h => hd (by rw [h]; ring)
  exact ⟨splitPoint_lerp split _ _ hu hne, planeDist_splitPoint split _ _ hu hne⟩

/-- C21: every split point generated by `ClipWinding` or `DivideWinding` is the exact
intersection of the edge with the plane.  With a tolerance `ON_EPSILON >= 0`, when iteration
`i` generates a split point (it is then the last point the iteration gives to the winding of
`ClipWinding` and to both windings of `DivideWinding`), the distances `d_i`, `d_(i+1)` of the
vertices `p_i`, `p_(i+1)` (indices cyclic) are strictly on opposite sides of the plane, so
`d_i - d_(i+1)` is not zero and `t = d_i / (d_i - d_(i+1))` satisfies `0 < t < 1`; and for a
unit plane normal the point equals `p_i + t (p_(i+1) - p_i)` and has signed distance exactly
`0`, also when a coordinate is snapped to `dist` (normal component `1`) or to `-dist`
(normal component `-1`). -/
theorem split_point_exact (ε : ℚ) (split : Plane) (w : Winding) (i : Nat)
    (hε : 0 ≤ ε) (hg : GeneratesSplit ε split w i) :
    clipStep split w (sidesOf ε split w) (distsOf split w) i
      = (if sideSlot ε split w i = SIDE_FRONT then [pt w i] else []) ++ [midOf split w i]
    ∧ divideStepFront split w (sidesOf ε split w) (distsOf split w) i
      = (if sideSlot ε split w i = SIDE_FRONT then [pt w i] else []) ++ [midOf split w i]
    ∧ divideStepBack split w (sidesOf ε split w) (distsOf split w) i
      = (if sideSlot ε split w i = SIDE_BACK then [pt w i] else []) ++ [midOf split w i]
    ∧ distSlot split w i = planeDist split (pt w i)
    ∧ distSlot split w (i + 1) = planeDist split (pt w ((i + 1) % w.length))
    ∧ ((0 < distSlot split w i ∧ distSlot split w (i + 1) < 0)
        ∨ (distSlot split w i < 0 ∧ 0 < distSlot split w (i + 1)))
    ∧ distSlot split w i - distSlot split w (i + 1) ≠ 0
    ∧ 0 < splitFactor split w i ∧ splitFactor split w i < 1
    ∧ (DotProduct split.normal split.normal = 1 →
        midOf split w i
          = ⟨(pt w i).x + splitFactor split w i * ((pt w ((i + 1) % w.length)).x - (pt w i).x),
             (pt w i).y + splitFactor split w i * ((pt w ((i + 1) % w.length)).y - (pt w i).y),
             (pt w i).z + splitFactor split w i * ((pt w ((i + 1) % w.length)).z - (pt w i).z)⟩
        ∧ planeDist split (midOf split w i) = 0
        ∧ (split.normal.x = 1 → (midOf split w i).x = split.dist)
        ∧ (split.normal.x = -1 → (midOf split w i).x = -split.dist)
        ∧ (split.normal.y = 1 → (midOf split w i).y = split.dist)
        ∧ (split.normal.y = -1 → (midOf split w i).y = -split.dist)
        ∧ (split.normal.z = 1 → (midOf split w i).z = split.dist)
        ∧ (split.normal.z = -1 → (midOf split w i).z = -split.dist)) := by
  have hi := hg.1
  have hs := step_of_generatesSplit ε split w i hg
  have hopp : (0 < distSlot split w i ∧ distSlot split w (i + 1) < 0)
      ∨ (distSlot split w i < 0 ∧ 0 < distSlot split w (i + 1)) := by
    rcases generatesSplit_opposite ε split w i hg with ⟨a, b⟩ | ⟨a, b⟩
    · exact Or.inl ⟨by linarith, by linarith⟩
    · exact Or.inr ⟨by linarith, by linarith⟩
  have hb := splitFactor_bounds _ _ hopp
  refine ⟨hs.1, hs.2.1, hs.2.2, (distSlot_eq split w i hi).1, (distSlot_eq split w i hi).2,
    hopp, hb.1, hb.2.1, hb.2.2, ?_⟩
  intro hu
  have hm := midOf_exact split w i hi hb.1 hu
  exact ⟨hm.1, hm.2, (midCoord_snap ..).1, (midCoord_snap ..).2, (midCoord_snap ..).1,
    (midCoord_snap ..).2, (midCoord_snap ..).1, (midCoord_snap ..).2⟩

theorem generatesSplit_squareZ0 : GeneratesSplit (1 / 10) planeXHalf squareZ0 0 := by
  refine ⟨by decide, ?_, ?_⟩
  · rw [(sideSlot_eq (1 / 10) planeXHalf squareZ0 0 (by decide)).1]
    norm_num [sideOf, planeDist, DotProduct, pt, squareZ0, planeXHalf]
    decide
  · rw [(sideSlot_eq (1 / 10) planeXHalf squareZ0 0 (by decide)).1,
      (sideSlot_eq (1 / 10) planeXHalf squareZ0 0 (by decide)).2]
    norm_num [sideOf, planeDist, DotProduct, pt, squareZ0, planeXHalf]
    decide

/-- Witness of C21: the first edge of the unit square, from `(0,0,0)` to `(1,0,0)`, crosses
the plane `x = 1/2`; the split point `(1/2, 0, 0)` lies in the plane, its `x` coordinate
snapped to `dist`. -/
theorem split_point_exact_witness :
    (0 : ℚ) ≤ 1 / 10 ∧ GeneratesSplit (1 / 10) planeXHalf squareZ0 0
    ∧ DotProduct planeXHalf.normal planeXHalf.normal = 1
    ∧ planeXHalf.normal.x = 1
    ∧ planeDist planeXHalf (midOf planeXHalf squareZ0 0) = 0
    ∧ (midOf planeXHalf squareZ0 0).x = planeXHalf.dist
    ∧ 0 < splitFactor planeXHalf squareZ0 0 ∧ splitFactor planeXHalf squareZ0 0 < 1 := by
  have h := split_point_exact (1 / 10) planeXHalf squareZ0 0 (by norm_num)
    generatesSplit_squareZ0
  have hu : DotProduct planeXHalf.normal planeXHalf.normal = 1 := by
    norm_num [DotProduct, planeXHalf]
  have hx : planeXHalf.normal.x = 1 := rfl
  obtain ⟨_, _, _, _, _, _, _, h8, h9, h10⟩ := h
  exact ⟨by norm_num, generatesSplit_squareZ0, hu, hx, (h10 hu).2.1, (h10 hu).2.2.1 hx, h8, h9⟩

/-! ## The convexity tests of TryMerge -/

theorem compatible_of_findEdge (env : MergeEnv) (f1 f2 : Face) (i j : Nat)
    (hside : f1.planeside = f2.planeside) (htex : f1.texinfo = f2.texinfo)
    (hcont : f1.contents = f2.contents) (hlm : f1.lmshift = f2.lmshift)
    (he : findEdge env.EQUAL_EPSILON f1.w f2.w = some (i, j)) :
    ¬ (f1.w.length = 0 ∨ f2.w.length = 0 ∨ f1.planeside ≠ f2.planeside
      ∨ f1.texinfo ≠ f2.texinfo ∨ f1.contents ≠ f2.contents ∨ f1.lmshift ≠ f2.lmshift) := by
  obtain ⟨hi, hj, _⟩ := (findEdge_eq_some env.EQUAL_EPSILON f1.w f2.w i j).1 he
  rintro (h | h | h | h | h | h)
  · omega
  · omega
  · exact h hside
  · exact h htex
  · exact h hcont
  · exact h hlm

/-- C22: for merge-compatible faces `f1`, `f2` (same plane side, material, contents and
lightmap shift) with at most `MAXEDGES` points in total, whose first matching edge pair is
`(i, j)`, and with the plane of `f1` in the plane table, let `N` be the normal of that plane,
negated when `planeside` is set.  The two tested values are
`dot1 = dot (f2[j+2] - f1[i], normalize (N x (f1[i] - f1[i-1])))` and
`dot2 = dot (f2[j-1] - f1[i+1], normalize (N x (f1[i+2] - f1[i+1])))` (indices cyclic);
`TryMerge` returns a face if and only if `dot1 <= CONTINUOUS_EPSILON` and
`dot2 <= CONTINUOUS_EPSILON`; a value above the tolerance at either end rejects the merge
with the result none, never an error; and the winding of a returned face is built with the
keep flags `keep1 = (dot1 < -CONTINUOUS_EPSILON)`, `keep2 = (dot2 < -CONTINUOUS_EPSILON)`. -/
theorem TryMerge_convexity_tests (env : MergeEnv) (f1 f2 : Face) (i j : Nat) (plane : Plane)
    (hside : f1.planeside = f2.planeside) (htex : f1.texinfo = f2.texinfo)
    (hcont : f1.contents = f2.contents) (hlm : f1.lmshift = f2.lmshift)
    (hmax : f1.w.length + f2.w.length ≤ env.MAXEDGES)
    (he : findEdge env.EQUAL_EPSILON f1.w f2.w = some (i, j))
    (hp : planeAt env.planes f1.planenum = some plane) :
    dot1 env (mergeNormal plane f1.planeside) f1.w f2.w i j
      = DotProduct (VectorSubtract (pt f2.w ((j + 2) % f2.w.length)) (pt f1.w i))
          (env.normalize (CrossProduct (mergeNormal plane f1.planeside)
            (VectorSubtract (pt f1.w i) (pt f1.w ((i + f1.w.length - 1) % f1.w.length)))))
    ∧ dot2 env (mergeNormal plane f1.planeside) f1.w f2.w i j
      = DotProduct (VectorSubtract (pt f2.w ((j + f2.w.length - 1) % f2.w.length))
            (pt f1.w ((i + 1) % f1.w.length)))
          (env.normalize (CrossProduct (mergeNormal plane f1.planeside)
            (VectorSubtract (pt f1.w ((i + 2) % f1.w.length))
              (pt f1.w ((i + 1) % f1.w.length)))))
    ∧ mergeNormal plane f1.planeside
        = (if f1.planeside ≠ 0 then VectorInverse plane.normal else plane.normal)
    ∧ ((∃ f, TryMerge env f1 f2 = .ok (some f))
        ↔ dot1 env (mergeNormal plane f1.planeside) f1.w f2.w i j ≤ env.CONTINUOUS_EPSILON
          ∧ dot2 env (mergeNormal plane f1.planeside) f1.w f2.w i j ≤ env.CONTINUOUS_EPSILON)
    ∧ (dot1 env (mergeNormal plane f1.planeside) f1.w f2.w i j > env.CONTINUOUS_EPSILON
        ∨ dot2 env (mergeNormal plane f1.planeside) f1.w f2.w i j > env.CONTINUOUS_EPSILON →
        TryMerge env f1 f2 = .ok none)
    ∧ (∀ e, TryMerge env f1 f2 ≠ .error e)
    ∧ (∀ f, TryMerge env f1 f2 = .ok (some f) →
        f.w = mergedWinding f1.w f2.w i j
          (decide (dot1 env (mergeNormal plane f1.planeside) f1.w f2.w i j
            < -env.CONTINUOUS_EPSILON))
          (decide (dot2 env (mergeNormal plane f1.planeside) f1.w f2.w i j
            < -env.CONTINUOUS_EPSILON))) := by
  have hT := TryMerge_of_findEdge_some env f1 f2 i j
    (compatible_of_findEdge env f1 f2 i j hside htex hcont hlm he) he
  rw [hp] at hT
  simp only [] at hT
  have hm : ¬ f1.w.length + f2.w.length > env.MAXEDGES := by omega
  refine ⟨rfl, rfl, rfl, ?_, ?_, ?_, ?_⟩
  · constructor
    · rintro ⟨f, hf⟩
      rw [hT] at hf
      by_cases h1 : dot1 env (mergeNormal plane f1.planeside) f1.w f2.w i j
          > env.CONTINUOUS_EPSILON
      · rw [if_pos h1] at hf
        simp at hf
      · rw [if_neg h1] at hf
        by_cases h2 : dot2 env (mergeNormal plane f1.planeside) f1.w f2.w i j
            > env.CONTINUOUS_EPSILON
        · rw [if_pos h2] at hf
          simp at hf
        · exact ⟨not_lt.1 h1, not_lt.1 h2⟩
    · rintro ⟨h1, h2⟩
      rw [hT, if_neg (not_lt.2 h1), if_neg (not_lt.2 h2), if_neg hm]
      exact ⟨_, rfl⟩
  · intro h
    rw [hT]
    by_cases h1 : dot1 env (mergeNormal plane f1.planeside) f1.w f2.w i j
        > env.CONTINUOUS_EPSILON
    · rw [if_pos h1]
    · rw [if_neg h1]
      rcases h with h | h
      · exact absurd h h1
      · rw [if_pos h]
  · intro e
    rw [hT]
    split_ifs <;> simp
  · intro f hf
    rw [hT] at hf
    by_cases h1 : dot1 env (mergeNormal plane f1.planeside) f1.w f2.w i j
        > env.CONTINUOUS_EPSILON
    · rw [if_pos h1] at hf
      simp at hf
    · rw [if_neg h1] at hf
      by_cases h2 : dot2 env (mergeNormal plane f1.planeside) f1.w f2.w i j
          > env.CONTINUOUS_EPSILON
      · rw [if_pos h2] at hf
        simp at hf
      · rw [if_neg h2, if_neg hm] at hf
        simp only [Except.ok.injEq, Option.some.injEq] at hf
        rw [← hf]

/-- Witness of C22: the unit squares `faceA` and `faceB` share the edge `(1, 0)` and merge
into the rectangle `faceAB`. -/
theorem TryMerge_convexity_tests_witness :
    faceA.w.length + faceB.w.length ≤ envQ.MAXEDGES
    ∧ findEdge envQ.EQUAL_EPSILON faceA.w faceB.w = some (1, 0)
    ∧ planeAt envQ.planes faceA.planenum = some planeZ0
    ∧ TryMerge envQ faceA faceB = .ok (some faceAB)
    ∧ dot1 envQ (mergeNormal planeZ0 faceA.planeside) faceA.w faceB.w 1 0
        ≤ envQ.CONTINUOUS_EPSILON
    ∧ dot2 envQ (mergeNormal planeZ0 faceA.planeside) faceA.w faceB.w 1 0
        ≤ envQ.CONTINUOUS_EPSILON :=
  ⟨by decide, findEdge_faceA_faceB, rfl, TryMerge_faceA_faceB,
   ((TryMerge_convexity_tests envQ faceA faceB 1 0 planeZ0 rfl rfl rfl rfl (by decide)
      findEdge_faceA_faceB rfl).2.2.2.1.1 ⟨_, TryMerge_faceA_faceB⟩).1,
   ((TryMerge_convexity_tests envQ faceA faceB 1 0 planeZ0 rfl rfl rfl rfl (by decide)
      findEdge_faceA_faceB rfl).2.2.2.1.1 ⟨_, TryMerge_faceA_faceB⟩).2⟩

/-! ## The winding built by TryMerge -/

theorem mod_window_inj (n a b : Nat) (hab : a ≤ b) (hlt : b < a + n) (h : a % n = b % n) :
    a = b := by
  have h1 : (b - a) % n = 0 := Nat.sub_mod_eq_zero_of_mod_eq h.symm
  rw [Nat.mod_eq_of_lt (by omega)] at h1
  omega

theorem mod_window_inj2 (n a b : Nat) (hlt : b < a + n) (hlt2 : a < b + n)
    (h : a % n = b % n) : a = b := by
  rcases Nat.le_total a b with hab | hab
  · exact mod_window_inj n a b hab hlt h
  · exact (mod_window_inj n b a hab hlt2 h.symm).symm

theorem keptIndices_true (n i : Nat) (hn : 2 ≤ n) :
    keptIndices n i true = (List.range (n - 1)).map (fun t => (i + 1 + t) % n) := by
  have e : n - 1 = (n - 2) + 1 := by omega
  rw [e, List.range_succ_eq_map]
  simp only [keptIndices, if_true, List.map_cons, List.map_map, List.singleton_append,
    Nat.add_zero]
  congr 1
  apply List.map_congr_left
  intro t _
  simp only [Function.comp, Nat.succ_eq_add_one]
  congr 1
  omega

theorem keptIndices_false (n i : Nat) :
    keptIndices n i false = (List.range (n - 2)).map (fun t => (i + 2 + t) % n) := by
  simp [keptIndices]

theorem keptIndices_cons (n i : Nat) :
    keptIndices n i true = (i + 1) % n :: keptIndices n i false := by
  simp [keptIndices]

theorem keptIndices_true_nodup (n i : Nat) (hn : 2 ≤ n) : (keptIndices n i true).Nodup := by
  rw [keptIndices_true n i hn]
  apply List.Nodup.map_on _ (List.nodup_range _)
  intro a ha b hb hab
  rw [List.mem_range] at ha hb
  have := mod_window_inj2 n (i + 1 + a) (i + 1 + b) (by omega) (by omega) hab
  omega

theorem keptIndices_nodup (n i : Nat) (keep : Bool) (hn : 2 ≤ n) :
    (keptIndices n i keep).Nodup := by
  have h := keptIndices_true_nodup n i hn
  cases keep
  · rw [keptIndices_cons] at h
    exact (List.nodup_cons.1 h).2
  · exact h

theorem not_mem_keptIndices_true (n i : Nat) (hn : 2 ≤ n) (hi : i < n) :
    i ∉ keptIndices n i true := by
  rw [keptIndices_true n i hn]
  intro h
  obtain ⟨t, ht, he⟩ := List.mem_map.1 h
  rw [List.mem_range] at ht
  have h2 : (i + 1 + t) % n = (i + n) % n := by
    rw [he, Nat.add_mod_right, Nat.mod_eq_of_lt hi]
  have := mod_window_inj2 n (i + 1 + t) (i + n) (by omega) (by omega) h2
  omega

theorem not_mem_keptIndices (n i : Nat) (keep : Bool) (hn : 2 ≤ n) (hi : i < n) :
    i ∉ keptIndices n i keep := by
  have h := not_mem_keptIndices_true n i hn hi
  cases keep
  · rw [keptIndices_cons] at h
    exact fun hm => h (List.mem_cons_of_mem _ hm)
  · exact h

theorem succ_mem_keptIndices (n i : Nat) (keep : Bool) (hn : 2 ≤ n) :
    (i + 1) % n ∈ keptIndices n i keep ↔ keep = true := by
  cases keep
  · have h := keptIndices_true_nodup n i hn
    rw [keptIndices_cons] at h
    simp only [Bool.false_eq_true, iff_false]
    exact (List.nodup_cons.1 h).1
  · simp [keptIndices_cons]

theorem keptIndices_count (n i : Nat) (keep : Bool) (hn : 2 ≤ n) :
    (keptIndices n i keep).count ((i + 1) % n) = keep.toNat := by
  cases keep
  · exact List.count_eq_zero.2
      (fun h => by simpa using (succ_mem_keptIndices n i false hn).1 h)
  · exact List.count_eq_one_of_mem (keptIndices_true_nodup n i hn)
      ((succ_mem_keptIndices n i true hn).2 rfl)

theorem keptIndices_length (n i : Nat) (keep : Bool) :
    (keptIndices n i keep).length = n - 2 + keep.toNat := by
  cases keep <;> simp [keptIndices]

theorem keptIndices_lt (n i : Nat) (keep : Bool) (hn : 0 < n) :
    ∀ k ∈ keptIndices n i keep, k < n := by
  intro k hk
  unfold keptIndices at hk
  rcases List.mem_append.1 hk with h | h
  · cases keep
    · simp at h
    · simp only [if_true, List.mem_singleton] at h
      rw [h]
      exact Nat.mod_lt _ hn
  · obtain ⟨t, _, he⟩ := List.mem_map.1 h
    rw [← he]
    exact Nat.mod_lt _ hn

theorem copyLoop_keptIndices (w : Winding) (i : Nat) (keep : Bool) (hi : i < w.length)
    (hn : 2 ≤ w.length) :
    copyLoop w i w.length (if keep then (i + 1) % w.length else (i + 2) % w.length)
      = (keptIndices w.length i keep).map (pt w) := by
  cases keep
  · simp only [Bool.false_eq_true, if_false]
    rw [copyLoop_from w i 2 hi (by omega) hn, keptIndices_false, List.map_map]
    rfl
  · simp only [if_true]
    rw [copyLoop_from w i 1 hi (by omega) (by omega), keptIndices_true _ _ hn, List.map_map]
    rfl

theorem mergedWinding_eq_kept (w1 w2 : Winding) (i j : Nat) (keep1 keep2 : Bool)
    (hi : i < w1.length) (hj : j < w2.length) (h1 : 2 ≤ w1.length) (h2 : 2 ≤ w2.length) :
    mergedWinding w1 w2 i j keep1 keep2
      = (keptIndices w1.length i keep2).map (pt w1)
        ++ (keptIndices w2.length j keep1).map (pt w2) := by
  unfold mergedWinding
  simp only []
  rw [← copyLoop_keptIndices w1 i keep2 hi h1, ← copyLoop_keptIndices w2 j keep1 hj h2]

/-- C23: when `TryMerge` succeeds on windings with `n1 >= 3` and `n2 >= 3` points, with the
matched edge pair `(i, j)` and the keep flags `keep1`, `keep2` of the two tests, the merged
winding is exactly `f1[i+1]` if `keep2`, then `f1[i+2], ..., f1[i-1]`, then `f2[j+1]` if
`keep1`, then `f2[j+2], ..., f2[j-1]` (indices cyclic).  No position of `f1` or `f2` is taken
twice; the endpoint `f1[i]` of the shared edge is never taken and its match `f2[j+1]` is taken
exactly once if `keep1` is set and not at all otherwise; the endpoint `f1[i+1]` is taken
exactly once if `keep2` is set and not at all otherwise, and its match `f2[j]` is never taken.
The result has `n1 + n2 - 4 + [keep1] + [keep2]` points (`n1 + n2 - 4` when both flags are
clear), which is at most `MAXEDGES - 2`. -/
theorem TryMerge_merged_winding (env : MergeEnv) (f1 f2 f : Face)
    (h : TryMerge env f1 f2 = .ok (some f)) (h1 : 3 ≤ f1.w.length) (h2 : 3 ≤ f2.w.length) :
    ∃ i j plane keep1 keep2,
      findEdge env.EQUAL_EPSILON f1.w f2.w = some (i, j)
      ∧ planeAt env.planes f1.planenum = some plane
      ∧ keep1 = decide (dot1 env (mergeNormal plane f1.planeside) f1.w f2.w i j
          < -env.CONTINUOUS_EPSILON)
      ∧ keep2 = decide (dot2 env (mergeNormal plane f1.planeside) f1.w f2.w i j
          < -env.CONTINUOUS_EPSILON)
      ∧ f.w = (keptIndices f1.w.length i keep2).map (pt f1.w)
          ++ (keptIndices f2.w.length j keep1).map (pt f2.w)
      ∧ (keptIndices f1.w.length i keep2).Nodup ∧ (keptIndices f2.w.length j keep1).Nodup
      ∧ i ∉ keptIndices f1.w.length i keep2
      ∧ (keptIndices f2.w.length j keep1).count ((j + 1) % f2.w.length) = keep1.toNat
      ∧ (keptIndices f1.w.length i keep2).count ((i + 1) % f1.w.length) = keep2.toNat
      ∧ j ∉ keptIndices f2.w.length j keep1
      ∧ f.w.length = f1.w.length + f2.w.length - 4 + keep1.toNat + keep2.toNat
      ∧ (keep1 = false → keep2 = false → f.w.length = f1.w.length + f2.w.length - 4)
      ∧ f.w.length ≤ env.MAXEDGES - 2 := by
  obtain ⟨i, j, plane, _, he, hp, _, _, hmax, hf⟩ := TryMerge_eq_some env f1 f2 f h
  obtain ⟨hi, hj, _⟩ := (findEdge_eq_some env.EQUAL_EPSILON f1.w f2.w i j).1 he
  have hw : f.w = (keptIndices f1.w.length i
        (decide (dot2 env (mergeNormal plane f1.planeside) f1.w f2.w i j
          < -env.CONTINUOUS_EPSILON))).map (pt f1.w)
      ++ (keptIndices f2.w.length j
        (decide (dot1 env (mergeNormal plane f1.planeside) f1.w f2.w i j
          < -env.CONTINUOUS_EPSILON))).map (pt f2.w) := by
    rw [hf]
    exact mergedWinding_eq_kept f1.w f2.w i j _ _ hi hj (by omega) (by omega)
  have hlen : ∀ k1 k2 : Bool,
      ((keptIndices f1.w.length i k2).map (pt f1.w)
        ++ (keptIndices f2.w.length j k1).map (pt f2.w)).length
      = f1.w.length + f2.w.length - 4 + k1.toNat + k2.toNat := by
    intro k1 k2
    rw [List.length_append, List.length_map, List.length_map, keptIndices_length,
      keptIndices_length]
    omega
  have hb : ∀ b : Bool, b.toNat ≤ 1 := fun b => by cases b <;> simp
  refine ⟨i, j, plane, _, _, he, hp, rfl, rfl, hw, keptIndices_nodup _ _ _ (by omega),
    keptIndices_nodup _ _ _ (by omega), not_mem_keptIndices _ _ _ (by omega) hi,
    keptIndices_count _ _ _ (by omega), keptIndices_count _ _ _ (by omega),
    not_mem_keptIndices _ _ _ (by omega) hj, ?_, ?_, ?_⟩
  · rw [hw]
    exact hlen _ _
  · intro k1 k2
    rw [hw, hlen, k1, k2]
    rfl
  · rw [hw, hlen]
    have := hb (decide (dot1 env (mergeNormal plane f1.planeside) f1.w f2.w i j
      < -env.CONTINUOUS_EPSILON))
    have := hb (decide (dot2 env (mergeNormal plane f1.planeside) f1.w f2.w i j
      < -env.CONTINUOUS_EPSILON))
    omega

/-- Witness of C23: the unit squares `faceA` and `faceB` merge into `faceAB`, whose 4 points
are at most `MAXEDGES - 2`. -/
theorem TryMerge_merged_winding_witness :
    TryMerge envQ faceA faceB = .ok (some faceAB)
    ∧ 3 ≤ faceA.w.length ∧ 3 ≤ faceB.w.length
    ∧ faceAB.w.length ≤ envQ.MAXEDGES - 2 := by
  obtain ⟨_, _, _, _, _, _, _, _, _, _, _, _, _, _, _, _, _, _, hmax⟩ :=
    TryMerge_merged_winding envQ faceA faceB faceAB TryMerge_faceA_faceB (by decide)
      (by decide)
  exact ⟨TryMerge_faceA_faceB, by decide, by decide, hmax⟩

/-! ## The up and right vectors of BaseWindingForPlane -/

theorem upReference_eq (B : ℚ) (hB : 0 < B) (n : Vec3) :
    upReference B n = if |n.z| > max |n.x| |n.y| then ⟨1, 0, 0⟩ else ⟨0, 0, 1⟩ := by
  unfold upReference
  simp only []
  rw [majorAxis_eq B hB n]
  by_cases h1 : |n.z| > max |n.x| |n.y|
  · rw [if_pos h1, if_pos h1]
    simp
  · rw [if_neg h1, if_neg h1]
    by_cases h2 : |n.y| > |n.x|
    · rw [if_pos h2]
      simp
    · rw [if_neg h2]
      simp

theorem BaseWindingForPlane_eq_points (B : ℚ) (hB : 0 < B) (N : Vec3 → Vec3) (p : Plane) :
    BaseWindingForPlane B N p = .ok (baseWindingPoints N p (upReference B p.normal)) := by
  unfold BaseWindingForPlane upReference
  simp only []
  rcases majorAxis_cases B hB p.normal with h | h | h
  · rw [if_pos (Or.inl h), if_pos (Or.inl h)]
  · rw [if_pos (Or.inr h), if_pos (Or.inr h)]
  · have h2 : ¬ (majorAxis B p.normal = 0 ∨ majorAxis B p.normal = 1) := by rw [h]; decide
    rw [if_neg h2, if_pos h, if_neg h2, if_pos h]

theorem baseWindingPoints_eq (N : Vec3 → Vec3) (p : Plane) (vup0 : Vec3) :
    baseWindingPoints N p vup0
      = [VectorAdd (VectorSubtract (VectorScale p.normal p.dist)
            (VectorScale (rightVector N p vup0) 8192)) (VectorScale (upVector N p vup0) 8192),
         VectorAdd (VectorAdd (VectorScale p.normal p.dist)
            (VectorScale (rightVector N p vup0) 8192)) (VectorScale (upVector N p vup0) 8192),
         VectorSubtract (VectorAdd (VectorScale p.normal p.dist)
            (VectorScale (rightVector N p vup0) 8192)) (VectorScale (upVector N p vup0) 8192),
         VectorSubtract (VectorSubtract (VectorScale p.normal p.dist)
            (VectorScale (rightVector N p vup0) 8192))
            (VectorScale (upVector N p vup0) 8192)] := rfl

theorem rightVector_orthogonal (N : Vec3 → Vec3) (p : Plane) (vup0 : Vec3) :
    DotProduct (rightVector N p vup0) p.normal = 0 := by
  simp only [rightVector, CrossProduct, DotProduct]
  ring

theorem upVector_dot (N : Vec3 → Vec3) (hN : ScalesNonneg N) (p : Plane) (vup0 : Vec3) :
    ∃ c : ℚ, 0 ≤ c ∧ DotProduct (upVector N p vup0) p.normal
      = c * (DotProduct vup0 p.normal * (1 - DotProduct p.normal p.normal)) := by
  obtain ⟨c, hc, he⟩ := hN (VectorMA vup0 (-(DotProduct vup0 p.normal)) p.normal)
  refine ⟨c, hc, ?_⟩
  unfold upVector
  rw [he]
  simp only [VectorMA, DotProduct]
  ring

theorem upVector_orthogonal (N : Vec3 → Vec3) (hN : ScalesNonneg N) (p : Plane) (vup0 : Vec3)
    (h : DotProduct p.normal p.normal = 1 ∨ DotProduct vup0 p.normal = 0) :
    DotProduct (upVector N p vup0) p.normal = 0 := by
  obtain ⟨c, _, he⟩ := upVector_dot N hN p vup0
  rw [he]
  rcases h with h | h
  · rw [h]
    ring
  · rw [h]
    ring

theorem baseWindingPoints_on_plane (N : Vec3 → Vec3) (hN : ScalesNonneg N) (p : Plane)
    (vup0 : Vec3) (hu : DotProduct p.normal p.normal = 1) :
    ∀ q ∈ baseWindingPoints N p vup0, planeDist p q = 0 := by
  have hr := rightVector_orthogonal N p vup0
  have hup := upVector_orthogonal N hN p vup0 (Or.inl hu)
  intro q hq
  rw [baseWindingPoints_eq] at hq
  simp only [List.mem_cons, List.mem_singleton, List.not_mem_nil, or_false] at hq
  simp only [DotProduct] at hr hup hu
  rcases hq with rfl | rfl | rfl | rfl <;>
    simp only [planeDist, DotProduct, VectorAdd, VectorSubtract, VectorScale]
  · linear_combination p.dist * hu + 8192 * hup - 8192 * hr
  · linear_combination p.dist * hu + 8192 * hup + 8192 * hr
  · linear_combination p.dist * hu - 8192 * hup + 8192 * hr
  · linear_combination p.dist * hu - 8192 * hup - 8192 * hr

theorem upReference_planeSkew : upReference 18000 planeSkew.normal = ⟨0, 0, 1⟩ := by
  rw [upReference_eq 18000 (by norm_num)]
  norm_num [planeSkew]

theorem upVector_planeSkew : upVector normalizeQ planeSkew ⟨0, 0, 1⟩ = ⟨-1, 0, 0⟩ := by
  have e : VectorMA ⟨0, 0, 1⟩ (-(DotProduct ⟨0, 0, 1⟩ planeSkew.normal)) planeSkew.normal
      = ⟨-1, 0, 0⟩ := by
    norm_num [VectorMA, DotProduct, planeSkew]
  unfold upVector
  rw [e]
  exact normalizeQ_unit ⟨-1, 0, 0⟩ (by norm_num [DotProduct])

theorem BaseWindingForPlane_planeSkew :
    BaseWindingForPlane 18000 normalizeQ planeSkew
      = .ok [⟨-8192, -8192, 0⟩, ⟨-8192, 8192, 0⟩, ⟨8192, 8192, 0⟩, ⟨8192, -8192, 0⟩] := by
  rw [BaseWindingForPlane_eq_points 18000 (by norm_num), upReference_planeSkew,
    baseWindingPoints_eq]
  unfold rightVector
  rw [upVector_planeSkew]
  norm_num [VectorAdd, VectorSubtract, VectorScale, CrossProduct, planeSkew]

/-- C25 (as stated, refuted): the plane with the normal `(1,0,1)`, which is not zero, and
`dist = 0`: the up reference is the `z` axis, the up vector of `BaseWindingForPlane` is
`(-1,0,0)`, which is not orthogonal to the normal, and the offset of the first returned point
`(-8192,-8192,0)` from `normal * dist` is not orthogonal to the normal either. -/
theorem BaseWindingForPlane_up_not_orthogonal :
    planeSkew.normal ≠ vec3_origin
    ∧ upReference 18000 planeSkew.normal = ⟨0, 0, 1⟩
    ∧ upVector normalizeQ planeSkew (upReference 18000 planeSkew.normal) = ⟨-1, 0, 0⟩
    ∧ DotProduct (upVector normalizeQ planeSkew (upReference 18000 planeSkew.normal))
        planeSkew.normal ≠ 0
    ∧ BaseWindingForPlane 18000 normalizeQ planeSkew
        = .ok [⟨-8192, -8192, 0⟩, ⟨-8192, 8192, 0⟩, ⟨8192, 8192, 0⟩, ⟨8192, -8192, 0⟩]
    ∧ DotProduct (VectorSubtract ⟨-8192, -8192, 0⟩
        (VectorScale planeSkew.normal planeSkew.dist)) planeSkew.normal ≠ 0 := by
  refine ⟨?_, upReference_planeSkew, ?_, ?_, BaseWindingForPlane_planeSkew, ?_⟩
  · simp [planeSkew, vec3_origin]
  · rw [upReference_planeSkew, upVector_planeSkew]
  · rw [upReference_planeSkew, upVector_planeSkew]
    norm_num [DotProduct, planeSkew]
  · norm_num [DotProduct, VectorSubtract, VectorScale, planeSkew]

/-- C25 (amended): for every plane, with a positive `BOGUS_RANGE` and a `VectorNormalize`
that scales its argument, the four points returned by `BaseWindingForPlane` are the offsets
of `normal * dist` by plus or minus 8192 times the right vector and plus or minus 8192 times
the up vector; the up reference is the `z` axis when the first largest |normal component| is
`x` or `y` and the `x` axis when it is `z`; the right vector is orthogonal to the normal, and
the up vector is orthogonal to the normal when the normal is a unit vector (or is orthogonal
to the up reference), so for a unit normal every one of the four points lies exactly on the
plane (`dot (point, normal) - dist = 0`). -/
theorem BaseWindingForPlane_offsets (B : ℚ) (N : Vec3 → Vec3) (p : Plane) (hB : 0 < B)
    (hN : ScalesNonneg N) :
    BaseWindingForPlane B N p
      = .ok [VectorAdd (VectorSubtract (VectorScale p.normal p.dist)
              (VectorScale (rightVector N p (upReference B p.normal)) 8192))
              (VectorScale (upVector N p (upReference B p.normal)) 8192),
             VectorAdd (VectorAdd (VectorScale p.normal p.dist)
              (VectorScale (rightVector N p (upReference B p.normal)) 8192))
              (VectorScale (upVector N p (upReference B p.normal)) 8192),
             VectorSubtract (VectorAdd (VectorScale p.normal p.dist)
              (VectorScale (rightVector N p (upReference B p.normal)) 8192))
              (VectorScale (upVector N p (upReference B p.normal)) 8192),
             VectorSubtract (VectorSubtract (VectorScale p.normal p.dist)
              (VectorScale (rightVector N p (upReference B p.normal)) 8192))
              (VectorScale (upVector N p (upReference B p.normal)) 8192)]
    ∧ upReference B p.normal
        = (if |p.normal.z| > max |p.normal.x| |p.normal.y| then ⟨1, 0, 0⟩ else ⟨0, 0, 1⟩)
    ∧ DotProduct (rightVector N p (upReference B p.normal)) p.normal = 0
    ∧ (DotProduct p.normal p.normal = 1
        ∨ DotProduct (upReference B p.normal) p.normal = 0 →
        DotProduct (upVector N p (upReference B p.normal)) p.normal = 0)
    ∧ (DotProduct p.normal p.normal = 1 →
        ∃ w, BaseWindingForPlane B N p = .ok w ∧ w.length = 4
          ∧ ∀ q ∈ w, planeDist p q = 0) := by
  refine ⟨?_, upReference_eq B hB p.normal, rightVector_orthogonal N p _,
    upVector_orthogonal N hN p _, ?_⟩
  · rw [BaseWindingForPlane_eq_points B hB, baseWindingPoints_eq]
  · intro hu
    exact ⟨_, BaseWindingForPlane_eq_points B hB N p, rfl,
      baseWindingPoints_on_plane N hN p _ hu⟩

/-- Witness of C25 (amended): the plane `x = 1/2`, whose normal `(1,0,0)` is a unit vector,
with `BOGUS_RANGE = 18000` and the sample normalisation. -/
theorem BaseWindingForPlane_offsets_witness :
    (0 : ℚ) < 18000 ∧ ScalesNonneg normalizeQ
    ∧ DotProduct planeXHalf.normal planeXHalf.normal = 1
    ∧ (∃ w, BaseWindingForPlane 18000 normalizeQ planeXHalf = .ok w ∧ w.length = 4
        ∧ ∀ q ∈ w, planeDist planeXHalf q = 0) :=
  ⟨by norm_num, normalizeQ_scales, by norm_num [DotProduct, planeXHalf],
   (BaseWindingForPlane_offsets 18000 normalizeQ planeXHalf (by norm_num)
      normalizeQ_scales).2.2.2.2 (by norm_num [DotProduct, planeXHalf])⟩

end Qbsp
